import Mathlib

/-!
# Key-encoding layer of the Blockchain Abstraction Layer

Shallow embedding of `BAL/BAL_EOSIO/IndexHelpers.hpp`: the variant encoder
(`Decompose`, `Decompose_MIN`, `Decompose_MAX`) and the composite key builder
(`MakeCompositeKey`).

Machine integers are natural numbers reduced explicitly: `% 2^64` for
`uint64_t`, `% 2^128` for `UInt128`, `% 2^256` for `UInt256`.
Operations that can abort the transaction return `Except Failure _`.
-/

namespace BAL

/-! ## Failures -/

/-- The ways an operation of this layer aborts the enclosing transaction. -/
inductive Failure where
  /-- A runtime alternative index outside the declared type list. -/
  | InvalidDispatchIndex
  /-- The accessor `get<T>()` was asked for a type the variant does not hold. -/
  | WrongAlternative
  /-- A `Verify(condition, message)` whose condition was false. -/
  | VerifyFailed (message : String)
  /-- A table lookup by id that found no row. -/
  | NotFound (message : String)
  /-- A `requireAuthorization(account)` for an account that did not authorize. -/
  | MissingAuthorization (account : Nat)
  /-- A step the language leaves undefined, such as reading through `end()`. -/
  | Undefined (what : String)
deriving DecidableEq

/-- Modelled from the spec: `BAL::Verify` (declared in the absent `BAL/BAL.hpp`).
Precondition violations "are fatal aborts of the entire enclosing
transaction": a false condition fails carrying the message, a true one
continues. -/
def Verify (condition : Bool) (message : String) : Except Failure Unit :=
  if condition then .ok () else .error (.VerifyFailed message)

/-! ## Payload types and the static variant -/

/-- What `Decompose`, `Decompose_MIN` and `Decompose_MAX` require of a payload
type `T` of the variant (the types themselves are template parameters):
* `toUInt64 x` is the explicit conversion `uint64_t(x)`, demanded by the
  `static_assert` of `Decompose`;
* `ofUInt64 n` is the brace construction `T{n}` from a 64-bit literal, used by
  the two sentinels. -/
structure Alternative where
  carrier : Type
  toUInt64 : carrier → Nat
  ofUInt64 : Nat → carrier

/-- The built-in `uint64_t` as a payload type: conversion and brace
construction are the identity on 64-bit values. -/
def uint64_t : Alternative where
  carrier := Nat
  toUInt64 := fun x => x % 2 ^ 64
  ofUInt64 := fun n => n % 2 ^ 64

/-- Modelled from the spec: `BAL::ID<Tag>` (declared in the absent
`BAL/Types.hpp`), the per-table identifier type of the example contract.  It
wraps one 64-bit unsigned value and converts implicitly to `uint64_t`, as
`Cargo::manifest_key` relies on; the tag only tells the types apart. -/
def ID (_tag : String) : Alternative where
  carrier := Nat
  toUInt64 := fun x => x % 2 ^ 64
  ofUInt64 := fun n => n % 2 ^ 64

/-- Modelled from the spec: `Util::StaticVariant<Ts...>` (declared in the absent
`Utils/StaticVariant.hpp`): "a value that is exactly one of a fixed set of
alternative payload types, carrying a runtime discriminant identifying
which".  `which` is the 0-based position of the held type in `Ts`. -/
structure StaticVariant (Ts : List Alternative) where
  which : Fin Ts.length
  value : (Ts.get which).carrier

/-- Modelled from the spec: the accessor `id.template get<T>()` of the absent
`Util::StaticVariant`, with `T` named by its position in `Ts`: the payload when
`T` is the held alternative, a failure otherwise. -/
def StaticVariant.get {Ts : List Alternative} (id : StaticVariant Ts) (i : Fin Ts.length) :
    Except Failure (Ts.get i).carrier :=
  if h : id.which = i then .ok (h ▸ id.value) else .error .WrongAlternative

/-- Modelled from the spec: `Util::TypeList::runtime::Dispatch` (declared in the
absent `Utils/TypeList.hpp`).  "Precondition: `0 ≤ index < N`; violation fails
with `InvalidDispatchIndex`"; otherwise the operation is invoked once, bound to
the type at position `index`.  The operation is a callable that acts by side
effect (in `Decompose` it assigns to a captured variable), so it is an action
of a monad `m` in which a failure can be thrown; `Decompose` uses it with
`m = Except Failure`. -/
def Dispatch {m : Type → Type} [MonadExcept Failure m] {β : Type} (N : Nat) (index : Nat)
    (operation : Fin N → m β) : m β :=
  if h : index < N then operation ⟨index, h⟩ else throw Failure.InvalidDispatchIndex

/-- Operations whose invocations can be observed: an action runs on a log of
the positions at which an operation has been invoked so far, and a failure
leaves the log as it is at that moment. -/
abbrev Recording : Type → Type := ExceptT Failure (StateM (List Nat))

/-- The operation that does nothing but add the position it is invoked at to the
log. -/
def recordInvocation {N : Nat} (v : Fin N) : Recording Unit :=
  modify (fun log => log ++ [v.val])

/-- An action run from a given log: its outcome and the log afterwards. -/
def Recording.runFrom {α : Type} (action : Recording α) (log : List Nat) :
    Except Failure α × List Nat :=
  (ExceptT.run action).run log

/-! ## Variant encoder -/

/-- The message of the overflow check in `Decompose`. -/
def tooLargeMessage : String :=
  "Variant value is too large to be decomposed. Please report this error"

/-- The function `uint64_t Decompose(const Util::StaticVariant<Ts...>& id)`.
The `static_assert(sizeof...(Ts) < 0b1000)` is the proof argument: the function
does not exist for longer type lists. -/
def Decompose (Ts : List Alternative) (_static_assert : Ts.length < 0b1000)
    (id : StaticVariant Ts) : Except Failure Nat := do
  let value ← Dispatch Ts.length id.which.val (fun v => do
    let x ← id.get v
    pure ((Ts.get v).toUInt64 x % 2 ^ 64))
  Verify (decide (value < (1 <<< 61) % 2 ^ 64)) tooLargeMessage
  pure (value ||| ((id.which.val % 2 ^ 64) <<< 61) % 2 ^ 64)

/-- The sentinel `V Decompose_MIN()`: `Util::TypeList::first<typename V::List>{0}`, the first
declared type brace-constructed from `0`. -/
def Decompose_MIN (Ts : List Alternative) (nonempty : 0 < Ts.length) : StaticVariant Ts :=
  { which := ⟨0, nonempty⟩, value := (Ts.get ⟨0, nonempty⟩).ofUInt64 0 }

/-- The sentinel `V Decompose_MAX()`: `T{~0ull}` for `T = Util::TypeList::last<typename V::List>`,
the last declared type brace-constructed from the all-ones 64-bit literal. -/
def Decompose_MAX (Ts : List Alternative) (nonempty : 0 < Ts.length) : StaticVariant Ts :=
  { which := ⟨Ts.length - 1, Nat.sub_lt nonempty Nat.one_pos⟩
    value := (Ts.get ⟨Ts.length - 1, Nat.sub_lt nonempty Nat.one_pos⟩).ofUInt64 (2 ^ 64 - 1) }

/-- The alternative position `p` of a tagged value, `id.which()`. -/
def StaticVariant.position {Ts : List Alternative} (id : StaticVariant Ts) : Nat :=
  id.which.val

/-- The converted magnitude `m` of a tagged value: `uint64_t(id.get<T>())` for
the held type `T`. -/
def StaticVariant.magnitude {Ts : List Alternative} (id : StaticVariant Ts) : Nat :=
  (Ts.get id.which).toUInt64 id.value % 2 ^ 64

/-! ## Composite key builder -/

/-- The two-field `UInt128 MakeCompositeKey(uint64_t a, uint64_t b)`:
`(UInt128(a) << 64) + b` in 128-bit unsigned arithmetic. -/
def MakeCompositeKey (a b : Nat) : Nat :=
  (((a % 2 ^ 64) <<< 64) % 2 ^ 128 + b % 2 ^ 64) % 2 ^ 128

/-- Modelled from the spec: the constructor of `UInt256` from an array of 64-bit
words (`UInt256` is declared in the absent `BAL/Types.hpp`).  "256-bit key:
three consecutive 64-bit words, most-significant field first": the words are
concatenated into one unsigned integer, the first word most significant. -/
def UInt256.ofWords (words : List Nat) : Nat :=
  (words.foldl (fun acc w => acc * 2 ^ 64 + w % 2 ^ 64) 0) % 2 ^ 256

/-- The three-field `UInt256 MakeCompositeKey(uint64_t a, uint64_t b, uint64_t c)`
(the overload is told apart by the suffix `3`):
`UInt256(std::array<uint64_t, 3>{a, b, c})`. -/
def MakeCompositeKey3 (a b c : Nat) : Nat :=
  UInt256.ofWords [a % 2 ^ 64, b % 2 ^ 64, c % 2 ^ 64]

/-! ## Example unions -/

/-- The union `StaticVariant<ID<"warehouses">, uint64_t>`. -/
abbrev warehouseOrRaw : List Alternative := [ID "warehouses", uint64_t]

/-- The union `StaticVariant<uint64_t>` with a single alternative. -/
abbrev rawOnly : List Alternative := [uint64_t]

/-- A value of `warehouseOrRaw` holding alternative 0 with payload `n`. -/
def warehouseValue (n : Nat) : StaticVariant warehouseOrRaw := { which := ⟨0, by decide⟩, value := n }

/-- A value of `warehouseOrRaw` holding alternative 1 with payload `n`. -/
def rawValue (n : Nat) : StaticVariant warehouseOrRaw := { which := ⟨1, by decide⟩, value := n }

/-! ## Fixed string key encoder -/

/-- The bytes that the C library's `strncpy(dest, src, n)` writes to `dest`:
the characters of `src` up to, not including, its first zero byte, and zero
bytes from there on until `n` bytes are written.  A byte is a natural number
below 256.  The end of `src` is treated like a zero byte; `MakeStringKey` never
asks for more bytes than `src` holds. -/
def strncpy (src : List Nat) : Nat → List Nat
  | 0 => []
  | n + 1 =>
    match src with
    | [] => List.replicate (n + 1) 0
    | c :: rest => if c = 0 then List.replicate (n + 1) 0 else c :: strncpy rest n

/-- Modelled from the spec: the default-constructed `UInt256 key` (`UInt256` is
declared in the absent `BAL/Types.hpp`), as the bytes `key.data()` points to.
"If shorter, the remaining bytes are zero": the fresh key is 32 zero bytes. -/
def UInt256.zeroBytes : List Nat := List.replicate (256 / 8) 0

/-- The function `UInt256 MakeStringKey(std::string_view str)`: `strncpy` of
`std::min<uint64_t>(str.size(), 256/8)` bytes of `str` over the start of a
fresh key.  The key is given as its 32 bytes in memory order. -/
def MakeStringKey (str : List Nat) : List Nat :=
  let key := UInt256.zeroBytes
  let count := min str.length (256 / 8)
  strncpy str count ++ key.drop count

/-- The bytes of an ASCII text, one per character. -/
def asciiBytes (text : String) : List Nat := text.toList.map (fun c => c.toNat % 256)

/-! ## Generic variadic composite key -/

/-- A built-in integer type of any width and signedness, its values given as
mathematical integers: conversion to `uint64_t` reduces modulo `2^64`. -/
def integer : Alternative where
  carrier := Int
  toUInt64 := fun x => (x % 2 ^ 64).toNat
  ofUInt64 := fun n => (n : Int)

/-- One argument of the variadic `MakeCompositeKey(Args... args)`: a value of
some type convertible to `uint64_t`. -/
structure Argument where
  type : Alternative
  value : type.carrier

/-- The cast `uint64_t(arg)` applied to each argument of the variadic form. -/
def Argument.toUInt64 (arg : Argument) : Nat :=
  arg.type.toUInt64 arg.value % 2 ^ 64

/-- The deduced `auto` result of the variadic form: a `UInt128` from the
two-field overload or a `UInt256` from the three-field overload. -/
inductive CompositeKey where
  | UInt128 (key : Nat)
  | UInt256 (key : Nat)
deriving DecidableEq

/-- The variadic `auto MakeCompositeKey(Args... args)`:
`MakeCompositeKey(uint64_t(args)...)`, which resolves to the two-field overload
for two arguments and to the three-field overload for three.  For any other
number of arguments no overload takes the converted arguments and the call
does not compile (`none`). -/
def MakeCompositeKeyVariadic (args : List Argument) : Option CompositeKey :=
  match args.map Argument.toUInt64 with
  | [a, b] => some (.UInt128 (MakeCompositeKey a b))
  | [a, b, c] => some (.UInt256 (MakeCompositeKey3 a b c))
  | _ => none

/-! ## Secondary index descriptor -/

/-- The template `SecondaryIndex<tag, Object, Field, Getter>`: compile-time
information about a secondary index on an object. -/
structure SecondaryIndex (Object Field : Type) where
  Tag : String
  KeyGetter : Object → Field

/-! ## The supply chain example contract: tables -/

/-- Modelled from the spec: `BAL::AccountHandle` (declared in the absent
`BAL/Types.hpp`), the identity of an account, here its 64-bit number. -/
abbrev AccountHandle := Nat

/-- Modelled from the spec: `BAL::TransactionId` (declared in the absent
`BAL/Types.hpp`), the identifier of a transaction, here a number. -/
abbrev TransactionId := Nat

/-- The identifier type `WarehouseId = BAL::ID<BAL::NameTag<WarehouseTableName>>`, by its value. -/
abbrev WarehouseId := Nat

/-- The identifier type `InventoryId = BAL::ID<BAL::NameTag<InventoryTableName>>`, by its value. -/
abbrev InventoryId := Nat

/-- The identifier type `ManifestId = BAL::ID<BAL::NameTag<ManifestTableName>>`, by its value. -/
abbrev ManifestId := Nat

/-- The identifier type `CargoId = BAL::ID<BAL::NameTag<CargoTableName>>`, by its value. -/
abbrev CargoId := Nat

/-- The row type `struct Warehouse` of table `warehouses`. -/
structure SupplyChain.Warehouse where
  id : WarehouseId
  manager : AccountHandle
  description : String
deriving DecidableEq

/-- The row type `struct Inventory` of table `inventory`; `quantity` is a `uint32_t`. -/
structure SupplyChain.Inventory where
  id : InventoryId
  description : String
  origin : TransactionId
  movement : List TransactionId
  quantity : Nat := 0
deriving DecidableEq

/-- The row type `struct Manifest` of table `manifests`. -/
structure SupplyChain.Manifest where
  id : ManifestId
  description : String
  sender : WarehouseId
deriving DecidableEq

/-- The row type `struct Cargo` of table `cargo`; `quantity` is a `uint32_t`. -/
structure SupplyChain.Cargo where
  id : CargoId
  manifest : ManifestId
  description : String
  origin : TransactionId
  movement : List TransactionId
  quantity : Nat := 0
deriving DecidableEq

/-- The getter `WarehouseId primary_key() const { return id; }`. -/
def SupplyChain.Warehouse.primary_key (w : SupplyChain.Warehouse) : Nat := w.id

/-- The getter `InventoryId primary_key() const { return id; }`. -/
def SupplyChain.Inventory.primary_key (i : SupplyChain.Inventory) : Nat := i.id

/-- The getter `ManifestId primary_key() const { return id; }`. -/
def SupplyChain.Manifest.primary_key (m : SupplyChain.Manifest) : Nat := m.id

/-- The getter `CargoId primary_key() const { return id; }`. -/
def SupplyChain.Cargo.primary_key (c : SupplyChain.Cargo) : Nat := c.id

/-- The getter `uint64_t manifest_key() const { return manifest; }`: the manifest
id converted to `uint64_t`. -/
def SupplyChain.Cargo.manifest_key (c : SupplyChain.Cargo) : Nat :=
  (ID "manifests").toUInt64 c.manifest % 2 ^ 64

/-- The index name `ByManifest = "by.manifest"_N`. -/
def SupplyChain.Cargo.ByManifest : String := "by.manifest"

/-- The declaration `using SecondaryIndexes = List<SecondaryIndex<ByManifest, Cargo,
uint64_t, &Cargo::manifest_key>>` of the cargo table. -/
def SupplyChain.Cargo.SecondaryIndexes : List (SecondaryIndex SupplyChain.Cargo Nat) :=
  [{ Tag := SupplyChain.Cargo.ByManifest, KeyGetter := SupplyChain.Cargo.manifest_key }]

/-! ## The supply chain example contract: tables and environment

The checks of the contract carry the leading literal of their message; the
values spliced into a message and the `BAL::Log` lines are left out. -/

/-- Modelled from the spec: row lookup of `BAL::Table` (declared in the absent
`BAL/Table.hpp`): the row whose primary key is `id`, if any.  A table is the
list of its rows. -/
def Table.find {Row : Type} (key : Row → Nat) (rows : List Row) (id : Nat) : Option Row :=
  rows.find? (fun r => key r == id)

/-- Modelled from the spec: `table.getId(id, message)` of the absent `BAL::Table`:
"`getById(id) -> record` (fails with `NotFound` if absent)". -/
def Table.getId {Row : Type} (key : Row → Nat) (rows : List Row) (id : Nat) (message : String) :
    Except Failure Row :=
  match Table.find key rows id with
  | some r => .ok r
  | none => .error (.NotFound message)

/-- Modelled from the spec: `table.modify(record, payer, mutator)` of the absent
`BAL::Table`: the row `record` refers to, found by its primary key, is replaced
by the mutated row; every other row is kept. -/
def Table.modify {Row : Type} (key : Row → Nat) (rows : List Row) (record : Row)
    (payer : AccountHandle) (mutator : Row → Row) : List Row :=
  match rows with
  | [] => []
  | r :: rest =>
    if key r == key record then mutator r :: rest
    else r :: Table.modify key rest record payer mutator

/-- The tables of the contract: `getTable<Warehouses>(GLOBAL_SCOPE)`, and per
scope `getTable<Stock>(warehouseId)`, `getTable<Manifests>(carrier)` and
`getTable<CargoStock>(carrier)`. -/
structure SupplyChain.Database where
  warehouses : List SupplyChain.Warehouse
  stock : Nat → List SupplyChain.Inventory
  manifests : Nat → List SupplyChain.Manifest
  cargo : Nat → List SupplyChain.Cargo

/-- Modelled from the spec: what an action sees of the transaction it runs in
(`BAL::Contract` is declared in the absent `BAL/BAL.hpp`): the accounts whose
authorization the transaction carries, and `currentTransactionId()`. -/
structure SupplyChain.Context where
  authorizations : List AccountHandle
  currentTransactionId : TransactionId

/-- Modelled from the spec: `requireAuthorization(account)` of the absent
`BAL::Contract`: fails unless the transaction carries the account's
authorization. -/
def SupplyChain.requireAuthorization (ctx : SupplyChain.Context) (account : AccountHandle) :
    Except Failure Unit :=
  if account ∈ ctx.authorizations then .ok () else .error (.MissingAuthorization account)

/-- The constant `MAX_DESCRIPTION_SIZE = 250`. -/
def SupplyChain.MAX_DESCRIPTION_SIZE : Nat := 250

/-- The type `Adjustment = variant<uint32_t, int32_t>`: an absolute quantity or a
signed delta. -/
inductive SupplyChain.Adjustment where
  | uint32_t (quantity : Nat)
  | int32_t (delta : Int)
deriving DecidableEq

/-! ## The supply chain example contract: actions -/

/-- The action `SupplyChain::updateWarehouse`.  A `string` is a sequence of
characters and `size()` its length. -/
def SupplyChain.updateWarehouse (ctx : SupplyChain.Context) (db : SupplyChain.Database)
    (manager : AccountHandle) (warehouseId : WarehouseId) (newManager : Option AccountHandle)
    (newDescription : Option String) (documentation : String) :
    Except Failure SupplyChain.Database := do
  Verify (newManager.isSome || newDescription.isSome)
    "Cannot update warehouse: no changes specified"
  SupplyChain.requireAuthorization ctx manager
  match newManager with
  | some m => do
    Verify (manager != m) "New manager must be different from current manager"
    SupplyChain.requireAuthorization ctx m
  | none => pure ()
  Verify (decide (documentation.length ≤ SupplyChain.MAX_DESCRIPTION_SIZE))
    "Documentation length must not exceed"
  match newDescription with
  | some d =>
    Verify (decide (d.length ≤ SupplyChain.MAX_DESCRIPTION_SIZE))
      "New description length must not exceed"
  | none => pure ()
  let warehouse ← Table.getId SupplyChain.Warehouse.primary_key db.warehouses warehouseId
    "Couldn't find warehouse with requested ID"
  Verify (warehouse.manager == manager) "Cannot update warehouse: authorizing account"
  match newDescription with
  | some d =>
    Verify (warehouse.description != d)
      "New description must be different from current description"
  | none => pure ()
  let payer := match newManager with
    | some m => m
    | none => manager
  let warehouses := Table.modify SupplyChain.Warehouse.primary_key db.warehouses warehouse payer
    (fun warehouse =>
      let warehouse := match newManager with
        | some m => { warehouse with manager := m }
        | none => warehouse
      match newDescription with
      | some d => { warehouse with description := d }
      | none => warehouse)
  pure { db with warehouses := warehouses }

/-- The mutator `[&newDescription, &quantityAdjustment](Inventory& inventory)` with
which `adjustInventory` commits: the description is replaced when one is given;
an absolute adjustment is assigned to `quantity`, a relative one is added to it
in 32-bit unsigned arithmetic. -/
def SupplyChain.adjustInventory.commit (newDescription : Option String)
    (quantityAdjustment : Option SupplyChain.Adjustment) (inventory : SupplyChain.Inventory) :
    SupplyChain.Inventory :=
  let inventory := match newDescription with
    | some d => { inventory with description := d }
    | none => inventory
  match quantityAdjustment with
  | some (.uint32_t quantity) => { inventory with quantity := quantity }
  | some (.int32_t delta) =>
    { inventory with quantity := (((inventory.quantity : Int) + delta) % 2 ^ 32).toNat }
  | none => inventory

/-- The action `SupplyChain::adjustInventory`.  `uint32_t(x)` is `x mod 2^32`;
the negation `-adjustment` wraps like the machine's two's complement. -/
def SupplyChain.adjustInventory (ctx : SupplyChain.Context) (db : SupplyChain.Database)
    (warehouseId : WarehouseId) (manager : AccountHandle) (inventoryId : InventoryId)
    (newDescription : Option String) (quantityAdjustment : Option SupplyChain.Adjustment)
    (documentation : String) : Except Failure SupplyChain.Database := do
  SupplyChain.requireAuthorization ctx manager
  Verify (decide (documentation.length ≤ SupplyChain.MAX_DESCRIPTION_SIZE))
    "Documentation size cannot exceed"
  match newDescription with
  | some d =>
    Verify (decide (d.length ≤ SupplyChain.MAX_DESCRIPTION_SIZE))
      "New description size cannot exceed"
  | none => pure ()
  let warehouse ← Table.getId SupplyChain.Warehouse.primary_key db.warehouses warehouseId
    "Cannot adjust inventory: specified warehouse does not exist"
  Verify (warehouse.manager == manager) "Cannot adjust inventory: authorizing account"
  Verify (newDescription.isSome || quantityAdjustment.isSome)
    "Cannot adjust inventory: no adjustment requested"
  let stock := db.stock warehouseId
  let inventory ← Table.getId SupplyChain.Inventory.primary_key stock inventoryId
    "Cannot adjust inventory: specified inventory record does not exist"
  match quantityAdjustment with
  | some (.int32_t adjustment) => do
    Verify (adjustment != 0) "Cannot adjust inventory: quantity delta cannot be zero"
    if adjustment < 0 then
      Verify (decide (((-adjustment) % 2 ^ 32).toNat ≤ inventory.quantity))
        "Cannot adjust inventory quantity down by"
    else
      let maxAdjustment := (((2 ^ 32 - 1 : Int) - inventory.quantity) % 2 ^ 32).toNat
      Verify (decide ((adjustment % 2 ^ 32).toNat < maxAdjustment))
        "Cannot adjust inventory quantity up by"
  | _ => pure ()
  let stock := Table.modify SupplyChain.Inventory.primary_key stock inventory manager
    (SupplyChain.adjustInventory.commit newDescription quantityAdjustment)
  pure { db with stock := Function.update db.stock warehouseId stock }

/-! ## Example state of the supply chain contract -/

/-- A transaction authorized by accounts 100 and 200. -/
def SupplyChain.exampleContext : SupplyChain.Context :=
  { authorizations := [100, 200], currentTransactionId := 7 }

/-- Two warehouses; warehouse 1 stocks graphite and lumber. -/
def SupplyChain.exampleDatabase : SupplyChain.Database :=
  { warehouses := [⟨1, 100, "north"⟩, ⟨2, 200, "south"⟩]
    stock := fun w => if w = 1 then [⟨1, "graphite", 5, [], 40⟩, ⟨2, "lumber", 5, [], 10⟩] else []
    manifests := fun _ => []
    cargo := fun _ => [] }

/-- The example state after the graphite stock of warehouse 1 went from 40 to 35. -/
def SupplyChain.exampleAdjusted : SupplyChain.Database :=
  { SupplyChain.exampleDatabase with
    stock := Function.update SupplyChain.exampleDatabase.stock 1
      [⟨1, "graphite", 5, [], 35⟩, ⟨2, "lumber", 5, [], 10⟩] }

/-! ## More table operations

The rows of a table are listed in iteration order, that is by ascending
primary key. -/

/-- Modelled from the spec: `table.erase(record)` of the absent `BAL::Table`:
the row `record` refers to, found by its primary key, is removed; every other
row is kept. -/
def Table.erase {Row : Type} (key : Row → Nat) (rows : List Row) (record : Row) : List Row :=
  match rows with
  | [] => []
  | r :: rest => if key r == key record then rest else r :: Table.erase key rest record

/-- Modelled from the spec: `table.nextId()` of the absent `BAL::Table`:
"`nextId() -> fresh id`", the successor of the greatest primary key in the
table, 0 for an empty table. -/
def Table.nextId {Row : Type} (key : Row → Nat) (rows : List Row) : Nat :=
  rows.foldl (fun next r => max next (key r + 1)) 0

/-- Modelled from the spec: `table.create(payer, initializer)` of the absent
`BAL::Table`, given the initialized row: the row is added; its fresh id puts it
last in iteration order. -/
def Table.create {Row : Type} (rows : List Row) (_payer : AccountHandle) (row : Row) : List Row :=
  rows ++ [row]

/-- Modelled from the spec: `table.begin()` of the absent `BAL::Table`, the first
row in iteration order; `none` stands for `table.end()`. -/
def Table.begin {Row : Type} (rows : List Row) : Option Row := rows.head?

/-- Modelled from the spec: `contains(key)` of a secondary index view of the
absent `BAL::Table`: whether some row has this secondary key. -/
def Table.contains {Row : Type} (getter : Row → Nat) (rows : List Row) (k : Nat) : Bool :=
  rows.any (fun r => getter r == k)

/-- Modelled from the spec: `equalRange(key)` of a secondary index view of the
absent `BAL::Table`: the rows with this secondary key, in iteration order. -/
def Table.equalRange {Row : Type} (getter : Row → Nat) (rows : List Row) (k : Nat) : List Row :=
  rows.filter (fun r => getter r == k)

/-- The `uint32_t` subtraction `a - b` behind `quantity -= b`: the difference
modulo `2^32`. -/
def uint32_sub (a b : Nat) : Nat := (((a : Int) - (b : Int)) % 2 ^ 32).toNat

/-- The conversion of a `ManifestId` to the `uint64_t` key of the `by.manifest`
index, as `contains(manifestId)` and `equalRange(manifestId)` apply it. -/
def SupplyChain.manifestKey (manifestId : ManifestId) : Nat :=
  (ID "manifests").toUInt64 manifestId % 2 ^ 64

/-- The mutator `[q](Inventory& inventory) { inventory.quantity -= q; }` with which
the actions take `q` units off an inventory record. -/
def SupplyChain.Inventory.subtract (q : Nat) (inventory : SupplyChain.Inventory) :
    SupplyChain.Inventory :=
  { inventory with quantity := uint32_sub inventory.quantity q }

/-- The mutator `[q](Cargo& cargo) { cargo.quantity -= q; }` with which the actions
take `q` units off a cargo record. -/
def SupplyChain.Cargo.subtract (q : Nat) (cargo : SupplyChain.Cargo) : SupplyChain.Cargo :=
  { cargo with quantity := uint32_sub cargo.quantity q }

/-- The mutator `[quantity](Inventory& inventory)` with which `removeInventory`
commits when the record is kept: quantity 0 when `quantity == 0`, else
`inventory.quantity -= quantity`. -/
def SupplyChain.removeInventory.commit (quantity : Nat) (inventory : SupplyChain.Inventory) :
    SupplyChain.Inventory :=
  if quantity == 0 then { inventory with quantity := 0 }
  else { inventory with quantity := uint32_sub inventory.quantity quantity }

/-- The action `SupplyChain::removeInventory`. -/
def SupplyChain.removeInventory (ctx : SupplyChain.Context) (db : SupplyChain.Database)
    (warehouseId : WarehouseId) (manager : AccountHandle) (inventoryId : InventoryId)
    (quantity : Nat) (deleteRecord : Bool) (documentation : String) :
    Except Failure SupplyChain.Database := do
  SupplyChain.requireAuthorization ctx manager
  Verify (decide (documentation.length ≤ SupplyChain.MAX_DESCRIPTION_SIZE))
    "Documentation size cannot exceed"
  let warehouse ← Table.getId SupplyChain.Warehouse.primary_key db.warehouses warehouseId
    "Cannot remove inventory: specified warehouse does not exist"
  Verify (warehouse.manager == manager) "Cannot remove inventory: authorizing account"
  let stock := db.stock warehouseId
  let inventory ← Table.getId SupplyChain.Inventory.primary_key stock inventoryId
    "Cannot remove inventory: specified inventory record does not exist"
  if quantity > 0 then
    Verify (decide (quantity ≤ inventory.quantity)) "Cannot remove inventory: quantity to remove"
  if deleteRecord then
    Verify (quantity == 0 || quantity == inventory.quantity)
      "Cannot remove inventory: record set to be deleted, but quantity in stock is not zero"
  if deleteRecord then
    let stock := Table.erase SupplyChain.Inventory.primary_key stock inventory
    pure { db with stock := Function.update db.stock warehouseId stock }
  else
    let stock := Table.modify SupplyChain.Inventory.primary_key stock inventory manager
      (SupplyChain.removeInventory.commit quantity)
    pure { db with stock := Function.update db.stock warehouseId stock }

/-- The action `SupplyChain::removeCargo`. -/
def SupplyChain.removeCargo (ctx : SupplyChain.Context) (db : SupplyChain.Database)
    (carrier : AccountHandle) (manifestId : ManifestId) (cargoId : CargoId) (quantity : Nat)
    (documentation : String) : Except Failure SupplyChain.Database := do
  SupplyChain.requireAuthorization ctx carrier
  Verify (decide (documentation.length < SupplyChain.MAX_DESCRIPTION_SIZE))
    "Documentation size cannot exceed"
  Verify (decide (quantity > 0)) "Cannot remove zero units of cargo."
  let manifests := db.manifests carrier
  let manifest ← Table.getId SupplyChain.Manifest.primary_key manifests manifestId
    "Could not remove cargo: specified manifest does not exist"
  let stock := db.cargo carrier
  let cargo ← Table.getId SupplyChain.Cargo.primary_key stock cargoId
    "Could not remove cargo: specified cargo ID does not exist"
  Verify (decide (cargo.quantity ≥ quantity)) "Could not remove cargo: need to remove"
  if quantity == cargo.quantity then
    let stock := Table.erase SupplyChain.Cargo.primary_key stock cargo
    if !Table.contains SupplyChain.Cargo.manifest_key stock (SupplyChain.manifestKey manifestId) then
      let manifests := Table.erase SupplyChain.Manifest.primary_key manifests manifest
      pure { db with cargo := Function.update db.cargo carrier stock,
                     manifests := Function.update db.manifests carrier manifests }
    else
      pure { db with cargo := Function.update db.cargo carrier stock }
  else
    let stock := Table.modify SupplyChain.Cargo.primary_key stock cargo carrier
      (SupplyChain.Cargo.subtract quantity)
    pure { db with cargo := Function.update db.cargo carrier stock }

/-- The loop `while (stock.begin() != stock.end()) stock.erase(stock.begin());` of
`deleteWarehouse`, run for at most `fuel` iterations; `none` when the fuel runs
out before the table is empty. -/
def SupplyChain.deleteWarehouse.eraseAll :
    Nat → List SupplyChain.Inventory → Option (List SupplyChain.Inventory)
  | fuel, stock =>
    match Table.begin stock with
    | none => some stock
    | some first =>
      match fuel with
      | 0 => none
      | fuel + 1 =>
        SupplyChain.deleteWarehouse.eraseAll fuel
          (Table.erase SupplyChain.Inventory.primary_key stock first)

/-- The action `SupplyChain::deleteWarehouse`, its erase loop bounded by `fuel`;
`none` when the fuel runs out. -/
def SupplyChain.deleteWarehouse (fuel : Nat) (ctx : SupplyChain.Context)
    (db : SupplyChain.Database) (warehouseId : WarehouseId) (manager : AccountHandle)
    (removeInventory : Bool) (documentation : String) :
    Option (Except Failure SupplyChain.Database) :=
  let checked : Except Failure SupplyChain.Warehouse := do
    SupplyChain.requireAuthorization ctx manager
    Verify (decide (documentation.length ≤ SupplyChain.MAX_DESCRIPTION_SIZE))
      "Documentation size must not exceed"
    let warehouse ← Table.getId SupplyChain.Warehouse.primary_key db.warehouses warehouseId
      "Cannot delete warehouse: specified warehouse does not exist"
    Verify (warehouse.manager == manager) "Cannot delete warehouse"
    pure warehouse
  match checked with
  | .error e => some (.error e)
  | .ok warehouse =>
    let stock := db.stock warehouseId
    let emptied : Option (Except Failure (List SupplyChain.Inventory)) :=
      if (Table.begin stock).isSome then
        match Verify removeInventory "Cannot delete warehouse" with
        | .error e => some (.error e)
        | .ok _ => (SupplyChain.deleteWarehouse.eraseAll fuel stock).map .ok
      else some (.ok stock)
    match emptied with
    | none => none
    | some (.error e) => some (.error e)
    | some (.ok stock) =>
      let warehouses := Table.erase SupplyChain.Warehouse.primary_key db.warehouses warehouse
      some (.ok { db with warehouses := warehouses,
                          stock := Function.update db.stock warehouseId stock })

/-- A carrier (account 300) holding manifest 0 with two cargo entries. -/
def SupplyChain.exampleShipped : SupplyChain.Database :=
  { warehouses := [⟨1, 100, "north"⟩, ⟨2, 200, "south"⟩]
    stock := fun _ => []
    manifests := fun c => if c = 300 then [⟨0, "first load", 1⟩] else []
    cargo := fun c =>
      if c = 300 then [⟨0, 0, "graphite", 5, [7], 40⟩, ⟨1, 0, "lumber", 5, [7], 10⟩] else [] }

/-- A transaction authorized by manager 100 and carriers 300 and 400. -/
def SupplyChain.exampleCarrierContext : SupplyChain.Context :=
  { authorizations := [100, 300, 400], currentTransactionId := 8 }

/-! ## Pick lists

A `std::map` argument (`PickList`, `CargoManifest`, `ProductionList`) is the
list of its entries in iteration order, that is by ascending key.

The picked items (`PickedItems<Item>`, a `map<ID, std::reference_wrapper<const
Item>>`) hold references to rows of the table.  Every commit loop reads a
picked row before it updates that row, and the ids of a map are distinct, so
the value the row had when it was picked stands for the reference. -/

/-- The insertion `map.emplace(key, value)` of `std::map`: the entry is put at its
place in key order unless the key is already present. -/
def StdMap.emplace {V : Type} (m : List (Nat × V)) (k : Nat) (v : V) : List (Nat × V) :=
  match m with
  | [] => [(k, v)]
  | (k', v') :: rest =>
    if k < k' then (k, v) :: (k', v') :: rest
    else if k = k' then (k', v') :: rest
    else (k', v') :: StdMap.emplace rest k v

/-- The loop of `processPickList` over the remaining entries of `list`, with the
items picked so far.  The ids of a `std::map` are distinct, so the iterator that
`emplace_hint` returns is at the entry just inserted. -/
def SupplyChain.processPickList.loop {Item : Type} (key : Item → Nat) (quantity : Item → Nat)
    (stock : List Item) : List (Nat × Nat) → List (Nat × Item) →
    Except Failure (List (Nat × Item))
  | [], picked => pure picked
  | (id, required) :: rest, picked => do
    Verify (decide (required > 0)) "Unable to collect stock: cannot collect zero units of"
    let item ← Table.getId key stock id "No such Inventory ID"
    let picked := StdMap.emplace picked id item
    let available := quantity item
    Verify (decide (available ≥ required)) "Unable to collect stock: required"
    SupplyChain.processPickList.loop key quantity stock rest picked

/-- The template `PickedItems<Item, ID> processPickList(const Table<Item>& stock,
map<ID, uint32_t> list)`: every listed id with the row it names, after checking
that the required amount is positive and in stock. -/
def SupplyChain.processPickList {Item : Type} (key : Item → Nat) (quantity : Item → Nat)
    (stock : List Item) (list : List (Nat × Nat)) : Except Failure (List (Nat × Item)) :=
  SupplyChain.processPickList.loop key quantity stock list []

/-- The lookup `itr = picked.begin()->first == id ? picked.begin() : picked.find(id)`
of the commit loops, together with the later `picked.erase(itr)`: the row at
`itr` and the remaining picked items; `none` when `itr` is `picked.end()`. -/
def SupplyChain.PickedItems.take {Item : Type} (picked : List (Nat × Item)) (id : Nat) :
    Option (Item × List (Nat × Item)) :=
  match picked with
  | [] => none
  | (first, item) :: rest =>
    if first == id then some (item, rest)
    else
      match picked.find? (fun e => e.1 == id) with
      | some e => some (e.2, picked.eraseP (fun e => e.1 == id))
      | none => none

/-! ## The supply chain example contract: actions with pick lists -/

/-- The helper `SupplyChain::createInventory`: a new record of the warehouse's
stock table with the next id and the current transaction as origin. -/
def SupplyChain.createInventory (ctx : SupplyChain.Context) (db : SupplyChain.Database)
    (warehouseId : WarehouseId) (payer : AccountHandle) (description : String)
    (quantity : Nat) : SupplyChain.Database :=
  let stock := db.stock warehouseId
  let newId := Table.nextId SupplyChain.Inventory.primary_key stock
  let stock := Table.create stock payer
    { id := newId, description := description, origin := ctx.currentTransactionId,
      movement := [], quantity := quantity }
  { db with stock := Function.update db.stock warehouseId stock }

/-- The loop "Check produced items" of `manufactureInventory`. -/
def SupplyChain.manufactureInventory.checkProduce : List (String × Nat) → Except Failure Unit
  | [] => pure ()
  | (description, quantity) :: rest => do
    Verify (decide (description.length ≤ SupplyChain.MAX_DESCRIPTION_SIZE))
      "Cannot manufacture inventory: produced item description longer than max"
    Verify (decide (quantity > 0))
      "Cannot manufacture inventory: cannot produce zero quantity of any item"
    SupplyChain.manufactureInventory.checkProduce rest

/-- The loop "Adjust consumed stock" of `manufactureInventory`.  It reads
`itr->second` without a check; reading through `end()` is undefined. -/
def SupplyChain.manufactureInventory.consumeLoop (manager : AccountHandle)
    (deleteConsumed : Bool) : List (Nat × Nat) → List (Nat × SupplyChain.Inventory) →
    List SupplyChain.Inventory → Except Failure (List SupplyChain.Inventory)
  | [], _, stock => pure stock
  | (id, consumed) :: rest, consumeRecords, stock =>
    match SupplyChain.PickedItems.take consumeRecords id with
    | none => .error (.Undefined "itr->second at consumeRecords.end()")
    | some (inventory, consumeRecords) =>
      let stock :=
        if deleteConsumed && consumed == inventory.quantity then
          Table.erase SupplyChain.Inventory.primary_key stock inventory
        else
          Table.modify SupplyChain.Inventory.primary_key stock inventory manager
            (SupplyChain.Inventory.subtract consumed)
      SupplyChain.manufactureInventory.consumeLoop manager deleteConsumed rest consumeRecords
        stock

/-- The loop "Add produced stock" of `manufactureInventory`. -/
def SupplyChain.manufactureInventory.produceLoop (ctx : SupplyChain.Context)
    (warehouseId : WarehouseId) (manager : AccountHandle) :
    List (String × Nat) → SupplyChain.Database → SupplyChain.Database
  | [], db => db
  | (description, produced) :: rest, db =>
    SupplyChain.manufactureInventory.produceLoop ctx warehouseId manager rest
      (SupplyChain.createInventory ctx db warehouseId manager description produced)

/-- The action `SupplyChain::manufactureInventory`. -/
def SupplyChain.manufactureInventory (ctx : SupplyChain.Context) (db : SupplyChain.Database)
    (warehouseId : WarehouseId) (manager : AccountHandle) (consume : List (Nat × Nat))
    (produce : List (String × Nat)) (deleteConsumed : Bool) (documentation : String) :
    Except Failure SupplyChain.Database := do
  SupplyChain.requireAuthorization ctx manager
  Verify (decide (documentation.length ≤ SupplyChain.MAX_DESCRIPTION_SIZE))
    "Documentation size cannot exceed"
  let warehouse ← Table.getId SupplyChain.Warehouse.primary_key db.warehouses warehouseId
    "Cannot manufacture inventory: specified warehouse does not exist"
  Verify (warehouse.manager == manager) "Cannot manufacture inventory: authorizing account"
  Verify (decide (consume.length > 0) || decide (produce.length > 0))
    "Cannot manufacture inventory if inventory is neither consumed nor produced"
  SupplyChain.manufactureInventory.checkProduce produce
  let stock := db.stock warehouseId
  let consumeRecords ← SupplyChain.processPickList SupplyChain.Inventory.primary_key
    SupplyChain.Inventory.quantity stock consume
  let stock ← SupplyChain.manufactureInventory.consumeLoop manager deleteConsumed consume
    consumeRecords stock
  let db := { db with stock := Function.update db.stock warehouseId stock }
  pure (SupplyChain.manufactureInventory.produceLoop ctx warehouseId manager produce db)

/-- The loop "Update the warehouse stocks" of `transferInventory`, on the picked
items, the source stock and the destination stock. -/
def SupplyChain.transferInventory.loop (ctx : SupplyChain.Context)
    (sourceManager destinationManager : AccountHandle) (deleteConsumed : Bool) :
    List (Nat × Nat) → List (Nat × SupplyChain.Inventory) → List SupplyChain.Inventory →
    List SupplyChain.Inventory →
    Except Failure (List SupplyChain.Inventory × List SupplyChain.Inventory)
  | [], _, sourceStock, destinationStock => pure (sourceStock, destinationStock)
  | (id, transferred) :: rest, manifestInventory, sourceStock, destinationStock =>
    match SupplyChain.PickedItems.take manifestInventory id with
    | none => .error (.VerifyFailed "Cannot find the desired inventory item by ID")
    | some (inventory, manifestInventory) =>
      let newId := Table.nextId SupplyChain.Inventory.primary_key destinationStock
      let destinationStock := Table.create destinationStock destinationManager
        { id := newId, description := inventory.description, origin := inventory.origin,
          quantity := transferred,
          movement := inventory.movement ++ [ctx.currentTransactionId] }
      let sourceStock :=
        if deleteConsumed && transferred == inventory.quantity then
          Table.erase SupplyChain.Inventory.primary_key sourceStock inventory
        else
          Table.modify SupplyChain.Inventory.primary_key sourceStock inventory sourceManager
            (SupplyChain.Inventory.subtract transferred)
      SupplyChain.transferInventory.loop ctx sourceManager destinationManager deleteConsumed
        rest manifestInventory sourceStock destinationStock

/-- The action `SupplyChain::transferInventory`. -/
def SupplyChain.transferInventory (ctx : SupplyChain.Context) (db : SupplyChain.Database)
    (sourceWarehouseId : WarehouseId) (sourceManager : AccountHandle)
    (destinationWarehouseId : WarehouseId) (destinationManager : AccountHandle)
    (manifest : List (Nat × Nat)) (deleteConsumed : Bool) (documentation : String) :
    Except Failure SupplyChain.Database := do
  SupplyChain.requireAuthorization ctx sourceManager
  SupplyChain.requireAuthorization ctx destinationManager
  Verify (decide (documentation.length ≤ SupplyChain.MAX_DESCRIPTION_SIZE))
    "Documentation size cannot exceed"
  Verify (sourceWarehouseId != destinationWarehouseId)
    "Cannot transfer inventory: source and destination are the same"
  let sourceWarehouse ← Table.getId SupplyChain.Warehouse.primary_key db.warehouses
    sourceWarehouseId "Cannot transfer inventory: source warehouse does not exist"
  let destinationWarehouse ← Table.getId SupplyChain.Warehouse.primary_key db.warehouses
    destinationWarehouseId "Cannot transfer inventory: destination warehouse does not exist"
  Verify (sourceWarehouse.manager == sourceManager)
    "Cannot transfer inventory: authorizing account"
  Verify (destinationWarehouse.manager == destinationManager)
    "Cannot transfer inventory: authorizing account"
  let sourceStock := db.stock sourceWarehouseId
  let manifestInventory ← SupplyChain.processPickList SupplyChain.Inventory.primary_key
    SupplyChain.Inventory.quantity sourceStock manifest
  let destinationStock := db.stock destinationWarehouseId
  let (sourceStock, destinationStock) ← SupplyChain.transferInventory.loop ctx sourceManager
    destinationManager deleteConsumed manifest manifestInventory sourceStock destinationStock
  let stocks := Function.update (Function.update db.stock sourceWarehouseId sourceStock)
    destinationWarehouseId destinationStock
  pure { db with stock := stocks }

/-- The loop "Convert warehouse inventory into carrier cargo" of `shipInventory`,
on the picked items, the warehouse stock and the carrier's cargo. -/
def SupplyChain.shipInventory.loop (ctx : SupplyChain.Context) (manager carrier : AccountHandle)
    (newManifestId : ManifestId) (deleteConsumed : Bool) :
    List (Nat × Nat) → List (Nat × SupplyChain.Inventory) → List SupplyChain.Inventory →
    List SupplyChain.Cargo →
    Except Failure (List SupplyChain.Inventory × List SupplyChain.Cargo)
  | [], _, stock, cargoStock => pure (stock, cargoStock)
  | (id, shipped) :: rest, pickedManifest, stock, cargoStock =>
    match SupplyChain.PickedItems.take pickedManifest id with
    | none => .error (.VerifyFailed "Cannot find the desired inventory item by ID")
    | some (inventory, pickedManifest) =>
      let newId := Table.nextId SupplyChain.Cargo.primary_key cargoStock
      let cargoStock := Table.create cargoStock carrier
        { id := newId, manifest := newManifestId, description := inventory.description,
          quantity := shipped, origin := inventory.origin,
          movement := inventory.movement ++ [ctx.currentTransactionId] }
      let stock :=
        if deleteConsumed && shipped == inventory.quantity then
          Table.erase SupplyChain.Inventory.primary_key stock inventory
        else
          Table.modify SupplyChain.Inventory.primary_key stock inventory manager
            (SupplyChain.Inventory.subtract shipped)
      SupplyChain.shipInventory.loop ctx manager carrier newManifestId deleteConsumed rest
        pickedManifest stock cargoStock

/-- The action `SupplyChain::shipInventory`. -/
def SupplyChain.shipInventory (ctx : SupplyChain.Context) (db : SupplyChain.Database)
    (warehouseId : WarehouseId) (manager carrier : AccountHandle)
    (manifest : List (Nat × Nat)) (deleteConsumed : Bool) (documentation : String) :
    Except Failure SupplyChain.Database := do
  SupplyChain.requireAuthorization ctx manager
  SupplyChain.requireAuthorization ctx carrier
  Verify (decide (documentation.length ≤ SupplyChain.MAX_DESCRIPTION_SIZE))
    "Documentation length may not exceed"
  let warehouse ← Table.getId SupplyChain.Warehouse.primary_key db.warehouses warehouseId
    "Cannot ship inventory: Specified warehouse does not exist"
  Verify (warehouse.manager == manager) "Cannot ship inventory: authorizing account"
  let stock := db.stock warehouseId
  let pickedManifest ← SupplyChain.processPickList SupplyChain.Inventory.primary_key
    SupplyChain.Inventory.quantity stock manifest
  let manifests := db.manifests carrier
  let newManifestId := Table.nextId SupplyChain.Manifest.primary_key manifests
  let manifests := Table.create manifests carrier
    { id := newManifestId, description := documentation, sender := warehouseId }
  let cargoStock := db.cargo carrier
  let (stock, cargoStock) ← SupplyChain.shipInventory.loop ctx manager carrier newManifestId
    deleteConsumed manifest pickedManifest stock cargoStock
  pure { db with stock := Function.update db.stock warehouseId stock,
                 manifests := Function.update db.manifests carrier manifests,
                 cargo := Function.update db.cargo carrier cargoStock }

/-- The `std::transform` over `equalRange(manifestId)` in `transferCargo` and
`deliverCargo`: every cargo entry of the range is emplaced into `submanifest`
with its full quantity and inserted into `cargoToGo`. -/
def SupplyChain.pickEntireManifest :
    List SupplyChain.Cargo → List (Nat × Nat) → List (Nat × SupplyChain.Cargo) →
    List (Nat × Nat) × List (Nat × SupplyChain.Cargo)
  | [], submanifest, cargoToGo => (submanifest, cargoToGo)
  | cargo :: range, submanifest, cargoToGo =>
    SupplyChain.pickEntireManifest range (StdMap.emplace submanifest cargo.id cargo.quantity)
      (StdMap.emplace cargoToGo cargo.id cargo)

/-- The loop "Commit the delivery" of `deliverCargo`, on the cargo to go, the
carrier's cargo and the warehouse stock. -/
def SupplyChain.deliverCargo.loop (ctx : SupplyChain.Context) (carrier manager : AccountHandle)
    (manifestId : ManifestId) :
    List (Nat × Nat) → List (Nat × SupplyChain.Cargo) → List SupplyChain.Cargo →
    List SupplyChain.Inventory →
    Except Failure (List SupplyChain.Cargo × List SupplyChain.Inventory)
  | [], _, sourceStock, destinationStock => pure (sourceStock, destinationStock)
  | (id, quantity) :: rest, cargoToGo, sourceStock, destinationStock =>
    match SupplyChain.PickedItems.take cargoToGo id with
    | none => .error (.VerifyFailed "Cannot find the desired inventory item by ID")
    | some (cargo, cargoToGo) => do
      Verify (cargo.manifest == manifestId) "Cannot deliver cargo: submanifest specifies ID"
      let newId := Table.nextId SupplyChain.Inventory.primary_key destinationStock
      let destinationStock := Table.create destinationStock manager
        { id := newId, description := cargo.description, quantity := quantity,
          origin := cargo.origin, movement := cargo.movement ++ [ctx.currentTransactionId] }
      let sourceStock :=
        if quantity == cargo.quantity then
          Table.erase SupplyChain.Cargo.primary_key sourceStock cargo
        else
          Table.modify SupplyChain.Cargo.primary_key sourceStock cargo carrier
            (SupplyChain.Cargo.subtract quantity)
      SupplyChain.deliverCargo.loop ctx carrier manager manifestId rest cargoToGo sourceStock
        destinationStock

/-- The action `SupplyChain::deliverCargo`. -/
def SupplyChain.deliverCargo (ctx : SupplyChain.Context) (db : SupplyChain.Database)
    (carrier : AccountHandle) (warehouseId : WarehouseId) (manager : AccountHandle)
    (manifestId : ManifestId) (submanifest : List (Nat × Nat)) (documentation : String) :
    Except Failure SupplyChain.Database := do
  SupplyChain.requireAuthorization ctx carrier
  SupplyChain.requireAuthorization ctx manager
  Verify (decide (documentation.length ≤ SupplyChain.MAX_DESCRIPTION_SIZE))
    "Documentation size cannot exceed"
  let warehouse ← Table.getId SupplyChain.Warehouse.primary_key db.warehouses warehouseId
    "Cannot deliver cargo: destination warehouse does not exist"
  Verify (warehouse.manager == manager) "Cannot deliver cargo from"
  let manifests := db.manifests carrier
  let manifest ← Table.getId SupplyChain.Manifest.primary_key manifests manifestId
    "Cannot deliver cargo: specified manifest does not exist"
  let sourceStock := db.cargo carrier
  let (submanifest, cargoToGo) ←
    if submanifest.isEmpty then
      let range := Table.equalRange SupplyChain.Cargo.manifest_key sourceStock
        (SupplyChain.manifestKey manifestId)
      pure (SupplyChain.pickEntireManifest range submanifest [])
    else do
      let cargoToGo ← SupplyChain.processPickList SupplyChain.Cargo.primary_key
        SupplyChain.Cargo.quantity sourceStock submanifest
      pure (submanifest, cargoToGo)
  let destinationStock := db.stock warehouseId
  let (sourceStock, destinationStock) ← SupplyChain.deliverCargo.loop ctx carrier manager
    manifestId submanifest cargoToGo sourceStock destinationStock
  let manifests :=
    if !Table.contains SupplyChain.Cargo.manifest_key sourceStock
        (SupplyChain.manifestKey manifestId) then
      Table.erase SupplyChain.Manifest.primary_key manifests manifest
    else manifests
  pure { db with stock := Function.update db.stock warehouseId destinationStock,
                 manifests := Function.update db.manifests carrier manifests,
                 cargo := Function.update db.cargo carrier sourceStock }

/-- The loop "Do the transfer" of `transferCargo`, on the cargo to go, the source
carrier's cargo and the destination carrier's cargo. -/
def SupplyChain.transferCargo.loop (ctx : SupplyChain.Context)
    (sourceCarrier destinationCarrier : AccountHandle) (manifestId newManifestId : ManifestId) :
    List (Nat × Nat) → List (Nat × SupplyChain.Cargo) → List SupplyChain.Cargo →
    List SupplyChain.Cargo → Except Failure (List SupplyChain.Cargo × List SupplyChain.Cargo)
  | [], _, sourceStock, destinationCargo => pure (sourceStock, destinationCargo)
  | (id, quantity) :: rest, cargoToGo, sourceStock, destinationCargo =>
    match SupplyChain.PickedItems.take cargoToGo id with
    | none => .error (.VerifyFailed "Cannot find the desired inventory item by ID")
    | some (cargo, cargoToGo) => do
      Verify (cargo.manifest == manifestId) "Cannot transfer cargo: submanifest specifies ID"
      let newId := Table.nextId SupplyChain.Cargo.primary_key destinationCargo
      let destinationCargo := Table.create destinationCargo destinationCarrier
        { id := newId, manifest := newManifestId, description := cargo.description,
          quantity := quantity, origin := cargo.origin,
          movement := cargo.movement ++ [ctx.currentTransactionId] }
      let sourceStock :=
        if quantity == cargo.quantity then
          Table.erase SupplyChain.Cargo.primary_key sourceStock cargo
        else
          Table.modify SupplyChain.Cargo.primary_key sourceStock cargo sourceCarrier
            (SupplyChain.Cargo.subtract quantity)
      SupplyChain.transferCargo.loop ctx sourceCarrier destinationCarrier manifestId
        newManifestId rest cargoToGo sourceStock destinationCargo

/-- The part of `transferCargo` after the cargo is picked: the check that the
carriers differ, the new manifest at the destination, the transfer loop and the
removal of the source manifest when no cargo references it any more. -/
def SupplyChain.transferCargo.commit (ctx : SupplyChain.Context) (db : SupplyChain.Database)
    (sourceCarrier destinationCarrier : AccountHandle) (manifestId : ManifestId)
    (manifest : SupplyChain.Manifest) (submanifest : List (Nat × Nat))
    (cargoToGo : List (Nat × SupplyChain.Cargo)) (documentation : String) :
    Except Failure SupplyChain.Database := do
  Verify (sourceCarrier != destinationCarrier) "Cannot transfer cargo from"
  let sourceManifests := db.manifests sourceCarrier
  let sourceStock := db.cargo sourceCarrier
  let destinationManifests := db.manifests destinationCarrier
  let newManifestId := Table.nextId SupplyChain.Manifest.primary_key destinationManifests
  let destinationManifests := Table.create destinationManifests destinationCarrier
    { id := newManifestId, description := documentation, sender := manifest.sender }
  let destinationCargo := db.cargo destinationCarrier
  let (sourceStock, destinationCargo) ← SupplyChain.transferCargo.loop ctx sourceCarrier
    destinationCarrier manifestId newManifestId submanifest cargoToGo sourceStock
    destinationCargo
  let sourceManifests :=
    if !Table.contains SupplyChain.Cargo.manifest_key sourceStock
        (SupplyChain.manifestKey manifestId) then
      Table.erase SupplyChain.Manifest.primary_key sourceManifests manifest
    else sourceManifests
  let manifests := Function.update (Function.update db.manifests destinationCarrier
    destinationManifests) sourceCarrier sourceManifests
  let cargo := Function.update (Function.update db.cargo destinationCarrier destinationCargo)
    sourceCarrier sourceStock
  pure { db with manifests := manifests, cargo := cargo }

/-- The action `SupplyChain::transferCargo`.  With an empty submanifest and no
cargo on the manifest it erases the manifest and returns at once. -/
def SupplyChain.transferCargo (ctx : SupplyChain.Context) (db : SupplyChain.Database)
    (sourceCarrier destinationCarrier : AccountHandle) (manifestId : ManifestId)
    (submanifest : List (Nat × Nat)) (documentation : String) :
    Except Failure SupplyChain.Database := do
  SupplyChain.requireAuthorization ctx sourceCarrier
  SupplyChain.requireAuthorization ctx destinationCarrier
  Verify (decide (documentation.length ≤ SupplyChain.MAX_DESCRIPTION_SIZE))
    "Documentation length cannot exceed"
  let sourceManifests := db.manifests sourceCarrier
  let manifest ← Table.getId SupplyChain.Manifest.primary_key sourceManifests manifestId
    "Cannot transfer cargo: manifest does not exist"
  let sourceStock := db.cargo sourceCarrier
  if submanifest.isEmpty then
    let range := Table.equalRange SupplyChain.Cargo.manifest_key sourceStock
      (SupplyChain.manifestKey manifestId)
    if range.isEmpty then
      let sourceManifests := Table.erase SupplyChain.Manifest.primary_key sourceManifests manifest
      pure { db with manifests := Function.update db.manifests sourceCarrier sourceManifests }
    else
      let (submanifest, cargoToGo) := SupplyChain.pickEntireManifest range submanifest []
      SupplyChain.transferCargo.commit ctx db sourceCarrier destinationCarrier manifestId
        manifest submanifest cargoToGo documentation
  else do
    let cargoToGo ← SupplyChain.processPickList SupplyChain.Cargo.primary_key
      SupplyChain.Cargo.quantity sourceStock submanifest
    SupplyChain.transferCargo.commit ctx db sourceCarrier destinationCarrier manifestId
      manifest submanifest cargoToGo documentation

/-! ## Proof devices for the commit loops

The five commit loops share one shape.  The definitions below restate that
shape once, so that the loops of the actions can be compared with it and
reasoned about together. -/

/-- The source update of one iteration of a commit loop: the picked row is
erased when `erases` says so, else `q` units are taken off it. -/
def Table.consumeStep {Row : Type} (key : Row → Nat) (subtract : Nat → Row → Row)
    (erases : Row → Nat → Bool) (payer : AccountHandle) (rows : List Row) (r : Row) (q : Nat) :
    List Row :=
  if erases r q then Table.erase key rows r else Table.modify key rows r payer (subtract q)

/-- The source updates of a whole commit loop, for the picked rows and amounts
in order. -/
def Table.consumeAll {Row : Type} (key : Row → Nat) (subtract : Nat → Row → Row)
    (erases : Row → Nat → Bool) (payer : AccountHandle) : List (Row × Nat) → List Row → List Row
  | [], rows => rows
  | (r, q) :: rest, rows =>
    Table.consumeAll key subtract erases payer rest
      (Table.consumeStep key subtract erases payer rows r q)

/-- The picked rows of a commit loop paired with the amounts of the list. -/
def SupplyChain.picks {Item : Type} (list : List (Nat × Nat)) (picked : List (Nat × Item)) :
    List (Item × Nat) :=
  List.zipWith (fun e p => (p.2, e.2)) list picked

/-- The common shape of the commit loops that move stock: look the row up among
the picked items, check it, create the destination record under the next id,
then erase or reduce the source row. -/
def SupplyChain.PickLoop.run {S D : Type} (key : S → Nat) (subtract : Nat → S → S)
    (erases : S → Nat → Bool) (check : S → Bool) (message : String) (dkey : D → Nat)
    (mk : Nat → S → Nat → D) (payerS payerD : AccountHandle) :
    List (Nat × Nat) → List (Nat × S) → List S → List D → Except Failure (List S × List D)
  | [], _, s, d => pure (s, d)
  | (id, q) :: rest, picked, s, d =>
    match SupplyChain.PickedItems.take picked id with
    | none => .error (.VerifyFailed "Cannot find the desired inventory item by ID")
    | some (r, picked) => do
      Verify (check r) message
      let d := Table.create d payerD (mk (Table.nextId dkey d) r q)
      let s := Table.consumeStep key subtract erases payerS s r q
      SupplyChain.PickLoop.run key subtract erases check message dkey mk payerS payerD rest
        picked s d

/-- The submanifest `S` that the postconditions of `deliverCargo` and
`transferCargo` speak of, following the spec's words: "the given submanifest,
or, when it is empty, every cargo entry of the manifest at its full quantity". -/
def SupplyChain.effectiveSubmanifest (stock : List SupplyChain.Cargo) (manifestId : ManifestId)
    (submanifest : List (Nat × Nat)) : List (Nat × Nat) :=
  if submanifest.isEmpty then
    (Table.equalRange SupplyChain.Cargo.manifest_key stock
      (SupplyChain.manifestKey manifestId)).map (fun c => (c.id, c.quantity))
  else submanifest

/-- A carrier (account 300) holding manifest 0 with no cargo entry, as
`shipInventory` with an empty pick list leaves it. -/
def SupplyChain.exampleEmptyManifest : SupplyChain.Database :=
  { warehouses := [⟨1, 100, "north"⟩, ⟨2, 200, "south"⟩]
    stock := fun _ => []
    manifests := fun c => if c = 300 then [⟨0, "empty load", 1⟩] else []
    cargo := fun _ => [] }

/-- The union `StaticVariant<uint64_t, ID<"warehouses">>`: the union `rawOnly`
with one alternative appended. -/
abbrev rawExtended : List Alternative := rawOnly ++ [ID "warehouses"]

/-- The action `SupplyChain::addWarehouse`. -/
def SupplyChain.addWarehouse (ctx : SupplyChain.Context) (db : SupplyChain.Database)
    (manager : AccountHandle) (description : String) : Except Failure SupplyChain.Database := do
  SupplyChain.requireAuthorization ctx manager
  Verify (decide (description.length ≤ SupplyChain.MAX_DESCRIPTION_SIZE))
    "Description may not exceed"
  let warehouses := db.warehouses
  let newId := Table.nextId SupplyChain.Warehouse.primary_key warehouses
  let warehouses := Table.create warehouses manager
    { id := newId, manager := manager, description := description }
  pure { db with warehouses := warehouses }

/-- The action `SupplyChain::addInventory`. -/
def SupplyChain.addInventory (ctx : SupplyChain.Context) (db : SupplyChain.Database)
    (warehouseId : WarehouseId) (manager : AccountHandle) (description : String)
    (quantity : Nat) : Except Failure SupplyChain.Database := do
  SupplyChain.requireAuthorization ctx manager
  Verify (decide (description.length ≤ SupplyChain.MAX_DESCRIPTION_SIZE))
    "Description size cannot exceed"
  let warehouse ← Table.getId SupplyChain.Warehouse.primary_key db.warehouses warehouseId
    "Cannot add inventory: specified warehouse does not exist"
  Verify (warehouse.manager == manager) "Cannot add inventory: authorizing account"
  pure (SupplyChain.createInventory ctx db warehouseId manager description quantity)

/-- The state before any action: every table is empty. -/
def SupplyChain.emptyDatabase : SupplyChain.Database :=
  { warehouses := [], stock := fun _ => [], manifests := fun _ => [], cargo := fun _ => [] }

/-- A text of `n` characters. -/
def SupplyChain.textOfLength (n : Nat) : String := String.mk (List.replicate n 'x')

/-- One warehouse (manager 100) whose only record holds `2^32 - 6` units. -/
def SupplyChain.exampleNearFull : SupplyChain.Database :=
  { warehouses := [⟨1, 100, "north"⟩]
    stock := fun w => if w = 1 then [⟨1, "sand", 5, [], 4294967290⟩] else []
    manifests := fun _ => []
    cargo := fun _ => [] }

/-- The quantity left in an inventory record after an action, following the
spec's words: the record's quantity, "0 if the source record was erased". -/
def SupplyChain.Inventory.remaining (record : Option SupplyChain.Inventory) : Nat :=
  match record with
  | some r => r.quantity
  | none => 0

/-- The quantity left in a cargo record after an action, following the spec's
words: the record's quantity, "0 if the source record was erased". -/
def SupplyChain.Cargo.remaining (record : Option SupplyChain.Cargo) : Nat :=
  match record with
  | some c => c.quantity
  | none => 0

/-- The statement "at the start of every iteration the first remaining entry of
the picked-records map has exactly the id being processed", following the
spec's words, for a commit loop over `list` that starts with the picked
records `picked`: each iteration looks at `picked.begin()->first`, and the next
one starts with what `picked.erase(itr)` leaves. -/
def SupplyChain.PickedItems.firstHits {Item : Type} :
    List (Nat × Nat) → List (Nat × Item) → Bool
  | [], _ => true
  | (id, _) :: rest, picked =>
    match picked with
    | [] => false
    | (first, _) :: _ =>
      first == id &&
        match SupplyChain.PickedItems.take picked id with
        | some (_, remaining) => SupplyChain.PickedItems.firstHits rest remaining
        | none => false

/-- A carrier (account 300) holding two manifests with one cargo entry each. -/
def SupplyChain.exampleTwoManifests : SupplyChain.Database :=
  { warehouses := [⟨1, 100, "north"⟩, ⟨2, 200, "south"⟩]
    stock := fun _ => []
    manifests := fun c => if c = 300 then [⟨0, "first load", 1⟩, ⟨1, "second load", 1⟩] else []
    cargo := fun c =>
      if c = 300 then [⟨0, 0, "graphite", 5, [7], 40⟩, ⟨1, 1, "lumber", 5, [7], 10⟩] else [] }

/-! ## Helper lemmas -/

/-- What `Decompose` computes, in terms of position and magnitude. -/
theorem Decompose_eq {Ts : List Alternative} (hN : Ts.length < 0b1000) (id : StaticVariant Ts) :
    Decompose Ts hN id =
      if id.magnitude < 2 ^ 61 then .ok (id.magnitude ||| id.position <<< 61)
      else .error (.VerifyFailed tooLargeMessage) := by
  obtain ⟨⟨w, hw⟩, x⟩ := id
  have hw64 : w % 2 ^ 64 = w := Nat.mod_eq_of_lt (by omega)
  have hsh : (w <<< 61) % 2 ^ 64 = w <<< 61 := by
    apply Nat.mod_eq_of_lt
    rw [Nat.shiftLeft_eq]
    omega
  have hone : (1 <<< 61) % 2 ^ 64 = 2 ^ 61 := by decide
  simp only [Decompose, Dispatch, StaticVariant.get, StaticVariant.magnitude,
    StaticVariant.position, Verify, hw, dite_true, bind, Except.bind, pure, Except.pure,
    hw64, hsh, hone, decide_eq_true_eq]
  split_ifs <;> rfl

/-- Tag and magnitude occupy disjoint bits: or-ing them is adding them. -/
theorem lor_shiftLeft_eq (m p : Nat) (hm : m < 2 ^ 61) : m ||| p <<< 61 = p * 2 ^ 61 + m := by
  rw [Nat.shiftLeft_eq, Nat.lor_comm, Nat.mul_comm, ← Nat.mul_add_lt_is_or hm]

/-- The encoding of a value that passes the overflow check. -/
theorem Decompose_ok {Ts : List Alternative} (hN : Ts.length < 0b1000) (id : StaticVariant Ts)
    (hm : id.magnitude < 2 ^ 61) :
    Decompose Ts hN id = .ok (id.position * 2 ^ 61 + id.magnitude) := by
  rw [Decompose_eq, if_pos hm, lor_shiftLeft_eq _ _ hm]

/-- A successful encoding determines, and is determined by, position and magnitude. -/
theorem Decompose_ok_iff {Ts : List Alternative} (hN : Ts.length < 0b1000) (id : StaticVariant Ts)
    (k : Nat) :
    Decompose Ts hN id = .ok k ↔ id.magnitude < 2 ^ 61 ∧ k = id.position * 2 ^ 61 + id.magnitude := by
  by_cases hm : id.magnitude < 2 ^ 61
  · rw [Decompose_ok hN id hm]
    constructor
    · intro h
      exact ⟨hm, (Except.ok.inj h).symm⟩
    · rintro ⟨_, rfl⟩
      rfl
  · rw [Decompose_eq, if_neg hm]
    constructor
    · intro h
      cases h
    · intro h
      exact absurd h.1 hm

/-- The position of a value of a decomposable variant fits in three bits. -/
theorem position_lt_eight {Ts : List Alternative} (hN : Ts.length < 0b1000) (id : StaticVariant Ts) :
    id.position < 8 :=
  Nat.lt_trans id.which.isLt hN

/-- The two-field key of 64-bit fields, as a number. -/
theorem MakeCompositeKey_eq (a b : Nat) (ha : a < 2 ^ 64) (hb : b < 2 ^ 64) :
    MakeCompositeKey a b = a * 2 ^ 64 + b := by
  unfold MakeCompositeKey
  rw [Nat.shiftLeft_eq, Nat.mod_eq_of_lt ha, Nat.mod_eq_of_lt hb]
  omega

/-- The three-field key of 64-bit fields, as a number. -/
theorem MakeCompositeKey3_eq (a b c : Nat) (ha : a < 2 ^ 64) (hb : b < 2 ^ 64) (hc : c < 2 ^ 64) :
    MakeCompositeKey3 a b c = a * 2 ^ 128 + b * 2 ^ 64 + c := by
  simp only [MakeCompositeKey3, UInt256.ofWords, List.foldl, Nat.mod_eq_of_lt ha,
    Nat.mod_eq_of_lt hb, Nat.mod_eq_of_lt hc]
  omega

/-- The copy `strncpy` makes is exactly `n` bytes long. -/
theorem strncpy_length (src : List Nat) (n : Nat) : (strncpy src n).length = n := by
  induction n generalizing src with
  | zero => simp [strncpy]
  | succ n ih =>
    cases src with
    | nil => simp [strncpy]
    | cons c rest =>
      by_cases hc : c = 0
      · simp [strncpy, hc]
      · simp [strncpy, hc, ih]

/-- The copy `strncpy` makes only depends on the first `n` bytes of the source. -/
theorem strncpy_take (src : List Nat) (n : Nat) : strncpy (src.take n) n = strncpy src n := by
  induction n generalizing src with
  | zero => simp [strncpy]
  | succ n ih =>
    cases src with
    | nil => simp [strncpy]
    | cons c rest =>
      by_cases hc : c = 0
      · simp [strncpy, hc]
      · simp [strncpy, hc, ih]

/-- Copying a text whose zero bytes all sit at its end reproduces the text. -/
theorem strncpy_zero_tail (p : List Nat) (k : Nat) (hp : ∀ b ∈ p, b ≠ 0) :
    strncpy (p ++ List.replicate k 0) (p.length + k) = p ++ List.replicate k 0 := by
  induction p with
  | nil =>
    cases k with
    | zero => rfl
    | succ k => simp [strncpy, List.replicate_succ]
  | cons c rest ih =>
    have hc : c ≠ 0 := hp c (List.mem_cons_self c rest)
    have hrest : ∀ b ∈ rest, b ≠ 0 := fun b hb => hp b (List.mem_cons_of_mem c hb)
    have hlen : (c :: rest).length + k = (rest.length + k) + 1 := by simp; omega
    rw [hlen, List.cons_append]
    simp only [strncpy, hc, if_false]
    rw [ih hrest]

/-- Every string key is 32 bytes long. -/
theorem MakeStringKey_length (str : List Nat) : (MakeStringKey str).length = 32 := by
  simp only [MakeStringKey, UInt256.zeroBytes, List.length_append, strncpy_length,
    List.length_drop, List.length_replicate]
  omega

/-- A sequenced computation succeeds only if its first step does. -/
theorem bind_ok {α β : Type} {x : Except Failure α} {f : α → Except Failure β} {b : β}
    (h : (x >>= f) = .ok b) : ∃ a, x = .ok a ∧ f a = .ok b := by
  cases x with
  | error e => cases h
  | ok a => exact ⟨a, rfl, h⟩

/-- A check that lets the computation continue had a true condition. -/
theorem Verify_ok {condition : Bool} {message : String} {u : Unit}
    (h : Verify condition message = .ok u) : condition = true := by
  cases condition with
  | true => rfl
  | false => cases h

/-- A successful lookup by id is a found row. -/
theorem Table.getId_ok {Row : Type} {key : Row → Nat} {rows : List Row} {id : Nat}
    {message : String} {r : Row} (h : Table.getId key rows id message = .ok r) :
    Table.find key rows id = some r := by
  unfold Table.getId at h
  cases hf : Table.find key rows id with
  | none => rw [hf] at h; cases h
  | some r' => rw [hf] at h; rw [Except.ok.inj h]

/-- The row found for `id` has primary key `id`. -/
theorem Table.find_key {Row : Type} {key : Row → Nat} {rows : List Row} {id : Nat} {r : Row}
    (h : Table.find key rows id = some r) : key r = id := by
  have := List.find?_some h
  simpa using this

/-- After `modify`, the lookup of the modified row's id gives the mutated row,
provided the mutator keeps the primary key. -/
theorem Table.find_modify_self {Row : Type} (key : Row → Nat) (rows : List Row) (id : Nat)
    (r : Row) (payer : AccountHandle) (f : Row → Row)
    (h : Table.find key rows id = some r) (hkey : key (f r) = key r) :
    Table.find key (Table.modify key rows r payer f) id = some (f r) := by
  have hid : key r = id := Table.find_key h
  induction rows with
  | nil => cases h
  | cons x rest ih =>
    unfold Table.find at h
    by_cases hx : key x = id
    · have hxr : x = r := by
        rw [List.find?_cons_of_pos _ (by simpa using hx)] at h
        exact Option.some.inj h
      subst hxr
      simp [Table.modify, Table.find, List.find?_cons, hkey, hx]
    · rw [List.find?_cons_of_neg _ (by simpa using hx)] at h
      have hne : ¬ key x = key r := by rw [hid]; exact hx
      simp only [Table.modify, beq_iff_eq, hne, if_false]
      unfold Table.find
      rw [List.find?_cons_of_neg _ (by simpa using hx)]
      exact ih h

/-- After `modify`, the lookup of any other id is unchanged, provided the
mutator keeps the primary key. -/
theorem Table.find_modify_other {Row : Type} (key : Row → Nat) (rows : List Row) (id : Nat)
    (r : Row) (payer : AccountHandle) (f : Row → Row)
    (hid : id ≠ key r) (hkey : ∀ x, key (f x) = key x) :
    Table.find key (Table.modify key rows r payer f) id = Table.find key rows id := by
  induction rows with
  | nil => rfl
  | cons x rest ih =>
    by_cases hx : key x = key r
    · have hne : ¬ key x = id := fun h => hid (h ▸ hx)
      have hne' : ¬ key (f x) = id := by rw [hkey]; exact hne
      have hr : ¬ key r = id := fun h => hid h.symm
      simp [Table.modify, Table.find, List.find?_cons, hx, hne, hne', hr]
    · simp only [Table.modify, beq_iff_eq, hx, if_false]
      unfold Table.find at ih ⊢
      by_cases hxi : key x = id
      · rw [List.find?_cons_of_pos _ (by simpa using hxi),
          List.find?_cons_of_pos _ (by simpa using hxi)]
      · rw [List.find?_cons_of_neg _ (by simpa using hxi),
          List.find?_cons_of_neg _ (by simpa using hxi)]
        exact ih

/-- The operation `modify` keeps the number of rows. -/
theorem Table.modify_length {Row : Type} (key : Row → Nat) (rows : List Row) (r : Row)
    (payer : AccountHandle) (f : Row → Row) :
    (Table.modify key rows r payer f).length = rows.length := by
  induction rows with
  | nil => rfl
  | cons x rest ih =>
    by_cases hx : key x = key r
    · simp [Table.modify, hx]
    · simp [Table.modify, hx, ih]

/-- The operation `modify` leaves the rows with another primary key as they
are, in their order, provided the mutator keeps the primary key. -/
theorem Table.filter_modify {Row : Type} (key : Row → Nat) (rows : List Row) (r : Row)
    (payer : AccountHandle) (f : Row → Row) (hkey : ∀ x, key (f x) = key x) :
    (Table.modify key rows r payer f).filter (fun x => key x != key r) =
      rows.filter (fun x => key x != key r) := by
  induction rows with
  | nil => rfl
  | cons x rest ih =>
    by_cases hx : key x = key r
    · simp [Table.modify, hx, hkey, List.filter_cons]
    · simp [Table.modify, hx, List.filter_cons, ih]

/-- The mutator of `updateWarehouse`. -/
theorem SupplyChain.updateWarehouse_ok {ctx : SupplyChain.Context} {db db' : SupplyChain.Database}
    {manager : AccountHandle} {warehouseId : WarehouseId} {newManager : Option AccountHandle}
    {newDescription : Option String} {documentation : String}
    (h : SupplyChain.updateWarehouse ctx db manager warehouseId newManager newDescription
      documentation = .ok db') :
    ∃ warehouse payer,
      Table.find SupplyChain.Warehouse.primary_key db.warehouses warehouseId = some warehouse ∧
      db'.warehouses =
        Table.modify SupplyChain.Warehouse.primary_key db.warehouses warehouse payer
          (fun w => ⟨w.id, newManager.getD w.manager, newDescription.getD w.description⟩) ∧
      db'.stock = db.stock ∧ db'.manifests = db.manifests ∧ db'.cargo = db.cargo := by
  unfold SupplyChain.updateWarehouse at h
  cases newManager <;> cases newDescription <;> simp only [pure_bind] at h
  · obtain ⟨_, h1, h⟩ := bind_ok h
    cases Verify_ok h1
  · obtain ⟨_, -, h⟩ := bind_ok h
    obtain ⟨_, -, h⟩ := bind_ok h
    obtain ⟨_, -, h⟩ := bind_ok h
    obtain ⟨_, -, h⟩ := bind_ok h
    obtain ⟨warehouse, h6, h⟩ := bind_ok h
    obtain ⟨_, -, h⟩ := bind_ok h
    obtain ⟨_, -, h⟩ := bind_ok h
    cases h
    exact ⟨warehouse, _, Table.getId_ok h6, rfl, rfl, rfl, rfl⟩
  · obtain ⟨_, -, h⟩ := bind_ok h
    obtain ⟨_, -, h⟩ := bind_ok h
    obtain ⟨_, -, h⟩ := bind_ok h
    obtain ⟨_, -, h⟩ := bind_ok h
    obtain ⟨_, -, h⟩ := bind_ok h
    obtain ⟨warehouse, h6, h⟩ := bind_ok h
    obtain ⟨_, -, h⟩ := bind_ok h
    cases h
    exact ⟨warehouse, _, Table.getId_ok h6, rfl, rfl, rfl, rfl⟩
  · obtain ⟨_, -, h⟩ := bind_ok h
    obtain ⟨_, -, h⟩ := bind_ok h
    obtain ⟨_, -, h⟩ := bind_ok h
    obtain ⟨_, -, h⟩ := bind_ok h
    obtain ⟨_, -, h⟩ := bind_ok h
    obtain ⟨_, -, h⟩ := bind_ok h
    obtain ⟨warehouse, h6, h⟩ := bind_ok h
    obtain ⟨_, -, h⟩ := bind_ok h
    obtain ⟨_, -, h⟩ := bind_ok h
    cases h
    exact ⟨warehouse, _, Table.getId_ok h6, rfl, rfl, rfl, rfl⟩

/-- The mutator of `adjustInventory` keeps the id, origin and movement. -/
theorem SupplyChain.adjustInventory.commit_id (newDescription : Option String)
    (quantityAdjustment : Option SupplyChain.Adjustment) (i : SupplyChain.Inventory) :
    (SupplyChain.adjustInventory.commit newDescription quantityAdjustment i).id = i.id ∧
      (SupplyChain.adjustInventory.commit newDescription quantityAdjustment i).origin = i.origin ∧
      (SupplyChain.adjustInventory.commit newDescription quantityAdjustment i).movement =
        i.movement := by
  cases newDescription <;> rcases quantityAdjustment with _ | q | d <;> exact ⟨rfl, rfl, rfl⟩

/-- The quantity the mutator of `adjustInventory` writes. -/
theorem SupplyChain.adjustInventory.commit_quantity (newDescription : Option String)
    (i : SupplyChain.Inventory) :
    (∀ q, (SupplyChain.adjustInventory.commit newDescription (some (.uint32_t q)) i).quantity = q) ∧
      (∀ d, (SupplyChain.adjustInventory.commit newDescription (some (.int32_t d)) i).quantity =
        (((i.quantity : Int) + d) % 2 ^ 32).toNat) ∧
      (SupplyChain.adjustInventory.commit newDescription none i).quantity = i.quantity := by
  cases newDescription <;> exact ⟨fun _ => rfl, fun _ => rfl, rfl⟩

/-- The description the mutator of `adjustInventory` writes. -/
theorem SupplyChain.adjustInventory.commit_description
    (quantityAdjustment : Option SupplyChain.Adjustment) (i : SupplyChain.Inventory) :
    (∀ d, (SupplyChain.adjustInventory.commit (some d) quantityAdjustment i).description = d) ∧
      (SupplyChain.adjustInventory.commit none quantityAdjustment i).description =
        i.description := by
  rcases quantityAdjustment with _ | q | d <;> exact ⟨fun _ => rfl, rfl⟩

/-- What a successful `adjustInventory` found, checked and wrote. -/
theorem SupplyChain.adjustInventory_ok {ctx : SupplyChain.Context} {db db' : SupplyChain.Database}
    {warehouseId : WarehouseId} {manager : AccountHandle} {inventoryId : InventoryId}
    {newDescription : Option String} {quantityAdjustment : Option SupplyChain.Adjustment}
    {documentation : String}
    (h : SupplyChain.adjustInventory ctx db warehouseId manager inventoryId newDescription
      quantityAdjustment documentation = .ok db') :
    ∃ inventory,
      Table.find SupplyChain.Inventory.primary_key (db.stock warehouseId) inventoryId =
        some inventory ∧
      (∀ d, quantityAdjustment = some (.int32_t d) →
        d ≠ 0 ∧ (d < 0 → ((-d) % 2 ^ 32).toNat ≤ inventory.quantity) ∧
        (¬ d < 0 → (d % 2 ^ 32).toNat <
          (((2 ^ 32 - 1 : Int) - inventory.quantity) % 2 ^ 32).toNat)) ∧
      db'.stock = Function.update db.stock warehouseId
        (Table.modify SupplyChain.Inventory.primary_key (db.stock warehouseId) inventory manager
          (SupplyChain.adjustInventory.commit newDescription quantityAdjustment)) ∧
      db'.warehouses = db.warehouses ∧ db'.manifests = db.manifests ∧ db'.cargo = db.cargo := by
  unfold SupplyChain.adjustInventory at h
  cases newDescription <;> rcases quantityAdjustment with _ | q | d <;>
    simp only [pure_bind] at h
  · obtain ⟨_, -, h⟩ := bind_ok h
    obtain ⟨_, -, h⟩ := bind_ok h
    obtain ⟨_, -, h⟩ := bind_ok h
    obtain ⟨_, -, h⟩ := bind_ok h
    obtain ⟨_, h1, h⟩ := bind_ok h
    cases Verify_ok h1
  · obtain ⟨_, -, h⟩ := bind_ok h
    obtain ⟨_, -, h⟩ := bind_ok h
    obtain ⟨_, -, h⟩ := bind_ok h
    obtain ⟨_, -, h⟩ := bind_ok h
    obtain ⟨_, -, h⟩ := bind_ok h
    obtain ⟨inventory, hfound, h⟩ := bind_ok h
    cases h
    refine ⟨inventory, Table.getId_ok hfound, ?_, rfl, rfl, rfl, rfl⟩
    intro d hd
    cases hd
  · obtain ⟨_, -, h⟩ := bind_ok h
    obtain ⟨_, -, h⟩ := bind_ok h
    obtain ⟨_, -, h⟩ := bind_ok h
    obtain ⟨_, -, h⟩ := bind_ok h
    obtain ⟨_, -, h⟩ := bind_ok h
    obtain ⟨inventory, hfound, h⟩ := bind_ok h
    obtain ⟨_, hz, h⟩ := bind_ok h
    have hz' : d ≠ 0 := by simpa using Verify_ok hz
    split at h
    · rename_i hneg
      obtain ⟨_, hcheck, h⟩ := bind_ok h
      cases h
      refine ⟨inventory, Table.getId_ok hfound, ?_, rfl, rfl, rfl, rfl⟩
      intro d' hd
      cases hd
      exact ⟨hz', fun _ => by simpa using Verify_ok hcheck, fun hn => absurd hneg hn⟩
    · rename_i hneg
      obtain ⟨_, hcheck, h⟩ := bind_ok h
      cases h
      refine ⟨inventory, Table.getId_ok hfound, ?_, rfl, rfl, rfl, rfl⟩
      intro d' hd
      cases hd
      exact ⟨hz', fun hn => absurd hn hneg, fun _ => by simpa using Verify_ok hcheck⟩
  · obtain ⟨_, -, h⟩ := bind_ok h
    obtain ⟨_, -, h⟩ := bind_ok h
    obtain ⟨_, -, h⟩ := bind_ok h
    obtain ⟨_, -, h⟩ := bind_ok h
    obtain ⟨_, -, h⟩ := bind_ok h
    obtain ⟨_, -, h⟩ := bind_ok h
    obtain ⟨inventory, hfound, h⟩ := bind_ok h
    cases h
    refine ⟨inventory, Table.getId_ok hfound, ?_, rfl, rfl, rfl, rfl⟩
    intro d hd
    cases hd
  · obtain ⟨_, -, h⟩ := bind_ok h
    obtain ⟨_, -, h⟩ := bind_ok h
    obtain ⟨_, -, h⟩ := bind_ok h
    obtain ⟨_, -, h⟩ := bind_ok h
    obtain ⟨_, -, h⟩ := bind_ok h
    obtain ⟨_, -, h⟩ := bind_ok h
    obtain ⟨inventory, hfound, h⟩ := bind_ok h
    cases h
    refine ⟨inventory, Table.getId_ok hfound, ?_, rfl, rfl, rfl, rfl⟩
    intro d hd
    cases hd
  · obtain ⟨_, -, h⟩ := bind_ok h
    obtain ⟨_, -, h⟩ := bind_ok h
    obtain ⟨_, -, h⟩ := bind_ok h
    obtain ⟨_, -, h⟩ := bind_ok h
    obtain ⟨_, -, h⟩ := bind_ok h
    obtain ⟨_, -, h⟩ := bind_ok h
    obtain ⟨inventory, hfound, h⟩ := bind_ok h
    obtain ⟨_, hz, h⟩ := bind_ok h
    have hz' : d ≠ 0 := by simpa using Verify_ok hz
    split at h
    · rename_i hneg
      obtain ⟨_, hcheck, h⟩ := bind_ok h
      cases h
      refine ⟨inventory, Table.getId_ok hfound, ?_, rfl, rfl, rfl, rfl⟩
      intro d' hd
      cases hd
      exact ⟨hz', fun _ => by simpa using Verify_ok hcheck, fun hn => absurd hneg hn⟩
    · rename_i hneg
      obtain ⟨_, hcheck, h⟩ := bind_ok h
      cases h
      refine ⟨inventory, Table.getId_ok hfound, ?_, rfl, rfl, rfl, rfl⟩
      intro d' hd
      cases hd
      exact ⟨hz', fun hn => absurd hn hneg, fun _ => by simpa using Verify_ok hcheck⟩

/-- After `erase`, the lookup of any other id is unchanged. -/
theorem Table.find_erase_other {Row : Type} (key : Row → Nat) (rows : List Row) (id : Nat)
    (r : Row) (hid : id ≠ key r) :
    Table.find key (Table.erase key rows r) id = Table.find key rows id := by
  induction rows with
  | nil => rfl
  | cons x rest ih =>
    by_cases hx : key x = key r
    · have hne : ¬ key x = id := fun h => hid (h ▸ hx)
      have hr : ¬ key r = id := fun h => hid h.symm
      simp [Table.erase, Table.find, List.find?_cons, hx, hr]
    · simp only [Table.erase, beq_iff_eq, hx, if_false]
      unfold Table.find at ih ⊢
      by_cases hxi : key x = id
      · rw [List.find?_cons_of_pos _ (by simpa using hxi),
          List.find?_cons_of_pos _ (by simpa using hxi)]
      · rw [List.find?_cons_of_neg _ (by simpa using hxi),
          List.find?_cons_of_neg _ (by simpa using hxi)]
        exact ih

/-- A lookup finds nothing exactly when no row has the id. -/
theorem Table.find_eq_none {Row : Type} (key : Row → Nat) (rows : List Row) (id : Nat) :
    Table.find key rows id = none ↔ ∀ x ∈ rows, key x ≠ id := by
  simp [Table.find, List.find?_eq_none]

/-- A row found by lookup is a row of the table. -/
theorem Table.find_mem {Row : Type} {key : Row → Nat} {rows : List Row} {id : Nat} {r : Row}
    (h : Table.find key rows id = some r) : r ∈ rows :=
  List.mem_of_find?_eq_some h

/-- The rows left by `erase` are rows of the table. -/
theorem Table.mem_of_mem_erase {Row : Type} (key : Row → Nat) (rows : List Row) (r x : Row)
    (h : x ∈ Table.erase key rows r) : x ∈ rows := by
  induction rows with
  | nil => cases h
  | cons y rest ih =>
    by_cases hy : key y = key r
    · simp only [Table.erase, beq_iff_eq, hy, if_true] at h
      exact List.mem_cons_of_mem _ h
    · simp only [Table.erase, beq_iff_eq, hy, if_false, List.mem_cons] at h
      rcases h with h | h
      · exact h ▸ List.mem_cons_self _ _
      · exact List.mem_cons_of_mem _ (ih h)

/-- In a table with unique primary keys, the erased row's id is no longer found. -/
theorem Table.find_erase_self {Row : Type} (key : Row → Nat) (rows : List Row) (r : Row)
    (hunique : (rows.map key).Nodup) :
    Table.find key (Table.erase key rows r) (key r) = none := by
  rw [Table.find_eq_none]
  induction rows with
  | nil => intro x hx; cases hx
  | cons y rest ih =>
    rw [List.map_cons, List.nodup_cons] at hunique
    by_cases hy : key y = key r
    · simp only [Table.erase, beq_iff_eq, hy, if_true]
      intro x hx hkx
      exact hunique.1 (List.mem_map.mpr ⟨x, hx, by rw [hkx, hy]⟩)
    · simp only [Table.erase, beq_iff_eq, hy, if_false]
      intro x hx
      rcases List.mem_cons.mp hx with h | h
      · rw [h]; exact hy
      · exact ih hunique.2 x h

/-- The operation `erase` leaves the rows with another primary key as they are,
in their order. -/
theorem Table.filter_erase {Row : Type} (key : Row → Nat) (rows : List Row) (r : Row) :
    (Table.erase key rows r).filter (fun x => key x != key r) =
      rows.filter (fun x => key x != key r) := by
  induction rows with
  | nil => rfl
  | cons x rest ih =>
    by_cases hx : key x = key r
    · simp [Table.erase, hx, List.filter_cons]
    · simp [Table.erase, hx, List.filter_cons, ih]

/-- Erasing a row that is found removes exactly one row. -/
theorem Table.erase_length {Row : Type} (key : Row → Nat) (rows : List Row) (r : Row)
    (hmem : ∃ x ∈ rows, key x = key r) :
    (Table.erase key rows r).length + 1 = rows.length := by
  induction rows with
  | nil => obtain ⟨x, hx, _⟩ := hmem; cases hx
  | cons y rest ih =>
    by_cases hy : key y = key r
    · simp [Table.erase, hy]
    · simp only [Table.erase, beq_iff_eq, hy, if_false, List.length_cons]
      obtain ⟨x, hx, hkx⟩ := hmem
      rcases List.mem_cons.mp hx with h | h
      · exact absurd (h ▸ hkx) hy
      · rw [ih ⟨x, h, hkx⟩]

/-- The operation `erase` keeps primary keys unique. -/
theorem Table.erase_nodup {Row : Type} (key : Row → Nat) (rows : List Row) (r : Row)
    (hunique : (rows.map key).Nodup) : ((Table.erase key rows r).map key).Nodup := by
  induction rows with
  | nil => exact List.nodup_nil
  | cons y rest ih =>
    rw [List.map_cons, List.nodup_cons] at hunique
    by_cases hy : key y = key r
    · simp only [Table.erase, beq_iff_eq, hy, if_true]
      exact hunique.2
    · simp only [Table.erase, beq_iff_eq, hy, if_false, List.map_cons, List.nodup_cons]
      refine ⟨?_, ih hunique.2⟩
      intro hmem
      obtain ⟨x, hx, hkx⟩ := List.mem_map.mp hmem
      exact hunique.1 (List.mem_map.mpr ⟨x, Table.mem_of_mem_erase key rest r x hx, hkx⟩)

/-- A lookup that finds a row succeeds with it. -/
theorem Table.getId_of_find {Row : Type} {key : Row → Nat} {rows : List Row} {id : Nat}
    {r : Row} (message : String) (h : Table.find key rows id = some r) :
    Table.getId key rows id message = .ok r := by
  unfold Table.getId
  rw [h]

/-- The authorization check passes for an account that authorized. -/
theorem SupplyChain.requireAuthorization_of_mem {ctx : SupplyChain.Context}
    {account : AccountHandle} (h : account ∈ ctx.authorizations) :
    SupplyChain.requireAuthorization ctx account = .ok () := by
  unfold SupplyChain.requireAuthorization
  rw [if_pos h]

/-- The result of `removeInventory` once the caller is the authorized manager,
the documentation is short enough and warehouse and record exist. -/
theorem SupplyChain.removeInventory_eq {ctx : SupplyChain.Context} {db : SupplyChain.Database}
    {warehouseId : WarehouseId} {manager : AccountHandle} {inventoryId : InventoryId}
    {documentation : String} {warehouse : SupplyChain.Warehouse}
    {inventory : SupplyChain.Inventory} (quantity : Nat) (deleteRecord : Bool)
    (hauth : manager ∈ ctx.authorizations)
    (hdoc : documentation.length ≤ SupplyChain.MAX_DESCRIPTION_SIZE)
    (hw : Table.find SupplyChain.Warehouse.primary_key db.warehouses warehouseId = some warehouse)
    (hmanager : warehouse.manager = manager)
    (hfound : Table.find SupplyChain.Inventory.primary_key (db.stock warehouseId) inventoryId =
      some inventory) :
    SupplyChain.removeInventory ctx db warehouseId manager inventoryId quantity deleteRecord
        documentation =
      if 0 < quantity ∧ inventory.quantity < quantity then
        .error (.VerifyFailed "Cannot remove inventory: quantity to remove")
      else if deleteRecord = true ∧ ¬ (quantity = 0 ∨ quantity = inventory.quantity) then
        .error (.VerifyFailed
          "Cannot remove inventory: record set to be deleted, but quantity in stock is not zero")
      else if deleteRecord = true then
        .ok ⟨db.warehouses, Function.update db.stock warehouseId
          (Table.erase SupplyChain.Inventory.primary_key (db.stock warehouseId) inventory),
          db.manifests, db.cargo⟩
      else
        .ok ⟨db.warehouses, Function.update db.stock warehouseId
          (Table.modify SupplyChain.Inventory.primary_key (db.stock warehouseId) inventory manager
            (SupplyChain.removeInventory.commit quantity)),
          db.manifests, db.cargo⟩ := by
  unfold SupplyChain.removeInventory
  simp only [SupplyChain.requireAuthorization_of_mem hauth, Table.getId_of_find _ hw,
    Table.getId_of_find _ hfound, Verify, hdoc, hmanager, decide_True, beq_self_eq_true,
    if_true, bind, Except.bind, pure, Except.pure]
  rcases Nat.lt_or_ge inventory.quantity quantity with hlt | hge
  · have hle : ¬ quantity ≤ inventory.quantity := Nat.not_le.mpr hlt
    have hq : 0 < quantity := by omega
    simp [hq, hlt, hle]
  · have hlt : ¬ inventory.quantity < quantity := Nat.not_lt.mpr hge
    cases deleteRecord <;> by_cases hq : 0 < quantity <;>
      by_cases hz : quantity = 0 <;> by_cases he : quantity = inventory.quantity <;>
      simp [hq, hge, hlt, hz, he]

/-- Without borrow, the `uint32_t` subtraction is the exact difference. -/
theorem uint32_sub_eq (a b : Nat) (hle : b ≤ a) (ha : a < 2 ^ 32) : uint32_sub a b = a - b := by
  unfold uint32_sub
  omega

/-- The mutator of `removeInventory` keeps every field but the quantity. -/
theorem SupplyChain.removeInventory.commit_eq (quantity : Nat) (i : SupplyChain.Inventory) :
    SupplyChain.removeInventory.commit quantity i =
      ⟨i.id, i.description, i.origin, i.movement,
        if quantity = 0 then 0 else uint32_sub i.quantity quantity⟩ := by
  unfold SupplyChain.removeInventory.commit
  by_cases hz : quantity = 0 <;> simp [hz]

/-- In a table with unique primary keys, the rows left by `erase` are the rows
with another primary key. -/
theorem Table.mem_erase_iff {Row : Type} (key : Row → Nat) (rows : List Row) (r x : Row)
    (hunique : (rows.map key).Nodup) :
    x ∈ Table.erase key rows r ↔ x ∈ rows ∧ key x ≠ key r := by
  induction rows with
  | nil => simp [Table.erase]
  | cons y rest ih =>
    rw [List.map_cons, List.nodup_cons] at hunique
    by_cases hy : key y = key r
    · simp only [Table.erase, beq_iff_eq, hy, if_true, List.mem_cons]
      constructor
      · intro hx
        refine ⟨Or.inr hx, ?_⟩
        intro hkx
        exact hunique.1 (List.mem_map.mpr ⟨x, hx, by rw [hkx, hy]⟩)
      · rintro ⟨hx | hx, hne⟩
        · exact absurd (hx ▸ hy) hne
        · exact hx
    · simp only [Table.erase, beq_iff_eq, hy, if_false, List.mem_cons, ih hunique.2]
      constructor
      · rintro (hx | ⟨hx, hne⟩)
        · exact ⟨Or.inl hx, hx ▸ hy⟩
        · exact ⟨Or.inr hx, hne⟩
      · rintro ⟨hx | hx, hne⟩
        · exact Or.inl hx
        · exact Or.inr ⟨hx, hne⟩

/-- The secondary index contains a key exactly when some row has it. -/
theorem Table.contains_iff {Row : Type} (getter : Row → Nat) (rows : List Row) (k : Nat) :
    Table.contains getter rows k = true ↔ ∃ x ∈ rows, getter x = k := by
  simp [Table.contains]

/-- The mutator that takes units off a cargo record keeps every other field. -/
theorem SupplyChain.Cargo.subtract_cargo_eq (q : Nat) (c : SupplyChain.Cargo) :
    SupplyChain.Cargo.subtract q c =
      ⟨c.id, c.manifest, c.description, c.origin, c.movement, uint32_sub c.quantity q⟩ := rfl

/-- The mutator that takes units off an inventory record keeps every other field. -/
theorem SupplyChain.Inventory.subtract_inventory_eq (q : Nat) (i : SupplyChain.Inventory) :
    SupplyChain.Inventory.subtract q i =
      ⟨i.id, i.description, i.origin, i.movement, uint32_sub i.quantity q⟩ := rfl

/-- The result of `removeCargo` once the carrier authorized, the documentation
is short enough and manifest and cargo entry exist. -/
theorem SupplyChain.removeCargo_eq {ctx : SupplyChain.Context} {db : SupplyChain.Database}
    {carrier : AccountHandle} {manifestId : ManifestId} {cargoId : CargoId}
    {documentation : String} {manifest : SupplyChain.Manifest} {cargo : SupplyChain.Cargo}
    (quantity : Nat)
    (hauth : carrier ∈ ctx.authorizations)
    (hdoc : documentation.length < SupplyChain.MAX_DESCRIPTION_SIZE)
    (hm : Table.find SupplyChain.Manifest.primary_key (db.manifests carrier) manifestId =
      some manifest)
    (hc : Table.find SupplyChain.Cargo.primary_key (db.cargo carrier) cargoId = some cargo) :
    SupplyChain.removeCargo ctx db carrier manifestId cargoId quantity documentation =
      if quantity = 0 then .error (.VerifyFailed "Cannot remove zero units of cargo.")
      else if cargo.quantity < quantity then
        .error (.VerifyFailed "Could not remove cargo: need to remove")
      else if quantity = cargo.quantity then
        if Table.contains SupplyChain.Cargo.manifest_key
            (Table.erase SupplyChain.Cargo.primary_key (db.cargo carrier) cargo)
            (SupplyChain.manifestKey manifestId) = true then
          .ok ⟨db.warehouses, db.stock, db.manifests, Function.update db.cargo carrier
            (Table.erase SupplyChain.Cargo.primary_key (db.cargo carrier) cargo)⟩
        else
          .ok ⟨db.warehouses, db.stock, Function.update db.manifests carrier
            (Table.erase SupplyChain.Manifest.primary_key (db.manifests carrier) manifest),
            Function.update db.cargo carrier
              (Table.erase SupplyChain.Cargo.primary_key (db.cargo carrier) cargo)⟩
      else
        .ok ⟨db.warehouses, db.stock, db.manifests, Function.update db.cargo carrier
          (Table.modify SupplyChain.Cargo.primary_key (db.cargo carrier) cargo carrier
            (SupplyChain.Cargo.subtract quantity))⟩ := by
  unfold SupplyChain.removeCargo
  simp only [SupplyChain.requireAuthorization_of_mem hauth, Table.getId_of_find _ hm,
    Table.getId_of_find _ hc, Verify, hdoc, decide_True, if_true, bind, Except.bind, pure,
    Except.pure]
  by_cases hz : quantity = 0
  · simp [hz]
  · have hpos : quantity > 0 := Nat.pos_of_ne_zero hz
    rcases Nat.lt_or_ge cargo.quantity quantity with hlt | hge
    · have hle : ¬ cargo.quantity ≥ quantity := Nat.not_le.mpr hlt
      simp [hz, hpos, hlt, hle]
    · have hlt : ¬ cargo.quantity < quantity := Nat.not_lt.mpr hge
      by_cases he : quantity = cargo.quantity
      · have hpos' : 0 < cargo.quantity := he ▸ hpos
        have hz' : ¬ cargo.quantity = 0 := by omega
        by_cases hcont : Table.contains SupplyChain.Cargo.manifest_key
            (Table.erase SupplyChain.Cargo.primary_key (db.cargo carrier) cargo)
            (SupplyChain.manifestKey manifestId) = true
        · simp [hpos', hz', he, hcont]
        · simp [hpos', hz', he, hcont]
      · simp [hz, hpos, hge, hlt, he]

/-- Each iteration of the erase loop of `deleteWarehouse` removes one row. -/
theorem SupplyChain.deleteWarehouse.erase_begin_length (stock : List SupplyChain.Inventory)
    (first : SupplyChain.Inventory) (h : Table.begin stock = some first) :
    (Table.erase SupplyChain.Inventory.primary_key stock first).length + 1 = stock.length := by
  cases stock with
  | nil => cases h
  | cons x rest =>
    have hx : x = first := Option.some.inj h
    subst hx
    simp [Table.erase]

/-- With fuel for every row, the erase loop of `deleteWarehouse` ends with an
empty table. -/
theorem SupplyChain.deleteWarehouse.eraseAll_of_le (fuel : Nat)
    (stock : List SupplyChain.Inventory) (h : stock.length ≤ fuel) :
    SupplyChain.deleteWarehouse.eraseAll fuel stock = some [] := by
  induction fuel generalizing stock with
  | zero =>
    cases stock with
    | nil => unfold SupplyChain.deleteWarehouse.eraseAll; rfl
    | cons x rest => simp at h
  | succ n ih =>
    cases stock with
    | nil => unfold SupplyChain.deleteWarehouse.eraseAll; rfl
    | cons x rest =>
      have hlen : (Table.erase SupplyChain.Inventory.primary_key (x :: rest) x).length ≤ n := by
        have := SupplyChain.deleteWarehouse.erase_begin_length (x :: rest) x rfl
        simp only [List.length_cons] at h this
        omega
      unfold SupplyChain.deleteWarehouse.eraseAll
      simp only [Table.begin, List.head?_cons]
      exact ih _ hlen

/-- The result of `deleteWarehouse` once the caller is the authorized manager,
the documentation is short enough and the warehouse exists. -/
theorem SupplyChain.deleteWarehouse_eq {ctx : SupplyChain.Context} {db : SupplyChain.Database}
    {warehouseId : WarehouseId} {manager : AccountHandle} {documentation : String}
    {warehouse : SupplyChain.Warehouse} (fuel : Nat) (removeInventory : Bool)
    (hauth : manager ∈ ctx.authorizations)
    (hdoc : documentation.length ≤ SupplyChain.MAX_DESCRIPTION_SIZE)
    (hw : Table.find SupplyChain.Warehouse.primary_key db.warehouses warehouseId = some warehouse)
    (hmanager : warehouse.manager = manager) :
    SupplyChain.deleteWarehouse fuel ctx db warehouseId manager removeInventory documentation =
      if db.stock warehouseId = [] then
        some (.ok ⟨Table.erase SupplyChain.Warehouse.primary_key db.warehouses warehouse,
          Function.update db.stock warehouseId (db.stock warehouseId), db.manifests, db.cargo⟩)
      else if removeInventory = true then
        (SupplyChain.deleteWarehouse.eraseAll fuel (db.stock warehouseId)).map (fun stock =>
          .ok ⟨Table.erase SupplyChain.Warehouse.primary_key db.warehouses warehouse,
            Function.update db.stock warehouseId stock, db.manifests, db.cargo⟩)
      else some (.error (.VerifyFailed "Cannot delete warehouse")) := by
  unfold SupplyChain.deleteWarehouse
  simp only [SupplyChain.requireAuthorization_of_mem hauth, Table.getId_of_find _ hw, Verify,
    hdoc, hmanager, decide_True, beq_self_eq_true, if_true, bind, Except.bind, pure,
    Except.pure]
  cases hstock : db.stock warehouseId with
  | nil => simp [Table.begin]
  | cons x rest =>
    cases removeInventory with
    | false => simp [Table.begin]
    | true =>
      simp only [Table.begin, List.head?_cons, Option.isSome_some, if_true]
      cases SupplyChain.deleteWarehouse.eraseAll fuel (x :: rest) <;> simp

/-- Emplacing a key above every key of the map appends the entry. -/
theorem StdMap.emplace_append {V : Type} (m : List (Nat × V)) (k : Nat) (v : V)
    (h : ∀ x ∈ m, x.1 < k) : StdMap.emplace m k v = m ++ [(k, v)] := by
  induction m with
  | nil => rfl
  | cons x rest ih =>
    obtain ⟨k', v'⟩ := x
    have hk : k' < k := h (k', v') (List.mem_cons_self _ _)
    have h1 : ¬ k < k' := by omega
    have h2 : ¬ k = k' := by omega
    simp only [StdMap.emplace, h1, h2, if_false, List.cons_append]
    rw [ih (fun y hy => h y (List.mem_cons_of_mem _ hy))]

/-- What `processPickList` returns for a list with ascending ids: one picked item
per entry, in order, under the entry's id, being the row of that id, of which a
positive amount no larger than the stock is required. -/
theorem SupplyChain.processPickList.loop_ok {Item : Type} (key : Item → Nat)
    (quantity : Item → Nat) (stock : List Item) (list : List (Nat × Nat))
    (acc picked : List (Nat × Item))
    (hsorted : list.Pairwise (fun a b => a.1 < b.1))
    (hacc : ∀ x ∈ acc, ∀ e ∈ list, x.1 < e.1)
    (h : SupplyChain.processPickList.loop key quantity stock list acc = .ok picked) :
    ∃ new, picked = acc ++ new ∧
      List.Forall₂ (fun e p => p.1 = e.1 ∧ Table.find key stock e.1 = some p.2 ∧
        0 < e.2 ∧ e.2 ≤ quantity p.2) list new := by
  induction list generalizing acc with
  | nil =>
    unfold SupplyChain.processPickList.loop at h
    cases h
    exact ⟨[], by simp, List.Forall₂.nil⟩
  | cons e rest ih =>
    obtain ⟨id, required⟩ := e
    unfold SupplyChain.processPickList.loop at h
    obtain ⟨_, h1, h⟩ := bind_ok h
    obtain ⟨item, h2, h⟩ := bind_ok h
    obtain ⟨_, h3, h⟩ := bind_ok h
    have hpos : 0 < required := by simpa using Verify_ok h1
    have hle : required ≤ quantity item := by simpa using Verify_ok h3
    have hfind := Table.getId_ok h2
    rw [List.pairwise_cons] at hsorted
    have hemplace : StdMap.emplace acc id item = acc ++ [(id, item)] :=
      StdMap.emplace_append acc id item
        (fun x hx => hacc x hx (id, required) (List.mem_cons_self _ _))
    rw [hemplace] at h
    have hacc' : ∀ x ∈ acc ++ [(id, item)], ∀ e ∈ rest, x.1 < e.1 := by
      intro x hx e he
      rcases List.mem_append.mp hx with hx | hx
      · exact hacc x hx e (List.mem_cons_of_mem _ he)
      · rw [List.mem_singleton] at hx
        rw [hx]
        exact hsorted.1 e he
    obtain ⟨new, hnew, hrel⟩ := ih (acc ++ [(id, item)]) hsorted.2 hacc' h
    refine ⟨(id, item) :: new, ?_, List.Forall₂.cons ⟨rfl, hfind, hpos, hle⟩ hrel⟩
    rw [hnew, List.append_assoc]
    rfl

/-- The items `processPickList` picks, for a list with ascending ids. -/
theorem SupplyChain.processPickList_ok {Item : Type} (key : Item → Nat)
    (quantity : Item → Nat) (stock : List Item) (list : List (Nat × Nat))
    (picked : List (Nat × Item))
    (hsorted : list.Pairwise (fun a b => a.1 < b.1))
    (h : SupplyChain.processPickList key quantity stock list = .ok picked) :
    List.Forall₂ (fun e p => p.1 = e.1 ∧ Table.find key stock e.1 = some p.2 ∧
      0 < e.2 ∧ e.2 ≤ quantity p.2) list picked := by
  obtain ⟨new, hnew, hrel⟩ := SupplyChain.processPickList.loop_ok key quantity stock list []
    picked hsorted (fun x hx => by cases hx) h
  rw [hnew]
  exact hrel

/-- The operation `modify` keeps the primary keys when the mutator does. -/
theorem Table.map_key_modify {Row : Type} (key : Row → Nat) (rows : List Row) (r : Row)
    (payer : AccountHandle) (f : Row → Row) (hkey : ∀ x, key (f x) = key x) :
    (Table.modify key rows r payer f).map key = rows.map key := by
  induction rows with
  | nil => rfl
  | cons x rest ih =>
    by_cases hx : key x = key r
    · simp [Table.modify, hx, hkey]
    · simp [Table.modify, hx, ih]

/-- One source update keeps primary keys unique. -/
theorem Table.consumeStep_nodup {Row : Type} (key : Row → Nat) (subtract : Nat → Row → Row)
    (erases : Row → Nat → Bool) (payer : AccountHandle) (rows : List Row) (r : Row) (q : Nat)
    (hkey : ∀ n x, key (subtract n x) = key x) (hunique : (rows.map key).Nodup) :
    ((Table.consumeStep key subtract erases payer rows r q).map key).Nodup := by
  unfold Table.consumeStep
  split
  · exact Table.erase_nodup key rows r hunique
  · rw [Table.map_key_modify key rows r payer _ (hkey q)]
    exact hunique

/-- One source update leaves the lookup of every other id unchanged. -/
theorem Table.find_consumeStep_other {Row : Type} (key : Row → Nat)
    (subtract : Nat → Row → Row) (erases : Row → Nat → Bool) (payer : AccountHandle)
    (rows : List Row) (r : Row) (q : Nat) (id : Nat)
    (hkey : ∀ n x, key (subtract n x) = key x) (hid : id ≠ key r) :
    Table.find key (Table.consumeStep key subtract erases payer rows r q) id =
      Table.find key rows id := by
  unfold Table.consumeStep
  split
  · exact Table.find_erase_other key rows id r hid
  · exact Table.find_modify_other key rows id r payer _ hid (hkey q)

/-- One source update on a found row: its id is then not found when the row was
erased, and names the reduced row otherwise. -/
theorem Table.find_consumeStep_self {Row : Type} (key : Row → Nat)
    (subtract : Nat → Row → Row) (erases : Row → Nat → Bool) (payer : AccountHandle)
    (rows : List Row) (r : Row) (q : Nat)
    (hkey : ∀ n x, key (subtract n x) = key x) (hunique : (rows.map key).Nodup)
    (hfound : Table.find key rows (key r) = some r) :
    Table.find key (Table.consumeStep key subtract erases payer rows r q) (key r) =
      if erases r q then none else some (subtract q r) := by
  unfold Table.consumeStep
  split
  · exact Table.find_erase_self key rows r hunique
  · exact Table.find_modify_self key rows (key r) r payer _ hfound (hkey q r)

/-- The source updates of a loop leave the lookup of every id they do not name
unchanged. -/
theorem Table.find_consumeAll_other {Row : Type} (key : Row → Nat)
    (subtract : Nat → Row → Row) (erases : Row → Nat → Bool) (payer : AccountHandle)
    (picks : List (Row × Nat)) (rows : List Row) (id : Nat)
    (hkey : ∀ n x, key (subtract n x) = key x) (hid : ∀ x ∈ picks, key x.1 ≠ id) :
    Table.find key (Table.consumeAll key subtract erases payer picks rows) id =
      Table.find key rows id := by
  induction picks generalizing rows with
  | nil => rfl
  | cons x rest ih =>
    obtain ⟨r, q⟩ := x
    unfold Table.consumeAll
    rw [ih _ (fun y hy => hid y (List.mem_cons_of_mem _ hy))]
    exact Table.find_consumeStep_other key subtract erases payer rows r q id hkey
      (fun h => hid (r, q) (List.mem_cons_self _ _) h.symm)

/-- The source updates of a loop over rows with distinct ids, each found in the
table: afterwards the id of a picked row is not found when the row was erased,
and names the reduced row otherwise. -/
theorem Table.find_consumeAll_self {Row : Type} (key : Row → Nat)
    (subtract : Nat → Row → Row) (erases : Row → Nat → Bool) (payer : AccountHandle)
    (picks : List (Row × Nat)) (rows : List Row) (r : Row) (q : Nat)
    (hkey : ∀ n x, key (subtract n x) = key x) (hunique : (rows.map key).Nodup)
    (hdistinct : (picks.map (fun x => key x.1)).Nodup)
    (hfound : ∀ x ∈ picks, Table.find key rows (key x.1) = some x.1)
    (hmem : (r, q) ∈ picks) :
    Table.find key (Table.consumeAll key subtract erases payer picks rows) (key r) =
      if erases r q then none else some (subtract q r) := by
  induction picks generalizing rows with
  | nil => cases hmem
  | cons x rest ih =>
    obtain ⟨r0, q0⟩ := x
    rw [List.map_cons, List.nodup_cons] at hdistinct
    unfold Table.consumeAll
    rcases List.mem_cons.mp hmem with hhead | htail
    · have hr : r = r0 := congrArg Prod.fst hhead
      have hq : q = q0 := congrArg Prod.snd hhead
      subst hr hq
      rw [Table.find_consumeAll_other key subtract erases payer rest _ (key r) hkey]
      · exact Table.find_consumeStep_self key subtract erases payer rows r q hkey hunique
          (hfound (r, q) (List.mem_cons_self _ _))
      · intro y hy hky
        exact hdistinct.1 (List.mem_map.mpr ⟨y, hy, hky⟩)
    · have hne : ∀ y ∈ rest, key y.1 ≠ key r0 := by
        intro y hy hky
        exact hdistinct.1 (List.mem_map.mpr ⟨y, hy, hky⟩)
      apply ih _ (Table.consumeStep_nodup key subtract erases payer rows r0 q0 hkey hunique)
        hdistinct.2 _ htail
      intro y hy
      rw [Table.find_consumeStep_other key subtract erases payer rows r0 q0 (key y.1) hkey
        (hne y hy)]
      exact hfound y (List.mem_cons_of_mem _ hy)

/-- The picked rows carry the ids of the list, in order. -/
theorem SupplyChain.picks_keys {Item : Type} (key : Item → Nat)
    (stock : List Item) (list : List (Nat × Nat)) (picked : List (Nat × Item))
    (hrel : List.Forall₂ (fun e p => p.1 = e.1 ∧ Table.find key stock e.1 = some p.2)
      list picked) :
    (SupplyChain.picks list picked).map (fun x => key x.1) = list.map Prod.fst := by
  induction hrel with
  | nil => rfl
  | cons hhead _ ih =>
    simp only [SupplyChain.picks, List.zipWith_cons_cons, List.map_cons]
    rw [Table.find_key hhead.2]
    exact congrArg _ ih

/-- Every picked row is the row its id names, and its id is an id of the list. -/
theorem SupplyChain.picks_found {Item : Type} (key : Item → Nat)
    (stock : List Item) (list : List (Nat × Nat)) (picked : List (Nat × Item))
    (hrel : List.Forall₂ (fun e p => p.1 = e.1 ∧ Table.find key stock e.1 = some p.2)
      list picked) :
    ∀ x ∈ SupplyChain.picks list picked,
      Table.find key stock (key x.1) = some x.1 ∧ ∃ e ∈ list, e.1 = key x.1 := by
  induction hrel with
  | nil => intro x hx; cases hx
  | @cons e p rest prest hhead _ ih =>
    intro x hx
    simp only [SupplyChain.picks, List.zipWith_cons_cons, List.mem_cons] at hx
    rcases hx with hx | hx
    · rw [hx]
      have hk : key p.2 = e.1 := Table.find_key hhead.2
      refine ⟨?_, e, List.mem_cons_self _ _, hk.symm⟩
      show Table.find key stock (key p.2) = some p.2
      rw [hk]
      exact hhead.2
    · obtain ⟨hf, e', he', hk⟩ := ih x hx
      exact ⟨hf, e', List.mem_cons_of_mem _ he', hk⟩

/-- Every entry of the list has its picked row. -/
theorem SupplyChain.picks_of_mem {Item : Type} (key : Item → Nat)
    (stock : List Item) (list : List (Nat × Nat)) (picked : List (Nat × Item))
    (hrel : List.Forall₂ (fun e p => p.1 = e.1 ∧ Table.find key stock e.1 = some p.2)
      list picked) :
    ∀ e ∈ list, ∃ r, (r, e.2) ∈ SupplyChain.picks list picked ∧
      Table.find key stock e.1 = some r := by
  induction hrel with
  | nil => intro e he; cases he
  | cons hhead _ ih =>
    intro e he
    simp only [SupplyChain.picks, List.zipWith_cons_cons, List.mem_cons]
    rcases List.mem_cons.mp he with he | he
    · rw [he]
      exact ⟨_, Or.inl rfl, hhead.2⟩
    · obtain ⟨r, hmem, hrest⟩ := ih e he
      exact ⟨r, Or.inr hmem, hrest⟩

/-- The entries of the list and the picked rows, position by position. -/
theorem SupplyChain.picks_rel {Item : Type} (key : Item → Nat)
    (stock : List Item) (list : List (Nat × Nat)) (picked : List (Nat × Item))
    (hrel : List.Forall₂ (fun e p => p.1 = e.1 ∧ Table.find key stock e.1 = some p.2)
      list picked) :
    List.Forall₂ (fun e x => x.2 = e.2 ∧ Table.find key stock e.1 = some x.1) list
      (SupplyChain.picks list picked) := by
  induction hrel with
  | nil => exact List.Forall₂.nil
  | cons hhead _ ih => exact List.Forall₂.cons ⟨rfl, hhead.2⟩ ih

/-- The items `processPickList` picks are the rows the ids name. -/
theorem SupplyChain.processPickList_rows {Item : Type} (key : Item → Nat)
    (quantity : Item → Nat) (stock : List Item) (list : List (Nat × Nat))
    (picked : List (Nat × Item))
    (hsorted : list.Pairwise (fun a b => a.1 < b.1))
    (h : SupplyChain.processPickList key quantity stock list = .ok picked) :
    List.Forall₂ (fun e p => p.1 = e.1 ∧ Table.find key stock e.1 = some p.2) list picked :=
  (SupplyChain.processPickList_ok key quantity stock list picked hsorted h).imp
    (fun _ _ h => ⟨h.1, h.2.1⟩)

/-- The amounts `processPickList` accepts are positive and within the stock of
the row. -/
theorem SupplyChain.processPickList_amounts {Item : Type} (key : Item → Nat)
    (quantity : Item → Nat) (stock : List Item) (list : List (Nat × Nat))
    (picked : List (Nat × Item))
    (hsorted : list.Pairwise (fun a b => a.1 < b.1))
    (h : SupplyChain.processPickList key quantity stock list = .ok picked) :
    ∀ e ∈ list, ∃ r, Table.find key stock e.1 = some r ∧ 0 < e.2 ∧ e.2 ≤ quantity r := by
  have hrel := SupplyChain.processPickList_ok key quantity stock list picked hsorted h
  clear h hsorted
  induction hrel with
  | nil => intro e he; cases he
  | cons hhead _ ih =>
    intro e he
    rcases List.mem_cons.mp he with he | he
    · rw [he]
      exact ⟨_, hhead.2.1, hhead.2.2.1, hhead.2.2.2⟩
    · exact ih e he

/-- Two position-wise relations in a row give one. -/
theorem List.Forall₂.compose {α β γ : Type} {R : α → β → Prop} {Q : β → γ → Prop}
    {l₁ : List α} {l₂ : List β} {l₃ : List γ} (h₁ : List.Forall₂ R l₁ l₂)
    (h₂ : List.Forall₂ Q l₂ l₃) : List.Forall₂ (fun a c => ∃ b, R a b ∧ Q b c) l₁ l₃ := by
  induction h₁ generalizing l₃ with
  | nil => cases h₂; exact List.Forall₂.nil
  | cons hhead _ ih =>
    cases h₂ with
    | cons hq hrest => exact List.Forall₂.cons ⟨_, hhead, hq⟩ (ih hrest)

/-- What a commit loop of the common shape did when it succeeded: every picked
row passed the check, the source went through the source updates, and the
destination gained one record per picked row, in order. -/
theorem SupplyChain.PickLoop.run_ok {S D : Type} (key : S → Nat) (subtract : Nat → S → S)
    (erases : S → Nat → Bool) (check : S → Bool) (message : String) (dkey : D → Nat)
    (mk : Nat → S → Nat → D) (payerS payerD : AccountHandle)
    (list : List (Nat × Nat)) (picked : List (Nat × S)) (s s' : List S) (d d' : List D)
    (hrel : List.Forall₂ (fun e p => p.1 = e.1) list picked)
    (h : SupplyChain.PickLoop.run key subtract erases check message dkey mk payerS payerD
      list picked s d = .ok (s', d')) :
    (∀ x ∈ SupplyChain.picks list picked, check x.1 = true) ∧
      s' = Table.consumeAll key subtract erases payerS (SupplyChain.picks list picked) s ∧
      ∃ news, d' = d ++ news ∧
        List.Forall₂ (fun x n => ∃ newId, n = mk newId x.1 x.2)
          (SupplyChain.picks list picked) news := by
  induction hrel generalizing s d with
  | nil =>
    unfold SupplyChain.PickLoop.run at h
    cases h
    exact ⟨fun x hx => (by cases hx), rfl, [], (by simp), List.Forall₂.nil⟩
  | @cons e p rest prest hhead _ ih =>
    obtain ⟨id, q⟩ := e
    obtain ⟨pid, r⟩ := p
    have hpid : pid = id := hhead
    subst hpid
    unfold SupplyChain.PickLoop.run at h
    simp only [SupplyChain.PickedItems.take, beq_self_eq_true, if_true] at h
    obtain ⟨_, hcheck, h⟩ := bind_ok h
    obtain ⟨hall, hs, news, hd, hnews⟩ := ih _ _ h
    refine ⟨?_, ?_, mk (Table.nextId dkey d) r q :: news, ?_, ?_⟩
    · intro x hx
      simp only [SupplyChain.picks, List.zipWith_cons_cons, List.mem_cons] at hx
      rcases hx with hx | hx
      · rw [hx]
        exact Verify_ok hcheck
      · exact hall x hx
    · rw [hs]
      rfl
    · rw [hd]
      simp [Table.create]
    · exact List.Forall₂.cons ⟨_, rfl⟩ hnews

/-- The loop of `transferInventory` has the common shape. -/
theorem SupplyChain.transferInventory_loop_eq (ctx : SupplyChain.Context)
    (sourceManager destinationManager : AccountHandle) (deleteConsumed : Bool)
    (list : List (Nat × Nat)) (picked : List (Nat × SupplyChain.Inventory))
    (s d : List SupplyChain.Inventory) :
    SupplyChain.transferInventory.loop ctx sourceManager destinationManager deleteConsumed list
        picked s d =
      SupplyChain.PickLoop.run SupplyChain.Inventory.primary_key SupplyChain.Inventory.subtract
        (fun r q => deleteConsumed && q == r.quantity) (fun _ => true) ""
        SupplyChain.Inventory.primary_key
        (fun newId r q => ⟨newId, r.description, r.origin,
          r.movement ++ [ctx.currentTransactionId], q⟩)
        sourceManager destinationManager list picked s d := by
  induction list generalizing picked s d with
  | nil =>
    unfold SupplyChain.transferInventory.loop SupplyChain.PickLoop.run
    rfl
  | cons e rest ih =>
    obtain ⟨id, q⟩ := e
    unfold SupplyChain.transferInventory.loop SupplyChain.PickLoop.run
    cases SupplyChain.PickedItems.take picked id with
    | none => rfl
    | some x =>
      obtain ⟨r, picked'⟩ := x
      simp only [Verify, if_true, bind, Except.bind, ih]
      rfl

/-- The loop of `shipInventory` has the common shape. -/
theorem SupplyChain.shipInventory_loop_eq (ctx : SupplyChain.Context)
    (manager carrier : AccountHandle) (newManifestId : ManifestId) (deleteConsumed : Bool)
    (list : List (Nat × Nat)) (picked : List (Nat × SupplyChain.Inventory))
    (s : List SupplyChain.Inventory) (d : List SupplyChain.Cargo) :
    SupplyChain.shipInventory.loop ctx manager carrier newManifestId deleteConsumed list
        picked s d =
      SupplyChain.PickLoop.run SupplyChain.Inventory.primary_key SupplyChain.Inventory.subtract
        (fun r q => deleteConsumed && q == r.quantity) (fun _ => true) ""
        SupplyChain.Cargo.primary_key
        (fun newId r q => ⟨newId, newManifestId, r.description, r.origin,
          r.movement ++ [ctx.currentTransactionId], q⟩)
        manager carrier list picked s d := by
  induction list generalizing picked s d with
  | nil =>
    unfold SupplyChain.shipInventory.loop SupplyChain.PickLoop.run
    rfl
  | cons e rest ih =>
    obtain ⟨id, q⟩ := e
    unfold SupplyChain.shipInventory.loop SupplyChain.PickLoop.run
    cases SupplyChain.PickedItems.take picked id with
    | none => rfl
    | some x =>
      obtain ⟨r, picked'⟩ := x
      simp only [Verify, if_true, bind, Except.bind, ih]
      rfl

/-- The loop of `deliverCargo` has the common shape. -/
theorem SupplyChain.deliverCargo_loop_eq (ctx : SupplyChain.Context)
    (carrier manager : AccountHandle) (manifestId : ManifestId)
    (list : List (Nat × Nat)) (picked : List (Nat × SupplyChain.Cargo))
    (s : List SupplyChain.Cargo) (d : List SupplyChain.Inventory) :
    SupplyChain.deliverCargo.loop ctx carrier manager manifestId list picked s d =
      SupplyChain.PickLoop.run SupplyChain.Cargo.primary_key SupplyChain.Cargo.subtract
        (fun r q => q == r.quantity) (fun r => r.manifest == manifestId)
        "Cannot deliver cargo: submanifest specifies ID"
        SupplyChain.Inventory.primary_key
        (fun newId r q => ⟨newId, r.description, r.origin,
          r.movement ++ [ctx.currentTransactionId], q⟩)
        carrier manager list picked s d := by
  induction list generalizing picked s d with
  | nil =>
    unfold SupplyChain.deliverCargo.loop SupplyChain.PickLoop.run
    rfl
  | cons e rest ih =>
    obtain ⟨id, q⟩ := e
    unfold SupplyChain.deliverCargo.loop SupplyChain.PickLoop.run
    cases SupplyChain.PickedItems.take picked id with
    | none => rfl
    | some x =>
      obtain ⟨r, picked'⟩ := x
      simp only [ih]
      rfl

/-- The loop of `transferCargo` has the common shape. -/
theorem SupplyChain.transferCargo_loop_eq (ctx : SupplyChain.Context)
    (sourceCarrier destinationCarrier : AccountHandle) (manifestId newManifestId : ManifestId)
    (list : List (Nat × Nat)) (picked : List (Nat × SupplyChain.Cargo))
    (s d : List SupplyChain.Cargo) :
    SupplyChain.transferCargo.loop ctx sourceCarrier destinationCarrier manifestId
        newManifestId list picked s d =
      SupplyChain.PickLoop.run SupplyChain.Cargo.primary_key SupplyChain.Cargo.subtract
        (fun r q => q == r.quantity) (fun r => r.manifest == manifestId)
        "Cannot transfer cargo: submanifest specifies ID"
        SupplyChain.Cargo.primary_key
        (fun newId r q => ⟨newId, newManifestId, r.description, r.origin,
          r.movement ++ [ctx.currentTransactionId], q⟩)
        sourceCarrier destinationCarrier list picked s d := by
  induction list generalizing picked s d with
  | nil =>
    unfold SupplyChain.transferCargo.loop SupplyChain.PickLoop.run
    rfl
  | cons e rest ih =>
    obtain ⟨id, q⟩ := e
    unfold SupplyChain.transferCargo.loop SupplyChain.PickLoop.run
    cases SupplyChain.PickedItems.take picked id with
    | none => rfl
    | some x =>
      obtain ⟨r, picked'⟩ := x
      simp only [ih]
      rfl

/-- Ids in strictly ascending order are distinct. -/
theorem SupplyChain.PickList.nodup (list : List (Nat × Nat))
    (hsorted : list.Pairwise (fun a b => a.1 < b.1)) : (list.map Prod.fst).Nodup := by
  rw [List.Nodup, List.pairwise_map]
  exact hsorted.imp (fun h => Nat.ne_of_lt h)

/-- The outcome of a successful commit loop of the common shape, entry by entry
of the list: the destination gained one record per entry, in order, made from
the row the entry names; each named row passed the check and is afterwards
erased or reduced; rows under other ids are as before. -/
theorem SupplyChain.PickLoop.outcome {S D : Type} (key : S → Nat) (subtract : Nat → S → S)
    (erases : S → Nat → Bool) (check : S → Bool) (message : String) (dkey : D → Nat)
    (mk : Nat → S → Nat → D) (payerS payerD : AccountHandle)
    (list : List (Nat × Nat)) (picked : List (Nat × S)) (s s' : List S) (d d' : List D)
    (hkey : ∀ n x, key (subtract n x) = key x)
    (hsorted : list.Pairwise (fun a b => a.1 < b.1))
    (hunique : (s.map key).Nodup)
    (hrel : List.Forall₂ (fun e p => p.1 = e.1 ∧ Table.find key s e.1 = some p.2) list picked)
    (h : SupplyChain.PickLoop.run key subtract erases check message dkey mk payerS payerD
      list picked s d = .ok (s', d')) :
    (∃ news, d' = d ++ news ∧
        List.Forall₂ (fun e n => ∃ r newId, Table.find key s e.1 = some r ∧ n = mk newId r e.2)
          list news) ∧
      (∀ e ∈ list, ∃ r, Table.find key s e.1 = some r ∧ check r = true ∧
        Table.find key s' e.1 = if erases r e.2 then none else some (subtract e.2 r)) ∧
      (∀ id, (∀ e ∈ list, e.1 ≠ id) → Table.find key s' id = Table.find key s id) := by
  obtain ⟨hall, hs, news, hd, hnews⟩ := SupplyChain.PickLoop.run_ok key subtract erases check
    message dkey mk payerS payerD list picked s s' d d' (hrel.imp (fun _ _ h => h.1)) h
  have hfound := SupplyChain.picks_found key s list picked hrel
  have hdistinct : ((SupplyChain.picks list picked).map (fun x => key x.1)).Nodup := by
    rw [SupplyChain.picks_keys key s list picked hrel]
    exact SupplyChain.PickList.nodup list hsorted
  refine ⟨⟨news, hd, ?_⟩, ?_, ?_⟩
  · refine (List.Forall₂.compose (SupplyChain.picks_rel key s list picked hrel) hnews).imp ?_
    rintro e n ⟨x, ⟨hq, hf⟩, newId, hn⟩
    exact ⟨x.1, newId, hf, by rw [hn, hq]⟩
  · intro e he
    obtain ⟨r, hmem, hf⟩ := SupplyChain.picks_of_mem key s list picked hrel e he
    refine ⟨r, hf, hall _ hmem, ?_⟩
    rw [hs, ← Table.find_key hf]
    exact Table.find_consumeAll_self key subtract erases payerS _ s r e.2 hkey hunique hdistinct
      (fun x hx => (hfound x hx).1) hmem
  · intro id hid
    rw [hs]
    refine Table.find_consumeAll_other key subtract erases payerS _ s id hkey ?_
    intro x hx hk
    obtain ⟨_, e, he, hek⟩ := hfound x hx
    exact hid e he (hek.trans hk)

/-- What a successful `transferInventory` did: the warehouses differ, the pick
list was processed on the source stock, and the loop gave the two new stocks. -/
theorem SupplyChain.transferInventory_ok {ctx : SupplyChain.Context}
    {db db' : SupplyChain.Database} {sourceWarehouseId : WarehouseId}
    {sourceManager : AccountHandle} {destinationWarehouseId : WarehouseId}
    {destinationManager : AccountHandle} {manifest : List (Nat × Nat)} {deleteConsumed : Bool}
    {documentation : String}
    (h : SupplyChain.transferInventory ctx db sourceWarehouseId sourceManager
      destinationWarehouseId destinationManager manifest deleteConsumed documentation =
        .ok db') :
    sourceWarehouseId ≠ destinationWarehouseId ∧
      ∃ picked s' d',
        SupplyChain.processPickList SupplyChain.Inventory.primary_key
          SupplyChain.Inventory.quantity (db.stock sourceWarehouseId) manifest = .ok picked ∧
        SupplyChain.transferInventory.loop ctx sourceManager destinationManager deleteConsumed
          manifest picked (db.stock sourceWarehouseId) (db.stock destinationWarehouseId) =
            .ok (s', d') ∧
        db' = ⟨db.warehouses,
          Function.update (Function.update db.stock sourceWarehouseId s')
            destinationWarehouseId d', db.manifests, db.cargo⟩ := by
  unfold SupplyChain.transferInventory at h
  obtain ⟨_, _, h⟩ := bind_ok h
  obtain ⟨_, _, h⟩ := bind_ok h
  obtain ⟨_, _, h⟩ := bind_ok h
  obtain ⟨_, hne, h⟩ := bind_ok h
  obtain ⟨_, _, h⟩ := bind_ok h
  obtain ⟨_, _, h⟩ := bind_ok h
  obtain ⟨_, _, h⟩ := bind_ok h
  obtain ⟨_, _, h⟩ := bind_ok h
  obtain ⟨picked, hpicked, h⟩ := bind_ok h
  obtain ⟨⟨s', d'⟩, hloop, h⟩ := bind_ok h
  refine ⟨?_, picked, s', d', hpicked, hloop, ?_⟩
  · have := Verify_ok hne
    simpa using this
  · cases h
    rfl

/-- The fold behind `nextId` never goes below its start and ends above every
key it passes. -/
theorem Table.nextId.fold_bound {Row : Type} (key : Row → Nat) (rows : List Row) (init : Nat) :
    init ≤ rows.foldl (fun next r => max next (key r + 1)) init ∧
      ∀ x ∈ rows, key x < rows.foldl (fun next r => max next (key r + 1)) init := by
  induction rows generalizing init with
  | nil => exact ⟨Nat.le_refl _, fun x hx => (by cases hx)⟩
  | cons y rest ih =>
    obtain ⟨hle, hall⟩ := ih (max init (key y + 1))
    rw [List.foldl_cons]
    refine ⟨by omega, ?_⟩
    intro x hx
    rcases List.mem_cons.mp hx with hx | hx
    · rw [hx]
      omega
    · exact hall x hx

/-- The id `nextId` gives is above every primary key of the table. -/
theorem Table.nextId_gt {Row : Type} (key : Row → Nat) (rows : List Row) :
    ∀ x ∈ rows, key x < Table.nextId key rows :=
  (Table.nextId.fold_bound key rows 0).2

/-- What a successful `shipInventory` did: the pick list was processed on the
warehouse stock, a manifest was created under the next id, and the loop gave
the new stock and the new cargo. -/
theorem SupplyChain.shipInventory_ok {ctx : SupplyChain.Context}
    {db db' : SupplyChain.Database} {warehouseId : WarehouseId}
    {manager carrier : AccountHandle} {manifest : List (Nat × Nat)} {deleteConsumed : Bool}
    {documentation : String}
    (h : SupplyChain.shipInventory ctx db warehouseId manager carrier manifest deleteConsumed
      documentation = .ok db') :
    ∃ picked s' c',
      SupplyChain.processPickList SupplyChain.Inventory.primary_key
        SupplyChain.Inventory.quantity (db.stock warehouseId) manifest = .ok picked ∧
      SupplyChain.shipInventory.loop ctx manager carrier
        (Table.nextId SupplyChain.Manifest.primary_key (db.manifests carrier)) deleteConsumed
        manifest picked (db.stock warehouseId) (db.cargo carrier) = .ok (s', c') ∧
      db' = ⟨db.warehouses, Function.update db.stock warehouseId s',
        Function.update db.manifests carrier (db.manifests carrier ++
          [⟨Table.nextId SupplyChain.Manifest.primary_key (db.manifests carrier),
            documentation, warehouseId⟩]),
        Function.update db.cargo carrier c'⟩ := by
  unfold SupplyChain.shipInventory at h
  obtain ⟨_, _, h⟩ := bind_ok h
  obtain ⟨_, _, h⟩ := bind_ok h
  obtain ⟨_, _, h⟩ := bind_ok h
  obtain ⟨_, _, h⟩ := bind_ok h
  obtain ⟨_, _, h⟩ := bind_ok h
  obtain ⟨picked, hpicked, h⟩ := bind_ok h
  obtain ⟨⟨s', c'⟩, hloop, h⟩ := bind_ok h
  refine ⟨picked, s', c', hpicked, hloop, ?_⟩
  cases h
  rfl

/-- With unique primary keys, the lookup of a row's key gives that row. -/
theorem Table.find_of_mem {Row : Type} (key : Row → Nat) (rows : List Row) (x : Row)
    (hunique : (rows.map key).Nodup) (hx : x ∈ rows) :
    Table.find key rows (key x) = some x := by
  induction rows with
  | nil => cases hx
  | cons y rest ih =>
    rw [List.map_cons, List.nodup_cons] at hunique
    unfold Table.find
    rw [List.find?_cons]
    rcases List.mem_cons.mp hx with hx | hx
    · rw [hx]
      simp
    · have hne : ¬ key y = key x := by
        intro heq
        exact hunique.1 (heq ▸ List.mem_map_of_mem key hx)
      have hb : (key y == key x) = false := by simpa using hne
      rw [hb]
      exact ih hunique.2 hx

/-- The source updates of a loop keep primary keys unique. -/
theorem Table.consumeAll_nodup {Row : Type} (key : Row → Nat) (subtract : Nat → Row → Row)
    (erases : Row → Nat → Bool) (payer : AccountHandle) (picks : List (Row × Nat))
    (rows : List Row) (hkey : ∀ n x, key (subtract n x) = key x)
    (hunique : (rows.map key).Nodup) :
    ((Table.consumeAll key subtract erases payer picks rows).map key).Nodup := by
  induction picks generalizing rows with
  | nil => exact hunique
  | cons p rest ih =>
    obtain ⟨r, q⟩ := p
    unfold Table.consumeAll
    exact ih _ (Table.consumeStep_nodup key subtract erases payer rows r q hkey hunique)

/-- After a successful commit loop of the common shape the source keeps unique
primary keys, and each of its rows is found under its key. -/
theorem SupplyChain.PickLoop.outcome_nodup {S D : Type} (key : S → Nat)
    (subtract : Nat → S → S) (erases : S → Nat → Bool) (check : S → Bool) (message : String)
    (dkey : D → Nat) (mk : Nat → S → Nat → D) (payerS payerD : AccountHandle)
    (list : List (Nat × Nat)) (picked : List (Nat × S)) (s s' : List S) (d d' : List D)
    (hkey : ∀ n x, key (subtract n x) = key x)
    (hunique : (s.map key).Nodup)
    (hrel : List.Forall₂ (fun e p => p.1 = e.1 ∧ Table.find key s e.1 = some p.2) list picked)
    (h : SupplyChain.PickLoop.run key subtract erases check message dkey mk payerS payerD
      list picked s d = .ok (s', d')) :
    (s'.map key).Nodup ∧ ∀ x ∈ s', Table.find key s' (key x) = some x := by
  obtain ⟨_, hs, _⟩ := SupplyChain.PickLoop.run_ok key subtract erases check
    message dkey mk payerS payerD list picked s s' d d' (hrel.imp (fun _ _ h => h.1)) h
  have hn : (s'.map key).Nodup := by
    rw [hs]
    exact Table.consumeAll_nodup key subtract erases payerS _ s hkey hunique
  exact ⟨hn, fun x hx => Table.find_of_mem key s' x hn hx⟩

/-- Picking an entire manifest whose cargo ids ascend and lie above the ids
already picked appends one entry per cargo record, in order. -/
theorem SupplyChain.pickEntireManifest_eq (range : List SupplyChain.Cargo)
    (submanifest : List (Nat × Nat)) (cargoToGo : List (Nat × SupplyChain.Cargo))
    (hsorted : range.Pairwise (fun a b => a.id < b.id))
    (hsub : ∀ x ∈ submanifest, ∀ c ∈ range, x.1 < c.id)
    (hgo : ∀ x ∈ cargoToGo, ∀ c ∈ range, x.1 < c.id) :
    SupplyChain.pickEntireManifest range submanifest cargoToGo =
      (submanifest ++ range.map (fun c => (c.id, c.quantity)),
        cargoToGo ++ range.map (fun c => (c.id, c))) := by
  induction range generalizing submanifest cargoToGo with
  | nil => simp [SupplyChain.pickEntireManifest]
  | cons c rest ih =>
    rw [List.pairwise_cons] at hsorted
    unfold SupplyChain.pickEntireManifest
    rw [StdMap.emplace_append _ _ _ (fun x hx => hsub x hx c (List.mem_cons_self _ _)),
      StdMap.emplace_append _ _ _ (fun x hx => hgo x hx c (List.mem_cons_self _ _)),
      ih _ _ hsorted.2]
    · simp
    · intro x hx c' hc'
      rcases List.mem_append.mp hx with hx | hx
      · exact hsub x hx c' (List.mem_cons_of_mem _ hc')
      · rw [List.mem_singleton] at hx
        rw [hx]
        exact hsorted.1 c' hc'
    · intro x hx c' hc'
      rcases List.mem_append.mp hx with hx | hx
      · exact hgo x hx c' (List.mem_cons_of_mem _ hc')
      · rw [List.mem_singleton] at hx
        rw [hx]
        exact hsorted.1 c' hc'

/-- Rows in ascending order of id have unique primary keys. -/
theorem SupplyChain.Cargo.nodup_of_sorted (stock : List SupplyChain.Cargo)
    (hsorted : stock.Pairwise (fun a b => a.id < b.id)) :
    (stock.map SupplyChain.Cargo.primary_key).Nodup := by
  rw [List.Nodup, List.pairwise_map]
  exact hsorted.imp (fun h => Nat.ne_of_lt h)

/-- Picking the entire manifest from a cargo table in ascending order of id:
the submanifest built is the spec's, its ids ascend, every entry has its
picked row, asks for the row's full quantity and names a row of the manifest,
and every row of the manifest is named. -/
theorem SupplyChain.pickEntireManifest_rows (stock : List SupplyChain.Cargo)
    (manifestId : ManifestId) (hsorted : stock.Pairwise (fun a b => a.id < b.id)) :
    ∃ picked,
      SupplyChain.pickEntireManifest (Table.equalRange SupplyChain.Cargo.manifest_key stock
          (SupplyChain.manifestKey manifestId)) [] [] =
        (SupplyChain.effectiveSubmanifest stock manifestId [], picked) ∧
      (SupplyChain.effectiveSubmanifest stock manifestId []).Pairwise (fun a b => a.1 < b.1) ∧
      List.Forall₂ (fun e p => p.1 = e.1 ∧
          Table.find SupplyChain.Cargo.primary_key stock e.1 = some p.2)
        (SupplyChain.effectiveSubmanifest stock manifestId []) picked ∧
      (∀ e ∈ SupplyChain.effectiveSubmanifest stock manifestId [], ∃ c,
        Table.find SupplyChain.Cargo.primary_key stock e.1 = some c ∧ e.2 = c.quantity) ∧
      (∀ c ∈ stock, c.manifest_key = SupplyChain.manifestKey manifestId →
        ∃ e ∈ SupplyChain.effectiveSubmanifest stock manifestId [], e.1 = c.id) := by
  have hunique := SupplyChain.Cargo.nodup_of_sorted stock hsorted
  have hrange : (Table.equalRange SupplyChain.Cargo.manifest_key stock
      (SupplyChain.manifestKey manifestId)).Pairwise (fun a b => a.id < b.id) :=
    hsorted.filter _
  have hfind : ∀ c ∈ Table.equalRange SupplyChain.Cargo.manifest_key stock
      (SupplyChain.manifestKey manifestId),
      Table.find SupplyChain.Cargo.primary_key stock c.id = some c := fun c hc =>
    Table.find_of_mem SupplyChain.Cargo.primary_key stock c hunique (List.mem_of_mem_filter hc)
  have heff : SupplyChain.effectiveSubmanifest stock manifestId [] =
      (Table.equalRange SupplyChain.Cargo.manifest_key stock
        (SupplyChain.manifestKey manifestId)).map (fun c => (c.id, c.quantity)) := rfl
  rw [heff]
  refine ⟨(Table.equalRange SupplyChain.Cargo.manifest_key stock
    (SupplyChain.manifestKey manifestId)).map (fun c => (c.id, c)), ?_, ?_, ?_, ?_, ?_⟩
  · rw [SupplyChain.pickEntireManifest_eq _ _ _ hrange (fun x hx => (by cases hx))
      (fun x hx => (by cases hx))]
    rfl
  · rw [List.pairwise_map]
    exact hrange
  · rw [List.forall₂_map_left_iff, List.forall₂_map_right_iff, List.forall₂_same]
    exact fun c hc => ⟨rfl, hfind c hc⟩
  · intro e he
    obtain ⟨c, hc, hce⟩ := List.mem_map.mp he
    rw [← hce]
    exact ⟨c, hfind c hc, rfl⟩
  · intro c hc hk
    refine ⟨(c.id, c.quantity), List.mem_map.mpr ⟨c, ?_, rfl⟩, rfl⟩
    exact List.mem_filter.mpr ⟨hc, by simpa using hk⟩

/-- The outcome of a successful commit loop on cargo, for the submanifest and
the picked cargo that `deliverCargo` and `transferCargo` prepare: the
submanifest is the spec's; the destination gained one record per entry; each
named cargo row is on the manifest and is afterwards erased or reduced; other
rows are as before; and after an empty submanifest no cargo of the manifest is
left. -/
theorem SupplyChain.CargoLoop.cargo_outcome {D : Type} (message : String) (dkey : D → Nat)
    (mk : Nat → SupplyChain.Cargo → Nat → D) (payerS payerD : AccountHandle)
    (manifestId : ManifestId) (submanifest S : List (Nat × Nat))
    (picked : List (Nat × SupplyChain.Cargo)) (s s' : List SupplyChain.Cargo) (d d' : List D)
    (hsorted : submanifest.Pairwise (fun a b => a.1 < b.1))
    (hstock : s.Pairwise (fun a b => a.id < b.id))
    (hquantity : ∀ c ∈ s, c.quantity < 2 ^ 32)
    (hpick : (submanifest = [] ∧
        SupplyChain.pickEntireManifest (Table.equalRange SupplyChain.Cargo.manifest_key s
          (SupplyChain.manifestKey manifestId)) [] [] = (S, picked)) ∨
      (submanifest ≠ [] ∧ S = submanifest ∧
        SupplyChain.processPickList SupplyChain.Cargo.primary_key SupplyChain.Cargo.quantity s
          submanifest = .ok picked))
    (h : SupplyChain.PickLoop.run SupplyChain.Cargo.primary_key SupplyChain.Cargo.subtract
      (fun r q => q == r.quantity) (fun r => r.manifest == manifestId) message dkey mk
      payerS payerD S picked s d = .ok (s', d')) :
    S = SupplyChain.effectiveSubmanifest s manifestId submanifest ∧
      (∃ news, d' = d ++ news ∧
        List.Forall₂ (fun e n => ∃ c newId,
          Table.find SupplyChain.Cargo.primary_key s e.1 = some c ∧ n = mk newId c e.2)
          S news) ∧
      (∀ e ∈ S, ∃ c, Table.find SupplyChain.Cargo.primary_key s e.1 = some c ∧
        c.manifest = manifestId ∧
        Table.find SupplyChain.Cargo.primary_key s' e.1 =
          if e.2 = c.quantity then none
          else some ⟨c.id, c.manifest, c.description, c.origin, c.movement,
            c.quantity - e.2⟩) ∧
      (∀ id, (∀ e ∈ S, e.1 ≠ id) →
        Table.find SupplyChain.Cargo.primary_key s' id =
          Table.find SupplyChain.Cargo.primary_key s id) ∧
      (submanifest = [] → ∀ x ∈ s', x.manifest_key ≠ SupplyChain.manifestKey manifestId) := by
  have hunique := SupplyChain.Cargo.nodup_of_sorted s hstock
  have hkey : ∀ n x, SupplyChain.Cargo.primary_key (SupplyChain.Cargo.subtract n x) =
      SupplyChain.Cargo.primary_key x := fun _ _ => rfl
  obtain ⟨picked0, hwhole, hwsorted, hwrel, hwfull, hwall⟩ :=
    SupplyChain.pickEntireManifest_rows s manifestId hstock
  have hfacts : S = SupplyChain.effectiveSubmanifest s manifestId submanifest ∧
      S.Pairwise (fun a b => a.1 < b.1) ∧
      List.Forall₂ (fun e p => p.1 = e.1 ∧
        Table.find SupplyChain.Cargo.primary_key s e.1 = some p.2) S picked ∧
      (∀ e ∈ S, ∃ c, Table.find SupplyChain.Cargo.primary_key s e.1 = some c ∧
        e.2 ≤ c.quantity ∧ (submanifest = [] → e.2 = c.quantity)) := by
    rcases hpick with ⟨hnil, hp⟩ | ⟨hne, hS, hp⟩
    · rw [hwhole] at hp
      cases hp
      subst hnil
      refine ⟨rfl, hwsorted, hwrel, fun e he => ?_⟩
      obtain ⟨c, hf, hq⟩ := hwfull e he
      exact ⟨c, hf, Nat.le_of_eq hq, fun _ => hq⟩
    · subst hS
      refine ⟨?_, hsorted, SupplyChain.processPickList_rows _ _ _ _ _ hsorted hp, fun e he => ?_⟩
      · cases S with
        | nil => exact absurd rfl hne
        | cons _ _ => rfl
      · obtain ⟨c, hf, _, hle⟩ := SupplyChain.processPickList_amounts _ _ _ _ _ hsorted hp e he
        exact ⟨c, hf, hle, fun hnil => absurd hnil hne⟩
  obtain ⟨hS, hSsorted, hrel, hamounts⟩ := hfacts
  obtain ⟨hnews, hsource, hothers⟩ := SupplyChain.PickLoop.outcome _ _ _ _ _ _ _ _ _ _ _
    _ _ _ _ hkey hSsorted hunique hrel h
  obtain ⟨_, hfound'⟩ := SupplyChain.PickLoop.outcome_nodup _ _ _ _ _ _ _ _ _ _ _
    _ _ _ _ hkey hunique hrel h
  have hsrc : ∀ e ∈ S, ∃ c, Table.find SupplyChain.Cargo.primary_key s e.1 = some c ∧
      c.manifest = manifestId ∧
      Table.find SupplyChain.Cargo.primary_key s' e.1 =
        if e.2 = c.quantity then none
        else some ⟨c.id, c.manifest, c.description, c.origin, c.movement,
          c.quantity - e.2⟩ := by
    intro e he
    obtain ⟨c, hf, hcheck, hafter⟩ := hsource e he
    obtain ⟨c', hf', hle, _⟩ := hamounts e he
    rw [hf] at hf'
    cases hf'
    refine ⟨c, hf, by simpa using hcheck, ?_⟩
    rw [hafter]
    by_cases hq : e.2 = c.quantity
    · rw [if_pos hq, if_pos (by simp [hq])]
    · rw [if_neg hq, if_neg (by simpa using hq), SupplyChain.Cargo.subtract_cargo_eq,
        uint32_sub_eq _ _ hle (hquantity c (Table.find_mem hf))]
  refine ⟨hS, hnews, hsrc, hothers, ?_⟩
  intro hnil x hx hk
  have hfx := hfound' x hx
  by_cases hin : ∃ e ∈ S, e.1 = x.id
  · obtain ⟨e, he, hid⟩ := hin
    obtain ⟨c, hf, _, hafter⟩ := hsrc e he
    obtain ⟨c', hf', _, hfull⟩ := hamounts e he
    rw [hf] at hf'
    cases hf'
    rw [if_pos (hfull hnil), hid] at hafter
    rw [show SupplyChain.Cargo.primary_key x = x.id from rfl, hafter] at hfx
    cases hfx
  · have hbefore := hothers x.id (fun e he hid => hin ⟨e, he, hid⟩)
    rw [show SupplyChain.Cargo.primary_key x = x.id from rfl, hbefore] at hfx
    subst hnil
    obtain ⟨e, he, hid⟩ := hwall x (Table.find_mem hfx) hk
    rw [← hS] at he
    exact hin ⟨e, he, hid⟩

/-- What a successful `deliverCargo` did: the manifest exists, the cargo to go
was picked, the loop gave the new cargo and the new stock, and the manifest was
erased when no cargo references it any more. -/
theorem SupplyChain.deliverCargo_ok {ctx : SupplyChain.Context}
    {db db' : SupplyChain.Database} {carrier : AccountHandle} {warehouseId : WarehouseId}
    {manager : AccountHandle} {manifestId : ManifestId} {submanifest : List (Nat × Nat)}
    {documentation : String}
    (h : SupplyChain.deliverCargo ctx db carrier warehouseId manager manifestId submanifest
      documentation = .ok db') :
    ∃ manifest S picked s' d',
      Table.find SupplyChain.Manifest.primary_key (db.manifests carrier) manifestId =
        some manifest ∧
      ((submanifest = [] ∧
          SupplyChain.pickEntireManifest (Table.equalRange SupplyChain.Cargo.manifest_key
            (db.cargo carrier) (SupplyChain.manifestKey manifestId)) [] [] = (S, picked)) ∨
        (submanifest ≠ [] ∧ S = submanifest ∧
          SupplyChain.processPickList SupplyChain.Cargo.primary_key SupplyChain.Cargo.quantity
            (db.cargo carrier) submanifest = .ok picked)) ∧
      SupplyChain.deliverCargo.loop ctx carrier manager manifestId S picked (db.cargo carrier)
        (db.stock warehouseId) = .ok (s', d') ∧
      db' = ⟨db.warehouses, Function.update db.stock warehouseId d',
        Function.update db.manifests carrier
          (if (!Table.contains SupplyChain.Cargo.manifest_key s'
              (SupplyChain.manifestKey manifestId)) = true then
            Table.erase SupplyChain.Manifest.primary_key (db.manifests carrier) manifest
          else db.manifests carrier),
        Function.update db.cargo carrier s'⟩ := by
  unfold SupplyChain.deliverCargo at h
  obtain ⟨_, _, h⟩ := bind_ok h
  obtain ⟨_, _, h⟩ := bind_ok h
  obtain ⟨_, _, h⟩ := bind_ok h
  obtain ⟨_, _, h⟩ := bind_ok h
  obtain ⟨_, _, h⟩ := bind_ok h
  obtain ⟨manifest, hmanifest, h⟩ := bind_ok h
  cases submanifest with
  | nil =>
    simp only [List.isEmpty, if_true, pure_bind] at h
    obtain ⟨S, picked, hp⟩ : ∃ S picked, SupplyChain.pickEntireManifest
        (Table.equalRange SupplyChain.Cargo.manifest_key (db.cargo carrier)
          (SupplyChain.manifestKey manifestId)) [] [] = (S, picked) := ⟨_, _, rfl⟩
    rw [hp] at h
    obtain ⟨⟨s', d'⟩, hloop, h⟩ := bind_ok h
    refine ⟨manifest, S, picked, s', d', Table.getId_ok hmanifest, Or.inl ⟨rfl, hp⟩, hloop, ?_⟩
    cases h
    rfl
  | cons e rest =>
    simp only [List.isEmpty, Bool.false_eq_true, if_false, bind_assoc, pure_bind] at h
    obtain ⟨picked, hp, h⟩ := bind_ok h
    obtain ⟨⟨s', d'⟩, hloop, h⟩ := bind_ok h
    refine ⟨manifest, e :: rest, picked, s', d', Table.getId_ok hmanifest,
      Or.inr ⟨List.cons_ne_nil _ _, rfl, hp⟩, hloop, ?_⟩
    cases h
    rfl

/-- The manifest table after the closing step of `deliverCargo` and
`transferCargo`, which erases the manifest when the by-manifest index of the
cargo left no longer contains it: the manifest is then gone exactly when no
cargo row left has its key. -/
theorem SupplyChain.manifest_erased_iff (manifests : List SupplyChain.Manifest)
    (manifest : SupplyChain.Manifest) (manifestId : ManifestId)
    (stock : List SupplyChain.Cargo)
    (hunique : (manifests.map SupplyChain.Manifest.primary_key).Nodup)
    (hfound : Table.find SupplyChain.Manifest.primary_key manifests manifestId =
      some manifest) :
    Table.find SupplyChain.Manifest.primary_key
        (if (!Table.contains SupplyChain.Cargo.manifest_key stock
            (SupplyChain.manifestKey manifestId)) = true then
          Table.erase SupplyChain.Manifest.primary_key manifests manifest
        else manifests) manifestId = none ↔
      ∀ c ∈ stock, c.manifest_key ≠ SupplyChain.manifestKey manifestId := by
  have hiff := Table.contains_iff SupplyChain.Cargo.manifest_key stock
    (SupplyChain.manifestKey manifestId)
  cases hc : Table.contains SupplyChain.Cargo.manifest_key stock
      (SupplyChain.manifestKey manifestId) with
  | false =>
    rw [hc] at hiff
    simp only [Bool.not_false, if_true]
    refine ⟨fun _ c hmem hk => ?_, fun _ => ?_⟩
    · have := hiff.2 ⟨c, hmem, hk⟩
      cases this
    · rw [← Table.find_key hfound]
      exact Table.find_erase_self SupplyChain.Manifest.primary_key _ _ hunique
  | true =>
    rw [hc] at hiff
    simp only [Bool.not_true, Bool.false_eq_true, if_false]
    obtain ⟨c, hmem, hk⟩ := hiff.1 rfl
    refine ⟨fun hnone => ?_, fun hall => absurd hk (hall c hmem)⟩
    rw [hfound] at hnone
    cases hnone

/-- What a successful commit of `transferCargo` did: the carriers differ, a
manifest was created at the destination under the next id, the loop gave the
new cargo of both carriers, and the source manifest was erased when no cargo
references it any more. -/
theorem SupplyChain.transferCargo.commit_ok {ctx : SupplyChain.Context}
    {db db' : SupplyChain.Database} {sourceCarrier destinationCarrier : AccountHandle}
    {manifestId : ManifestId} {manifest : SupplyChain.Manifest} {S : List (Nat × Nat)}
    {picked : List (Nat × SupplyChain.Cargo)} {documentation : String}
    (h : SupplyChain.transferCargo.commit ctx db sourceCarrier destinationCarrier manifestId
      manifest S picked documentation = .ok db') :
    sourceCarrier ≠ destinationCarrier ∧
      ∃ s' d',
        SupplyChain.transferCargo.loop ctx sourceCarrier destinationCarrier manifestId
          (Table.nextId SupplyChain.Manifest.primary_key (db.manifests destinationCarrier))
          S picked (db.cargo sourceCarrier) (db.cargo destinationCarrier) = .ok (s', d') ∧
        db' = ⟨db.warehouses, db.stock,
          Function.update (Function.update db.manifests destinationCarrier
            (db.manifests destinationCarrier ++
              [⟨Table.nextId SupplyChain.Manifest.primary_key
                (db.manifests destinationCarrier), documentation, manifest.sender⟩]))
            sourceCarrier
            (if (!Table.contains SupplyChain.Cargo.manifest_key s'
                (SupplyChain.manifestKey manifestId)) = true then
              Table.erase SupplyChain.Manifest.primary_key (db.manifests sourceCarrier) manifest
            else db.manifests sourceCarrier),
          Function.update (Function.update db.cargo destinationCarrier d') sourceCarrier s'⟩ := by
  unfold SupplyChain.transferCargo.commit at h
  obtain ⟨_, hne, h⟩ := bind_ok h
  obtain ⟨⟨s', d'⟩, hloop, h⟩ := bind_ok h
  refine ⟨?_, s', d', hloop, ?_⟩
  · have := Verify_ok hne
    simpa using this
  · cases h
    rfl

/-- What a successful `transferCargo` did: the manifest exists, and either the
submanifest and the manifest were both empty and only the manifest was erased,
or the cargo to go was picked and the commit succeeded. -/
theorem SupplyChain.transferCargo_ok {ctx : SupplyChain.Context}
    {db db' : SupplyChain.Database} {sourceCarrier destinationCarrier : AccountHandle}
    {manifestId : ManifestId} {submanifest : List (Nat × Nat)} {documentation : String}
    (h : SupplyChain.transferCargo ctx db sourceCarrier destinationCarrier manifestId
      submanifest documentation = .ok db') :
    ∃ manifest,
      Table.find SupplyChain.Manifest.primary_key (db.manifests sourceCarrier) manifestId =
        some manifest ∧
      ((submanifest = [] ∧
          Table.equalRange SupplyChain.Cargo.manifest_key (db.cargo sourceCarrier)
            (SupplyChain.manifestKey manifestId) = [] ∧
          db' = ⟨db.warehouses, db.stock,
            Function.update db.manifests sourceCarrier
              (Table.erase SupplyChain.Manifest.primary_key (db.manifests sourceCarrier)
                manifest), db.cargo⟩) ∨
        ∃ S picked,
          ((submanifest = [] ∧
              SupplyChain.pickEntireManifest (Table.equalRange SupplyChain.Cargo.manifest_key
                (db.cargo sourceCarrier) (SupplyChain.manifestKey manifestId)) [] [] =
                  (S, picked)) ∨
            (submanifest ≠ [] ∧ S = submanifest ∧
              SupplyChain.processPickList SupplyChain.Cargo.primary_key
                SupplyChain.Cargo.quantity (db.cargo sourceCarrier) submanifest =
                  .ok picked)) ∧
          (submanifest = [] →
            Table.equalRange SupplyChain.Cargo.manifest_key (db.cargo sourceCarrier)
              (SupplyChain.manifestKey manifestId) ≠ []) ∧
          SupplyChain.transferCargo.commit ctx db sourceCarrier destinationCarrier manifestId
            manifest S picked documentation = .ok db') := by
  unfold SupplyChain.transferCargo at h
  obtain ⟨_, _, h⟩ := bind_ok h
  obtain ⟨_, _, h⟩ := bind_ok h
  obtain ⟨_, _, h⟩ := bind_ok h
  obtain ⟨manifest, hmanifest, h⟩ := bind_ok h
  refine ⟨manifest, Table.getId_ok hmanifest, ?_⟩
  cases submanifest with
  | nil =>
    simp only [List.isEmpty, if_true] at h
    cases hrange : Table.equalRange SupplyChain.Cargo.manifest_key (db.cargo sourceCarrier)
        (SupplyChain.manifestKey manifestId) with
    | nil =>
      rw [hrange] at h
      simp only [List.isEmpty, if_true] at h
      cases h
      exact Or.inl ⟨rfl, rfl, rfl⟩
    | cons c rest =>
      rw [hrange] at h
      simp only [List.isEmpty, Bool.false_eq_true, if_false] at h
      obtain ⟨S, picked, hp⟩ : ∃ S picked, SupplyChain.pickEntireManifest (c :: rest) [] [] =
        (S, picked) := ⟨_, _, rfl⟩
      rw [hp] at h
      exact Or.inr ⟨S, picked, Or.inl ⟨rfl, hp⟩, fun _ => List.cons_ne_nil _ _, h⟩
  | cons e rest =>
    simp only [List.isEmpty, Bool.false_eq_true, if_false] at h
    obtain ⟨picked, hp, h⟩ := bind_ok h
    exact Or.inr ⟨e :: rest, picked, Or.inr ⟨List.cons_ne_nil _ _, rfl, hp⟩,
      fun hnil => absurd hnil (List.cons_ne_nil _ _), h⟩

/-- The check of the produced items passes only when every quantity is
positive and every description is short enough. -/
theorem SupplyChain.manufactureInventory.checkProduce_ok (produce : List (String × Nat))
    (h : SupplyChain.manufactureInventory.checkProduce produce = .ok ()) :
    ∀ p ∈ produce, p.1.length ≤ SupplyChain.MAX_DESCRIPTION_SIZE ∧ 0 < p.2 := by
  induction produce with
  | nil => intro p hp; cases hp
  | cons first rest ih =>
    obtain ⟨description, quantity⟩ := first
    unfold SupplyChain.manufactureInventory.checkProduce at h
    obtain ⟨_, hlen, h⟩ := bind_ok h
    obtain ⟨_, hpos, h⟩ := bind_ok h
    intro p hp
    rcases List.mem_cons.mp hp with hp | hp
    · rw [hp]
      exact ⟨by simpa using Verify_ok hlen, by simpa using Verify_ok hpos⟩
    · exact ih h p hp

/-- A successful consume loop of `manufactureInventory` is a successful loop of
the common shape that creates records of no content. -/
theorem SupplyChain.manufactureInventory.consumeLoop_run (manager : AccountHandle)
    (deleteConsumed : Bool) (list : List (Nat × Nat))
    (picked : List (Nat × SupplyChain.Inventory)) (s s' : List SupplyChain.Inventory)
    (d : List Unit)
    (h : SupplyChain.manufactureInventory.consumeLoop manager deleteConsumed list picked s =
      .ok s') :
    ∃ d', SupplyChain.PickLoop.run SupplyChain.Inventory.primary_key
      SupplyChain.Inventory.subtract (fun r q => deleteConsumed && q == r.quantity)
      (fun _ => true) "" (fun _ => 0) (fun _ _ _ => ()) manager manager list picked s d =
        .ok (s', d') := by
  induction list generalizing picked s d with
  | nil =>
    unfold SupplyChain.manufactureInventory.consumeLoop at h
    cases h
    exact ⟨d, rfl⟩
  | cons e rest ih =>
    obtain ⟨id, q⟩ := e
    unfold SupplyChain.manufactureInventory.consumeLoop at h
    unfold SupplyChain.PickLoop.run
    cases htake : SupplyChain.PickedItems.take picked id with
    | none =>
      rw [htake] at h
      cases h
    | some x =>
      obtain ⟨r, picked'⟩ := x
      rw [htake] at h
      exact ih _ _ _ h

/-- The produce loop of `manufactureInventory` appends one record per produced
item, in order, with the item's description and quantity, the current
transaction as origin and no movement, each under an id above every id the
stock had; nothing else changes. -/
theorem SupplyChain.manufactureInventory.produceLoop_ok (ctx : SupplyChain.Context)
    (warehouseId : WarehouseId) (manager : AccountHandle) (produce : List (String × Nat))
    (db : SupplyChain.Database) :
    ∃ news,
      (SupplyChain.manufactureInventory.produceLoop ctx warehouseId manager produce db).stock
        warehouseId = db.stock warehouseId ++ news ∧
      List.Forall₂ (fun p n => n.description = p.1 ∧ n.quantity = p.2 ∧
        n.origin = ctx.currentTransactionId ∧ n.movement = []) produce news ∧
      (∀ n ∈ news, ∀ x ∈ db.stock warehouseId, x.id < n.id) ∧
      (∀ other, other ≠ warehouseId →
        (SupplyChain.manufactureInventory.produceLoop ctx warehouseId manager produce db).stock
          other = db.stock other) := by
  induction produce generalizing db with
  | nil => exact ⟨[], by simp [SupplyChain.manufactureInventory.produceLoop], List.Forall₂.nil,
      fun n hn => (by cases hn), fun _ _ => rfl⟩
  | cons first rest ih =>
    obtain ⟨description, quantity⟩ := first
    unfold SupplyChain.manufactureInventory.produceLoop
    obtain ⟨news, hstock, hrel, hfresh, hother⟩ :=
      ih (SupplyChain.createInventory ctx db warehouseId manager description quantity)
    have hcreated : (SupplyChain.createInventory ctx db warehouseId manager description
        quantity).stock warehouseId = db.stock warehouseId ++
          [⟨Table.nextId SupplyChain.Inventory.primary_key (db.stock warehouseId), description,
            ctx.currentTransactionId, [], quantity⟩] := by
      unfold SupplyChain.createInventory
      exact Function.update_same _ _ _
    refine ⟨⟨Table.nextId SupplyChain.Inventory.primary_key (db.stock warehouseId), description,
      ctx.currentTransactionId, [], quantity⟩ :: news, ?_, ?_, ?_, ?_⟩
    · rw [hstock, hcreated, List.append_assoc]
      rfl
    · exact List.Forall₂.cons ⟨rfl, rfl, rfl, rfl⟩ hrel
    · intro n hn x hx
      rcases List.mem_cons.mp hn with hn | hn
      · rw [hn]
        exact Table.nextId_gt SupplyChain.Inventory.primary_key _ x hx
      · refine hfresh n hn x ?_
        rw [hcreated]
        exact List.mem_append_left _ hx
    · intro other hne
      rw [hother other hne]
      unfold SupplyChain.createInventory
      exact Function.update_noteq hne _ _

/-- What a successful `manufactureInventory` did: something was consumed or
produced, the produced items passed their check, the consume list was
processed on the stock, and the two loops gave the new state. -/
theorem SupplyChain.manufactureInventory_ok {ctx : SupplyChain.Context}
    {db db' : SupplyChain.Database} {warehouseId : WarehouseId} {manager : AccountHandle}
    {consume : List (Nat × Nat)} {produce : List (String × Nat)} {deleteConsumed : Bool}
    {documentation : String}
    (h : SupplyChain.manufactureInventory ctx db warehouseId manager consume produce
      deleteConsumed documentation = .ok db') :
    (consume ≠ [] ∨ produce ≠ []) ∧
      SupplyChain.manufactureInventory.checkProduce produce = .ok () ∧
      ∃ picked stock1,
        SupplyChain.processPickList SupplyChain.Inventory.primary_key
          SupplyChain.Inventory.quantity (db.stock warehouseId) consume = .ok picked ∧
        SupplyChain.manufactureInventory.consumeLoop manager deleteConsumed consume picked
          (db.stock warehouseId) = .ok stock1 ∧
        db' = SupplyChain.manufactureInventory.produceLoop ctx warehouseId manager produce
          ⟨db.warehouses, Function.update db.stock warehouseId stock1, db.manifests,
            db.cargo⟩ := by
  unfold SupplyChain.manufactureInventory at h
  obtain ⟨_, _, h⟩ := bind_ok h
  obtain ⟨_, _, h⟩ := bind_ok h
  obtain ⟨_, _, h⟩ := bind_ok h
  obtain ⟨_, _, h⟩ := bind_ok h
  obtain ⟨_, hsome, h⟩ := bind_ok h
  obtain ⟨_, hcheck, h⟩ := bind_ok h
  obtain ⟨picked, hpicked, h⟩ := bind_ok h
  obtain ⟨stock1, hloop, h⟩ := bind_ok h
  refine ⟨?_, hcheck, picked, stock1, hpicked, hloop, ?_⟩
  · have := Verify_ok hsome
    simp only [Bool.or_eq_true, decide_eq_true_eq, List.length_pos] at this
    exact this
  · cases h
    rfl

/-- The copy `strncpy` makes, in closed form: the first `n` bytes of the source
up to their first zero byte, then zero bytes. -/
theorem strncpy_eq_takeWhile (src : List Nat) (n : Nat) :
    strncpy src n = (src.take n).takeWhile (fun b => b != 0) ++
      List.replicate (n - ((src.take n).takeWhile (fun b => b != 0)).length) 0 := by
  induction n generalizing src with
  | zero => simp [strncpy]
  | succ n ih =>
    cases src with
    | nil => simp [strncpy]
    | cons c rest =>
      by_cases hc : c = 0
      · simp [strncpy, hc, List.takeWhile]
      · simp only [strncpy, hc, if_false, List.take_succ_cons]
        rw [List.takeWhile_cons_of_pos (by simpa using hc), ih rest]
        simp

/-- The bytes before the first zero byte hold no zero byte. -/
theorem takeWhile_ne_zero (bytes : List Nat) :
    ∀ b ∈ bytes.takeWhile (fun b => b != 0), b ≠ 0 := by
  intro b hb
  have := List.mem_takeWhile_imp hb
  simpa using this

/-- The string key in closed form: the first 32 bytes of the text up to their
first zero byte, then zero bytes up to byte 31. -/
theorem MakeStringKey_eq (text : List Nat) :
    MakeStringKey text = (text.take 32).takeWhile (fun b => b != 0) ++
      List.replicate (32 - ((text.take 32).takeWhile (fun b => b != 0)).length) 0 := by
  have htake : text.take (min text.length 32) = text.take 32 := by
    rcases Nat.le_total text.length 32 with h | h
    · rw [Nat.min_eq_left h, List.take_of_length_le (Nat.le_refl _), List.take_of_length_le h]
    · rw [Nat.min_eq_right h]
  have hlen : ((text.take 32).takeWhile (fun b => b != 0)).length ≤ min text.length 32 := by
    have h1 : ((text.take 32).takeWhile (fun b => b != 0)).length ≤ (text.take 32).length :=
      (List.takeWhile_sublist _).length_le
    rw [List.length_take] at h1
    omega
  have hmin : min text.length 32 ≤ 32 := Nat.min_le_right _ _
  unfold MakeStringKey UInt256.zeroBytes
  simp only [show 256 / 8 = 32 from rfl]
  rw [strncpy_eq_takeWhile, htake, List.drop_replicate, List.append_assoc,
    List.append_replicate_replicate]
  congr 2
  omega

/-- Appending an alternative to `StaticVariant<uint64_t>` leaves the encoding of
every value of the old alternative as it was, and every key of the new
alternative lies above every key of the old union. -/
theorem Decompose_growth_stable :
    (∀ n : Nat, Decompose rawExtended (by decide) ⟨⟨0, by decide⟩, n⟩ =
        Decompose rawOnly (by decide) ⟨⟨0, by decide⟩, n⟩) ∧
      ∀ (m : Nat) (old : StaticVariant rawOnly) (k k' : Nat),
        Decompose rawOnly (by decide) old = .ok k →
        Decompose rawExtended (by decide) ⟨⟨1, by decide⟩, m⟩ = .ok k' → k < k' := by
  constructor
  · intro n
    rw [Decompose_eq, Decompose_eq]
    rfl
  · intro m old k k' hk hk'
    obtain ⟨hm, hkeq⟩ := (Decompose_ok_iff _ _ _).1 hk
    obtain ⟨_, hkeq'⟩ := (Decompose_ok_iff _ _ _).1 hk'
    have hpos : old.position = 0 := by
      have := old.which.isLt
      simp only [StaticVariant.position]
      simp only [rawOnly, List.length_singleton] at this
      omega
    have hpos' : (⟨⟨1, by decide⟩, m⟩ : StaticVariant rawExtended).position = 1 := rfl
    rw [hpos] at hkeq
    rw [hpos'] at hkeq'
    omega

/-- A position-wise relation can take along a fact about every left entry. -/
theorem List.Forall₂.and_left {α β : Type} {R : α → β → Prop} {P : α → Prop}
    {l₁ : List α} {l₂ : List β} (h : List.Forall₂ R l₁ l₂) (hP : ∀ a ∈ l₁, P a) :
    List.Forall₂ (fun a b => R a b ∧ P a) l₁ l₂ := by
  induction h with
  | nil => exact List.Forall₂.nil
  | cons hhead _ ih =>
    exact List.Forall₂.cons ⟨hhead, hP _ (List.mem_cons_self _ _)⟩
      (ih (fun a ha => hP a (List.mem_cons_of_mem _ ha)))

/-- The outcome of a successful commit loop of the common shape, as one relation
between the entries of the list and the records created for them: the record
is made from the row the entry names, which passed the check and is afterwards
erased or reduced. -/
theorem SupplyChain.PickLoop.moves {S D : Type} (key : S → Nat) (subtract : Nat → S → S)
    (erases : S → Nat → Bool) (check : S → Bool) (message : String) (dkey : D → Nat)
    (mk : Nat → S → Nat → D) (payerS payerD : AccountHandle)
    (list : List (Nat × Nat)) (picked : List (Nat × S)) (s s' : List S) (d d' : List D)
    (hkey : ∀ n x, key (subtract n x) = key x)
    (hsorted : list.Pairwise (fun a b => a.1 < b.1))
    (hunique : (s.map key).Nodup)
    (hrel : List.Forall₂ (fun e p => p.1 = e.1 ∧ Table.find key s e.1 = some p.2) list picked)
    (h : SupplyChain.PickLoop.run key subtract erases check message dkey mk payerS payerD
      list picked s d = .ok (s', d')) :
    ∃ news, d' = d ++ news ∧
      List.Forall₂ (fun e n => ∃ r newId, Table.find key s e.1 = some r ∧ check r = true ∧
        n = mk newId r e.2 ∧
        Table.find key s' e.1 = if erases r e.2 then none else some (subtract e.2 r))
        list news := by
  obtain ⟨⟨news, hd, hnews⟩, hsource, _⟩ := SupplyChain.PickLoop.outcome key subtract erases
    check message dkey mk payerS payerD list picked s s' d d' hkey hsorted hunique hrel h
  refine ⟨news, hd, (List.Forall₂.and_left hnews hsource).imp ?_⟩
  rintro e n ⟨⟨r, newId, hf, hn⟩, r', hf', hcheck, hafter⟩
  rw [hf] at hf'
  cases hf'
  exact ⟨r, newId, hf, hcheck, hn, hafter⟩

/-- The submanifest and the picked cargo that `deliverCargo` and `transferCargo`
prepare: the submanifest is the spec's, its ids ascend, every entry has its
picked row, and no entry asks for more than the row holds. -/
theorem SupplyChain.CargoLoop.picked_facts (manifestId : ManifestId)
    (submanifest S : List (Nat × Nat)) (picked : List (Nat × SupplyChain.Cargo))
    (s : List SupplyChain.Cargo)
    (hsorted : submanifest.Pairwise (fun a b => a.1 < b.1))
    (hstock : s.Pairwise (fun a b => a.id < b.id))
    (hpick : (submanifest = [] ∧
        SupplyChain.pickEntireManifest (Table.equalRange SupplyChain.Cargo.manifest_key s
          (SupplyChain.manifestKey manifestId)) [] [] = (S, picked)) ∨
      (submanifest ≠ [] ∧ S = submanifest ∧
        SupplyChain.processPickList SupplyChain.Cargo.primary_key SupplyChain.Cargo.quantity s
          submanifest = .ok picked)) :
    S = SupplyChain.effectiveSubmanifest s manifestId submanifest ∧
      S.Pairwise (fun a b => a.1 < b.1) ∧
      List.Forall₂ (fun e p => p.1 = e.1 ∧
        Table.find SupplyChain.Cargo.primary_key s e.1 = some p.2) S picked ∧
      (∀ e ∈ S, ∃ c, Table.find SupplyChain.Cargo.primary_key s e.1 = some c ∧
        e.2 ≤ c.quantity) := by
  obtain ⟨picked0, hwhole, hwsorted, hwrel, hwfull, _⟩ :=
    SupplyChain.pickEntireManifest_rows s manifestId hstock
  rcases hpick with ⟨hnil, hp⟩ | ⟨hne, hS, hp⟩
  · rw [hwhole] at hp
    cases hp
    subst hnil
    refine ⟨rfl, hwsorted, hwrel, fun e he => ?_⟩
    obtain ⟨c, hf, hq⟩ := hwfull e he
    exact ⟨c, hf, Nat.le_of_eq hq⟩
  · subst hS
    refine ⟨?_, hsorted, SupplyChain.processPickList_rows _ _ _ _ _ hsorted hp, fun e he => ?_⟩
    · cases S with
      | nil => exact absurd rfl hne
      | cons _ _ => rfl
    · obtain ⟨c, hf, _, hle⟩ := SupplyChain.processPickList_amounts _ _ _ _ _ hsorted hp e he
      exact ⟨c, hf, hle⟩

/-- What a commit loop of the common shape over inventory rows leaves of a
picked row, in natural-number arithmetic. -/
theorem SupplyChain.Inventory.after_pick_inventory (deleteConsumed : Bool) (r : SupplyChain.Inventory)
    (q : Nat) (hle : q ≤ r.quantity) (hr : r.quantity < 2 ^ 32) :
    (if (deleteConsumed && q == r.quantity) = true then none
      else some (SupplyChain.Inventory.subtract q r)) =
      if deleteConsumed = true ∧ q = r.quantity then none
      else some ⟨r.id, r.description, r.origin, r.movement, r.quantity - q⟩ := by
  by_cases hc : deleteConsumed = true ∧ q = r.quantity
  · rw [if_pos hc, if_pos (by simp [hc.1, hc.2])]
  · rw [if_neg hc, if_neg (by simpa using hc), SupplyChain.Inventory.subtract_inventory_eq,
      uint32_sub_eq _ _ hle hr]

/-- What a commit loop of the common shape over cargo rows leaves of a picked
row, in natural-number arithmetic. -/
theorem SupplyChain.Cargo.after_pick_cargo (c : SupplyChain.Cargo) (q : Nat)
    (hle : q ≤ c.quantity) (hc : c.quantity < 2 ^ 32) :
    (if (q == c.quantity) = true then none else some (SupplyChain.Cargo.subtract q c)) =
      if q = c.quantity then none
      else some ⟨c.id, c.manifest, c.description, c.origin, c.movement, c.quantity - q⟩ := by
  by_cases hq : q = c.quantity
  · rw [if_pos hq, if_pos (by simp [hq])]
  · rw [if_neg hq, if_neg (by simpa using hq), SupplyChain.Cargo.subtract_cargo_eq,
      uint32_sub_eq _ _ hle hc]

/-- Every move of a successful `transferInventory`: the record created at the
destination for an entry of the pick list, the source record it was taken
from, and what is left of that source record. -/
theorem SupplyChain.transferInventory_moves {ctx : SupplyChain.Context}
    {db db' : SupplyChain.Database} {sourceWarehouseId : WarehouseId}
    {sourceManager : AccountHandle} {destinationWarehouseId : WarehouseId}
    {destinationManager : AccountHandle} {L : List (Nat × Nat)} {deleteConsumed : Bool}
    {documentation : String}
    (hsorted : L.Pairwise (fun a b => a.1 < b.1))
    (hunique : ((db.stock sourceWarehouseId).map SupplyChain.Inventory.primary_key).Nodup)
    (hquantity : ∀ r ∈ db.stock sourceWarehouseId, r.quantity < 2 ^ 32)
    (h : SupplyChain.transferInventory ctx db sourceWarehouseId sourceManager
      destinationWarehouseId destinationManager L deleteConsumed documentation = .ok db') :
    ∃ news, db'.stock destinationWarehouseId = db.stock destinationWarehouseId ++ news ∧
      List.Forall₂ (fun e n => ∃ r,
        Table.find SupplyChain.Inventory.primary_key (db.stock sourceWarehouseId) e.1 =
          some r ∧
        e.2 ≤ r.quantity ∧
        n.description = r.description ∧ n.origin = r.origin ∧
        n.movement = r.movement ++ [ctx.currentTransactionId] ∧ n.quantity = e.2 ∧
        Table.find SupplyChain.Inventory.primary_key (db'.stock sourceWarehouseId) e.1 =
          if deleteConsumed = true ∧ e.2 = r.quantity then none
          else some ⟨r.id, r.description, r.origin, r.movement, r.quantity - e.2⟩) L news := by
  obtain ⟨hne, picked, s', d', hpicked, hloop, hdb⟩ := SupplyChain.transferInventory_ok h
  rw [SupplyChain.transferInventory_loop_eq] at hloop
  have hamounts := SupplyChain.processPickList_amounts _ _ _ _ _ hsorted hpicked
  have hkey : ∀ n x, SupplyChain.Inventory.primary_key (SupplyChain.Inventory.subtract n x) =
      SupplyChain.Inventory.primary_key x := fun _ _ => rfl
  obtain ⟨news, hd, hnews⟩ := SupplyChain.PickLoop.moves _ _ _ _ _ _ _ _ _ _ _
    _ _ _ _ hkey hsorted hunique
    (SupplyChain.processPickList_rows _ _ _ _ _ hsorted hpicked) hloop
  have hdst : db'.stock destinationWarehouseId = d' := by
    rw [hdb]
    exact Function.update_same _ _ _
  have hsrc : db'.stock sourceWarehouseId = s' := by
    rw [hdb]
    show Function.update _ _ _ _ = _
    rw [Function.update_noteq hne, Function.update_same]
  refine ⟨news, by rw [hdst, hd], (List.Forall₂.and_left hnews hamounts).imp ?_⟩
  rintro e n ⟨⟨r, newId, hf, _, hn, hafter⟩, r', hf', _, hle⟩
  rw [hf] at hf'
  cases hf'
  refine ⟨r, hf, hle, by rw [hn], by rw [hn], by rw [hn], by rw [hn], ?_⟩
  rw [hsrc, hafter]
  exact SupplyChain.Inventory.after_pick_inventory deleteConsumed r e.2 hle
    (hquantity r (Table.find_mem hf))

/-- Every move of a successful `shipInventory`: the cargo record created for an
entry of the pick list, the inventory record it was taken from, and what is
left of that inventory record. -/
theorem SupplyChain.shipInventory_moves {ctx : SupplyChain.Context}
    {db db' : SupplyChain.Database} {warehouseId : WarehouseId}
    {manager carrier : AccountHandle} {L : List (Nat × Nat)} {deleteConsumed : Bool}
    {documentation : String}
    (hsorted : L.Pairwise (fun a b => a.1 < b.1))
    (hunique : ((db.stock warehouseId).map SupplyChain.Inventory.primary_key).Nodup)
    (hquantity : ∀ r ∈ db.stock warehouseId, r.quantity < 2 ^ 32)
    (h : SupplyChain.shipInventory ctx db warehouseId manager carrier L deleteConsumed
      documentation = .ok db') :
    ∃ news, db'.cargo carrier = db.cargo carrier ++ news ∧
      List.Forall₂ (fun e n => ∃ r,
        Table.find SupplyChain.Inventory.primary_key (db.stock warehouseId) e.1 = some r ∧
        e.2 ≤ r.quantity ∧
        n.description = r.description ∧ n.origin = r.origin ∧
        n.movement = r.movement ++ [ctx.currentTransactionId] ∧ n.quantity = e.2 ∧
        Table.find SupplyChain.Inventory.primary_key (db'.stock warehouseId) e.1 =
          if deleteConsumed = true ∧ e.2 = r.quantity then none
          else some ⟨r.id, r.description, r.origin, r.movement, r.quantity - e.2⟩) L news := by
  obtain ⟨picked, s', c', hpicked, hloop, hdb⟩ := SupplyChain.shipInventory_ok h
  rw [SupplyChain.shipInventory_loop_eq] at hloop
  have hamounts := SupplyChain.processPickList_amounts _ _ _ _ _ hsorted hpicked
  have hkey : ∀ n x, SupplyChain.Inventory.primary_key (SupplyChain.Inventory.subtract n x) =
      SupplyChain.Inventory.primary_key x := fun _ _ => rfl
  obtain ⟨news, hd, hnews⟩ := SupplyChain.PickLoop.moves _ _ _ _ _ _ _ _ _ _ _
    _ _ _ _ hkey hsorted hunique
    (SupplyChain.processPickList_rows _ _ _ _ _ hsorted hpicked) hloop
  have hstock : db'.stock warehouseId = s' := by
    rw [hdb]
    exact Function.update_same _ _ _
  have hcargo : db'.cargo carrier = c' := by
    rw [hdb]
    exact Function.update_same _ _ _
  refine ⟨news, by rw [hcargo, hd], (List.Forall₂.and_left hnews hamounts).imp ?_⟩
  rintro e n ⟨⟨r, newId, hf, _, hn, hafter⟩, r', hf', _, hle⟩
  rw [hf] at hf'
  cases hf'
  refine ⟨r, hf, hle, by rw [hn], by rw [hn], by rw [hn], by rw [hn], ?_⟩
  rw [hstock, hafter]
  exact SupplyChain.Inventory.after_pick_inventory deleteConsumed r e.2 hle
    (hquantity r (Table.find_mem hf))

/-- Every move of a successful commit loop on cargo, for the submanifest and the
picked cargo that `deliverCargo` and `transferCargo` prepare. -/
theorem SupplyChain.CargoLoop.cargo_moves {D : Type} (message : String) (dkey : D → Nat)
    (mk : Nat → SupplyChain.Cargo → Nat → D) (payerS payerD : AccountHandle)
    (manifestId : ManifestId) (submanifest S : List (Nat × Nat))
    (picked : List (Nat × SupplyChain.Cargo)) (s s' : List SupplyChain.Cargo) (d d' : List D)
    (hsorted : submanifest.Pairwise (fun a b => a.1 < b.1))
    (hstock : s.Pairwise (fun a b => a.id < b.id))
    (hquantity : ∀ c ∈ s, c.quantity < 2 ^ 32)
    (hpick : (submanifest = [] ∧
        SupplyChain.pickEntireManifest (Table.equalRange SupplyChain.Cargo.manifest_key s
          (SupplyChain.manifestKey manifestId)) [] [] = (S, picked)) ∨
      (submanifest ≠ [] ∧ S = submanifest ∧
        SupplyChain.processPickList SupplyChain.Cargo.primary_key SupplyChain.Cargo.quantity s
          submanifest = .ok picked))
    (h : SupplyChain.PickLoop.run SupplyChain.Cargo.primary_key SupplyChain.Cargo.subtract
      (fun r q => q == r.quantity) (fun r => r.manifest == manifestId) message dkey mk
      payerS payerD S picked s d = .ok (s', d')) :
    S = SupplyChain.effectiveSubmanifest s manifestId submanifest ∧
      ∃ news, d' = d ++ news ∧
        List.Forall₂ (fun e n => ∃ c newId,
          Table.find SupplyChain.Cargo.primary_key s e.1 = some c ∧
          c.manifest = manifestId ∧ e.2 ≤ c.quantity ∧ n = mk newId c e.2 ∧
          Table.find SupplyChain.Cargo.primary_key s' e.1 =
            if e.2 = c.quantity then none
            else some ⟨c.id, c.manifest, c.description, c.origin, c.movement,
              c.quantity - e.2⟩) S news := by
  have hunique := SupplyChain.Cargo.nodup_of_sorted s hstock
  have hkey : ∀ n x, SupplyChain.Cargo.primary_key (SupplyChain.Cargo.subtract n x) =
      SupplyChain.Cargo.primary_key x := fun _ _ => rfl
  obtain ⟨hS, hSsorted, hrel, hamounts⟩ := SupplyChain.CargoLoop.picked_facts manifestId
    submanifest S picked s hsorted hstock hpick
  obtain ⟨news, hd, hnews⟩ := SupplyChain.PickLoop.moves _ _ _ _ _ _ _ _ _ _ _
    _ _ _ _ hkey hSsorted hunique hrel h
  refine ⟨hS, news, hd, (List.Forall₂.and_left hnews hamounts).imp ?_⟩
  rintro e n ⟨⟨c, newId, hf, hcheck, hn, hafter⟩, c', hf', hle⟩
  rw [hf] at hf'
  cases hf'
  refine ⟨c, newId, hf, by simpa using hcheck, hle, hn, ?_⟩
  rw [hafter]
  exact SupplyChain.Cargo.after_pick_cargo c e.2 hle (hquantity c (Table.find_mem hf))

/-- Every move of a successful `deliverCargo`: the inventory record created for
an entry of the effective submanifest, the cargo record it was taken from, and
what is left of that cargo record. -/
theorem SupplyChain.deliverCargo_moves {ctx : SupplyChain.Context}
    {db db' : SupplyChain.Database} {carrier : AccountHandle} {warehouseId : WarehouseId}
    {manager : AccountHandle} {manifestId : ManifestId} {submanifest : List (Nat × Nat)}
    {documentation : String}
    (hsorted : submanifest.Pairwise (fun a b => a.1 < b.1))
    (hstock : (db.cargo carrier).Pairwise (fun a b => a.id < b.id))
    (hquantity : ∀ c ∈ db.cargo carrier, c.quantity < 2 ^ 32)
    (h : SupplyChain.deliverCargo ctx db carrier warehouseId manager manifestId submanifest
      documentation = .ok db') :
    ∃ news, db'.stock warehouseId = db.stock warehouseId ++ news ∧
      List.Forall₂ (fun e n => ∃ c,
        Table.find SupplyChain.Cargo.primary_key (db.cargo carrier) e.1 = some c ∧
        c.manifest = manifestId ∧ e.2 ≤ c.quantity ∧
        n.description = c.description ∧ n.origin = c.origin ∧
        n.movement = c.movement ++ [ctx.currentTransactionId] ∧ n.quantity = e.2 ∧
        Table.find SupplyChain.Cargo.primary_key (db'.cargo carrier) e.1 =
          if e.2 = c.quantity then none
          else some ⟨c.id, c.manifest, c.description, c.origin, c.movement,
            c.quantity - e.2⟩)
        (SupplyChain.effectiveSubmanifest (db.cargo carrier) manifestId submanifest) news := by
  obtain ⟨manifest, S, picked, s', d', _, hpick, hloop, hdb⟩ := SupplyChain.deliverCargo_ok h
  rw [SupplyChain.deliverCargo_loop_eq] at hloop
  obtain ⟨hS, news, hd, hnews⟩ := SupplyChain.CargoLoop.cargo_moves _ _ _ _ _
    manifestId submanifest S picked _ s' _ d' hsorted hstock hquantity hpick hloop
  have hcargo : db'.cargo carrier = s' := by
    rw [hdb]
    exact Function.update_same _ _ _
  rw [← hS]
  refine ⟨news, ?_, hnews.imp ?_⟩
  · rw [hdb, ← hd]
    exact Function.update_same _ _ _
  · rintro e n ⟨c, newId, hf, hm, hle, hn, hafter⟩
    exact ⟨c, hf, hm, hle, by rw [hn], by rw [hn], by rw [hn], by rw [hn],
      by rw [hcargo, hafter]⟩

/-- Every move of a successful `transferCargo`: the cargo record created at the
destination for an entry of the effective submanifest, the source cargo record
it was taken from, and what is left of that source record. -/
theorem SupplyChain.transferCargo_moves {ctx : SupplyChain.Context}
    {db db' : SupplyChain.Database} {sourceCarrier destinationCarrier : AccountHandle}
    {manifestId : ManifestId} {submanifest : List (Nat × Nat)} {documentation : String}
    (hsorted : submanifest.Pairwise (fun a b => a.1 < b.1))
    (hstock : (db.cargo sourceCarrier).Pairwise (fun a b => a.id < b.id))
    (hquantity : ∀ c ∈ db.cargo sourceCarrier, c.quantity < 2 ^ 32)
    (h : SupplyChain.transferCargo ctx db sourceCarrier destinationCarrier manifestId
      submanifest documentation = .ok db') :
    ∃ news, db'.cargo destinationCarrier = db.cargo destinationCarrier ++ news ∧
      List.Forall₂ (fun e n => ∃ c,
        Table.find SupplyChain.Cargo.primary_key (db.cargo sourceCarrier) e.1 = some c ∧
        c.manifest = manifestId ∧ e.2 ≤ c.quantity ∧
        n.description = c.description ∧ n.origin = c.origin ∧
        n.movement = c.movement ++ [ctx.currentTransactionId] ∧ n.quantity = e.2 ∧
        Table.find SupplyChain.Cargo.primary_key (db'.cargo sourceCarrier) e.1 =
          if e.2 = c.quantity then none
          else some ⟨c.id, c.manifest, c.description, c.origin, c.movement,
            c.quantity - e.2⟩)
        (SupplyChain.effectiveSubmanifest (db.cargo sourceCarrier) manifestId submanifest)
        news := by
  obtain ⟨manifest, _, hcase⟩ := SupplyChain.transferCargo_ok h
  rcases hcase with ⟨hnil, hrange, hdb⟩ | ⟨S, picked, hpick, _, hcommit⟩
  · refine ⟨[], by rw [hdb, List.append_nil], ?_⟩
    have hS : SupplyChain.effectiveSubmanifest (db.cargo sourceCarrier) manifestId
        submanifest = [] := by
      rw [hnil]
      show List.map _ (Table.equalRange _ _ _) = []
      rw [hrange]
      rfl
    rw [hS]
    exact List.Forall₂.nil
  obtain ⟨hne, s', d', hloop, hdb⟩ := SupplyChain.transferCargo.commit_ok hcommit
  rw [SupplyChain.transferCargo_loop_eq] at hloop
  obtain ⟨hS, news, hd, hnews⟩ := SupplyChain.CargoLoop.cargo_moves _ _ _ _ _
    manifestId submanifest S picked _ s' _ d' hsorted hstock hquantity hpick hloop
  have hcargo : db'.cargo sourceCarrier = s' := by
    rw [hdb]
    exact Function.update_same _ _ _
  rw [← hS]
  refine ⟨news, ?_, hnews.imp ?_⟩
  · rw [hdb, ← hd]
    show Function.update _ _ _ _ = _
    rw [Function.update_noteq (Ne.symm hne), Function.update_same]
  · rintro e n ⟨c, newId, hf, hm, hle, hn, hafter⟩
    exact ⟨c, hf, hm, hle, by rw [hn], by rw [hn], by rw [hn], by rw [hn],
      by rw [hcargo, hafter]⟩

/-- What is left of a picked inventory row: its origin and movement if it is
still there, and in any case the quantity not taken. -/
theorem SupplyChain.Inventory.after_pick_inventory_facts (P : Prop) [Decidable P]
    (r : SupplyChain.Inventory) (q : Nat) (after : Option SupplyChain.Inventory)
    (hle : q ≤ r.quantity) (hP : P → q = r.quantity)
    (hafter : after = if P then none
      else some ⟨r.id, r.description, r.origin, r.movement, r.quantity - q⟩) :
    q + SupplyChain.Inventory.remaining after = r.quantity ∧
      ∀ r', after = some r' → r'.origin = r.origin ∧ r'.movement = r.movement := by
  by_cases h : P
  · rw [if_pos h] at hafter
    rw [hafter]
    refine ⟨?_, fun r' hr' => (by cases hr')⟩
    show q + 0 = r.quantity
    rw [hP h]
    rfl
  · rw [if_neg h] at hafter
    rw [hafter]
    refine ⟨?_, fun r' hr' => ?_⟩
    · show q + (r.quantity - q) = r.quantity
      omega
    · cases hr'
      exact ⟨rfl, rfl⟩

/-- What is left of a picked cargo row: its origin and movement if it is still
there, and in any case the quantity not taken. -/
theorem SupplyChain.Cargo.after_pick_cargo_facts (P : Prop) [Decidable P]
    (c : SupplyChain.Cargo) (q : Nat) (after : Option SupplyChain.Cargo)
    (hle : q ≤ c.quantity) (hP : P → q = c.quantity)
    (hafter : after = if P then none
      else some ⟨c.id, c.manifest, c.description, c.origin, c.movement, c.quantity - q⟩) :
    q + SupplyChain.Cargo.remaining after = c.quantity ∧
      ∀ c', after = some c' → c'.origin = c.origin ∧ c'.movement = c.movement := by
  by_cases h : P
  · rw [if_pos h] at hafter
    rw [hafter]
    refine ⟨?_, fun c' hc' => (by cases hc')⟩
    show q + 0 = c.quantity
    rw [hP h]
    rfl
  · rw [if_neg h] at hafter
    rw [hafter]
    refine ⟨?_, fun c' hc' => ?_⟩
    · show q + (c.quantity - q) = c.quantity
      omega
    · cases hc'
      exact ⟨rfl, rfl⟩

/-- A successful `removeInventory` found its record and took no more than the
record held. -/
theorem SupplyChain.removeInventory_ok {ctx : SupplyChain.Context}
    {db db' : SupplyChain.Database} {warehouseId : WarehouseId} {manager : AccountHandle}
    {inventoryId : InventoryId} {quantity : Nat} {deleteRecord : Bool} {documentation : String}
    (h : SupplyChain.removeInventory ctx db warehouseId manager inventoryId quantity
      deleteRecord documentation = .ok db') :
    ∃ inventory,
      Table.find SupplyChain.Inventory.primary_key (db.stock warehouseId) inventoryId =
        some inventory ∧ quantity ≤ inventory.quantity := by
  unfold SupplyChain.removeInventory at h
  obtain ⟨_, _, h⟩ := bind_ok h
  obtain ⟨_, _, h⟩ := bind_ok h
  obtain ⟨_, _, h⟩ := bind_ok h
  obtain ⟨_, _, h⟩ := bind_ok h
  obtain ⟨inventory, hfound, h⟩ := bind_ok h
  refine ⟨inventory, Table.getId_ok hfound, ?_⟩
  by_cases hq : quantity > 0
  · simp only [hq, if_true] at h
    obtain ⟨_, hcheck, _⟩ := bind_ok h
    simpa using Verify_ok hcheck
  · omega

/-- A successful `removeCargo` found its cargo entry and took a positive amount
no larger than the entry held. -/
theorem SupplyChain.removeCargo_ok {ctx : SupplyChain.Context}
    {db db' : SupplyChain.Database} {carrier : AccountHandle} {manifestId : ManifestId}
    {cargoId : CargoId} {quantity : Nat} {documentation : String}
    (h : SupplyChain.removeCargo ctx db carrier manifestId cargoId quantity documentation =
      .ok db') :
    documentation.length < SupplyChain.MAX_DESCRIPTION_SIZE ∧
      ∃ cargo,
        Table.find SupplyChain.Cargo.primary_key (db.cargo carrier) cargoId = some cargo ∧
        0 < quantity ∧ quantity ≤ cargo.quantity := by
  unfold SupplyChain.removeCargo at h
  obtain ⟨_, _, h⟩ := bind_ok h
  obtain ⟨_, hdoc, h⟩ := bind_ok h
  obtain ⟨_, hpos, h⟩ := bind_ok h
  obtain ⟨_, _, h⟩ := bind_ok h
  obtain ⟨cargo, hfound, h⟩ := bind_ok h
  obtain ⟨_, hle, _⟩ := bind_ok h
  exact ⟨by simpa using Verify_ok hdoc, cargo, Table.getId_ok hfound,
    by simpa using Verify_ok hpos, by simpa using Verify_ok hle⟩

/-- The stock tables of the example state have unique ids. -/
theorem SupplyChain.exampleDatabase_stock_ids (w : Nat) :
    ((SupplyChain.exampleDatabase.stock w).map SupplyChain.Inventory.primary_key).Nodup := by
  by_cases h : w = 1
  · subst h
    decide
  · simp [SupplyChain.exampleDatabase, h]

/-- The stock tables of the example state hold 32-bit quantities. -/
theorem SupplyChain.exampleDatabase_stock_quantities (w : Nat) :
    ∀ r ∈ SupplyChain.exampleDatabase.stock w, r.quantity < 2 ^ 32 := by
  by_cases h : w = 1
  · subst h
    decide
  · simp [SupplyChain.exampleDatabase, h]

/-- When list and picked records carry the same ids position by position, every
iteration finds its id first among the picked records left. -/
theorem SupplyChain.PickedItems.firstHits_of_ids {Item : Type} (list : List (Nat × Nat))
    (picked : List (Nat × Item)) (hrel : List.Forall₂ (fun e p => p.1 = e.1) list picked) :
    SupplyChain.PickedItems.firstHits list picked = true := by
  induction hrel with
  | nil => rfl
  | @cons e p rest prest hhead _ ih =>
    obtain ⟨id, q⟩ := e
    obtain ⟨pid, r⟩ := p
    have hpid : pid = id := hhead
    subst hpid
    unfold SupplyChain.PickedItems.firstHits
    simp only [SupplyChain.PickedItems.take, beq_self_eq_true, if_true, Bool.true_and]
    exact ih

/-- When list and picked records carry the same ids position by position, a
commit loop of the common shape returns, or fails the check of a picked row;
it never misses a picked record. -/
theorem SupplyChain.PickLoop.run_finds {S D : Type} (key : S → Nat) (subtract : Nat → S → S)
    (erases : S → Nat → Bool) (check : S → Bool) (message : String) (dkey : D → Nat)
    (mk : Nat → S → Nat → D) (payerS payerD : AccountHandle)
    (list : List (Nat × Nat)) (picked : List (Nat × S)) (s : List S) (d : List D)
    (hrel : List.Forall₂ (fun e p => p.1 = e.1) list picked) :
    (∃ r, SupplyChain.PickLoop.run key subtract erases check message dkey mk payerS payerD
        list picked s d = .ok r) ∨
      SupplyChain.PickLoop.run key subtract erases check message dkey mk payerS payerD
        list picked s d = .error (.VerifyFailed message) := by
  induction hrel generalizing s d with
  | nil =>
    unfold SupplyChain.PickLoop.run
    exact Or.inl ⟨_, rfl⟩
  | @cons e p rest prest hhead _ ih =>
    obtain ⟨id, q⟩ := e
    obtain ⟨pid, r⟩ := p
    have hpid : pid = id := hhead
    subst hpid
    unfold SupplyChain.PickLoop.run
    simp only [SupplyChain.PickedItems.take, beq_self_eq_true, if_true]
    cases hc : check r with
    | false => exact Or.inr rfl
    | true => exact ih _ _

/-- When list and picked records carry the same ids position by position, the
consume loop of `manufactureInventory` returns. -/
theorem SupplyChain.manufactureInventory.consumeLoop_total (manager : AccountHandle)
    (deleteConsumed : Bool) (list : List (Nat × Nat))
    (picked : List (Nat × SupplyChain.Inventory)) (s : List SupplyChain.Inventory)
    (hrel : List.Forall₂ (fun e p => p.1 = e.1) list picked) :
    ∃ s', SupplyChain.manufactureInventory.consumeLoop manager deleteConsumed list picked s =
      .ok s' := by
  induction hrel generalizing s with
  | nil =>
    unfold SupplyChain.manufactureInventory.consumeLoop
    exact ⟨_, rfl⟩
  | @cons e p rest prest hhead _ ih =>
    obtain ⟨id, q⟩ := e
    obtain ⟨pid, r⟩ := p
    have hpid : pid = id := hhead
    subst hpid
    unfold SupplyChain.manufactureInventory.consumeLoop
    simp only [SupplyChain.PickedItems.take, beq_self_eq_true, if_true]
    exact ih _

/-- Every left entry of a position-wise relation has its partner. -/
theorem List.Forall₂.exists_of_mem_left {α β : Type} {R : α → β → Prop}
    {l₁ : List α} {l₂ : List β} (h : List.Forall₂ R l₁ l₂) :
    ∀ a ∈ l₁, ∃ b ∈ l₂, R a b := by
  induction h with
  | nil => intro a ha; cases ha
  | cons hhead _ ih =>
    intro a ha
    rcases List.mem_cons.mp ha with ha | ha
    · rw [ha]
      exact ⟨_, List.mem_cons_self _ _, hhead⟩
    · obtain ⟨b, hb, hr⟩ := ih a ha
      exact ⟨b, List.mem_cons_of_mem _ hb, hr⟩

/-- When list and picked records carry the same ids position by position and
the check passes for every row, a commit loop of the common shape returns. -/
theorem SupplyChain.PickLoop.run_returns {S D : Type} (key : S → Nat) (subtract : Nat → S → S)
    (erases : S → Nat → Bool) (check : S → Bool) (message : String) (dkey : D → Nat)
    (mk : Nat → S → Nat → D) (payerS payerD : AccountHandle)
    (list : List (Nat × Nat)) (picked : List (Nat × S)) (s : List S) (d : List D)
    (hrel : List.Forall₂ (fun e p => p.1 = e.1) list picked) (hcheck : ∀ r, check r = true) :
    ∃ r, SupplyChain.PickLoop.run key subtract erases check message dkey mk payerS payerD
      list picked s d = .ok r := by
  induction hrel generalizing s d with
  | nil =>
    unfold SupplyChain.PickLoop.run
    exact ⟨_, rfl⟩
  | @cons e p rest prest hhead _ ih =>
    obtain ⟨id, q⟩ := e
    obtain ⟨pid, r⟩ := p
    have hpid : pid = id := hhead
    subst hpid
    unfold SupplyChain.PickLoop.run
    simp only [SupplyChain.PickedItems.take, beq_self_eq_true, if_true, hcheck]
    exact ih _ _

/-- The effective submanifest is empty exactly when the given submanifest is
empty and no cargo entry has the manifest's index key. -/
theorem SupplyChain.effectiveSubmanifest_eq_nil (stock : List SupplyChain.Cargo)
    (manifestId : ManifestId) (submanifest : List (Nat × Nat)) :
    SupplyChain.effectiveSubmanifest stock manifestId submanifest = [] ↔
      submanifest = [] ∧
        Table.equalRange SupplyChain.Cargo.manifest_key stock
          (SupplyChain.manifestKey manifestId) = [] := by
  cases submanifest with
  | nil =>
    show List.map _ (Table.equalRange _ _ _) = [] ↔ _
    rw [List.map_eq_nil_iff]
    exact ⟨fun h => ⟨rfl, h⟩, fun h => h.2⟩
  | cons e rest =>
    show e :: rest = [] ↔ _
    exact ⟨fun h => absurd h (List.cons_ne_nil _ _), fun h => absurd h.1 (List.cons_ne_nil _ _)⟩

/-- The result of `transferCargo` for an empty submanifest on a manifest without
cargo, once both carriers authorized, the documentation is short enough and
the manifest exists: only the manifest is erased. -/
theorem SupplyChain.transferCargo_empty_eq {ctx : SupplyChain.Context}
    {db : SupplyChain.Database} {sourceCarrier destinationCarrier : AccountHandle}
    {manifestId : ManifestId} {documentation : String} {manifest : SupplyChain.Manifest}
    (hsource : sourceCarrier ∈ ctx.authorizations)
    (hdestination : destinationCarrier ∈ ctx.authorizations)
    (hdoc : documentation.length ≤ SupplyChain.MAX_DESCRIPTION_SIZE)
    (hm : Table.find SupplyChain.Manifest.primary_key (db.manifests sourceCarrier) manifestId =
      some manifest)
    (hrange : Table.equalRange SupplyChain.Cargo.manifest_key (db.cargo sourceCarrier)
      (SupplyChain.manifestKey manifestId) = []) :
    SupplyChain.transferCargo ctx db sourceCarrier destinationCarrier manifestId []
        documentation =
      .ok ⟨db.warehouses, db.stock,
        Function.update db.manifests sourceCarrier
          (Table.erase SupplyChain.Manifest.primary_key (db.manifests sourceCarrier) manifest),
        db.cargo⟩ := by
  unfold SupplyChain.transferCargo
  simp only [SupplyChain.requireAuthorization_of_mem hsource,
    SupplyChain.requireAuthorization_of_mem hdestination, Table.getId_of_find _ hm, Verify,
    hdoc, decide_True, if_true, bind, Except.bind, pure, Except.pure, hrange, List.isEmpty]

/-! ## The variant encoder: claims -/

/-- C1: for a tagged value of a union with at most 7 alternatives, held at
position `p` with converted magnitude `m < 2^61`, `Decompose` succeeds and
returns exactly `(p << 61) | m`, a 64-bit value equal to `p * 2^61 + m`. -/
theorem Decompose_encodes (Ts : List Alternative) (hN : Ts.length < 0b1000)
    (v : StaticVariant Ts) (hm : v.magnitude < 2 ^ 61) :
    Decompose Ts hN v = .ok (v.position <<< 61 ||| v.magnitude) ∧
      v.position <<< 61 ||| v.magnitude = v.position * 2 ^ 61 + v.magnitude ∧
      v.position <<< 61 ||| v.magnitude < 2 ^ 64 := by
  have hp := position_lt_eight hN v
  have hor : v.position <<< 61 ||| v.magnitude = v.position * 2 ^ 61 + v.magnitude := by
    rw [Nat.lor_comm, lor_shiftLeft_eq _ _ hm]
  refine ⟨?_, hor, ?_⟩
  · rw [hor]
    exact Decompose_ok hN v hm
  · rw [hor]
    omega

/-- Witness for C1: alternative 1 of a two-alternative union with magnitude 5. -/
theorem Decompose_encodes_witness :
    (rawValue 5).magnitude < 2 ^ 61 ∧
      Decompose warehouseOrRaw (by decide) (rawValue 5) = .ok (1 <<< 61 ||| 5) :=
  ⟨by show 5 < 2 ^ 61; decide,
   (Decompose_encodes warehouseOrRaw (by decide) (rawValue 5) (by show 5 < 2 ^ 61; decide)).1⟩

/-- C2: for two values of the same union at positions `i < j`, both with valid
magnitudes, both encodings succeed and the encoding of the value at position
`i` is strictly below that of the value at position `j`, whatever the
magnitudes are. -/
theorem Decompose_lt_of_position_lt (Ts : List Alternative) (hN : Ts.length < 0b1000)
    (u v : StaticVariant Ts) (hpos : u.position < v.position)
    (hu : u.magnitude < 2 ^ 61) (hv : v.magnitude < 2 ^ 61) :
    ∃ a b, Decompose Ts hN u = .ok a ∧ Decompose Ts hN v = .ok b ∧ a < b := by
  refine ⟨_, _, Decompose_ok hN u hu, Decompose_ok hN v hv, ?_⟩
  have h : (u.position + 1) * 2 ^ 61 ≤ v.position * 2 ^ 61 := Nat.mul_le_mul_right _ hpos
  omega

/-- Witness for C2: position 0 with magnitude 9 against position 1 with magnitude 2. -/
theorem Decompose_lt_of_position_lt_witness :
    (warehouseValue 9).magnitude > (rawValue 2).magnitude ∧
      ∃ a b, Decompose warehouseOrRaw (by decide) (warehouseValue 9) = .ok a ∧
        Decompose warehouseOrRaw (by decide) (rawValue 2) = .ok b ∧ a < b :=
  ⟨by show 2 < 9; decide,
   Decompose_lt_of_position_lt warehouseOrRaw (by decide) (warehouseValue 9) (rawValue 2)
    (by show 0 < 1; decide) (by show 9 < 2 ^ 61; decide) (by show 2 < 2 ^ 61; decide)⟩

/-- C3: for two values held at the same position with valid magnitudes
`x < y`, both encodings succeed and the first is strictly below the second. -/
theorem Decompose_lt_of_magnitude_lt (Ts : List Alternative) (hN : Ts.length < 0b1000)
    (u v : StaticVariant Ts) (hpos : u.position = v.position)
    (hlt : u.magnitude < v.magnitude) (hv : v.magnitude < 2 ^ 61) :
    ∃ a b, Decompose Ts hN u = .ok a ∧ Decompose Ts hN v = .ok b ∧ a < b := by
  refine ⟨_, _, Decompose_ok hN u (Nat.lt_trans hlt hv), Decompose_ok hN v hv, ?_⟩
  rw [hpos]
  omega

/-- Witness for C3: magnitudes 2 and 9 at position 1. -/
theorem Decompose_lt_of_magnitude_lt_witness :
    ∃ a b, Decompose warehouseOrRaw (by decide) (rawValue 2) = .ok a ∧
      Decompose warehouseOrRaw (by decide) (rawValue 9) = .ok b ∧ a < b :=
  Decompose_lt_of_magnitude_lt warehouseOrRaw (by decide) (rawValue 2) (rawValue 9)
    rfl (by show 2 < 9; decide) (by show 9 < 2 ^ 61; decide)

/-- C4: `Decompose` fails if and only if the converted magnitude is at least
`2^61`, at every position, and the failure is the overflow check's; it
succeeds exactly when the magnitude is below `2^61`.  In particular a
magnitude of `2^61 - 1` is accepted and a magnitude of `2^61` is rejected. -/
theorem Decompose_fails_iff (Ts : List Alternative) (hN : Ts.length < 0b1000)
    (v : StaticVariant Ts) :
    ((∃ e, Decompose Ts hN v = .error e) ↔ 2 ^ 61 ≤ v.magnitude) ∧
      (Decompose Ts hN v = .error (.VerifyFailed tooLargeMessage) ↔ 2 ^ 61 ≤ v.magnitude) ∧
      ((∃ k, Decompose Ts hN v = .ok k) ↔ v.magnitude < 2 ^ 61) ∧
      (v.magnitude = 2 ^ 61 - 1 → ∃ k, Decompose Ts hN v = .ok k) ∧
      (v.magnitude = 2 ^ 61 →
        Decompose Ts hN v = .error (.VerifyFailed tooLargeMessage)) := by
  rw [Decompose_eq]
  by_cases hm : v.magnitude < 2 ^ 61
  · rw [if_pos hm]
    refine ⟨?_, ?_, ?_, ?_, ?_⟩
    · constructor
      · rintro ⟨e, he⟩
        cases he
      · intro h
        omega
    · constructor
      · intro he
        cases he
      · intro h
        omega
    · exact ⟨fun _ => hm, fun _ => ⟨_, rfl⟩⟩
    · exact fun _ => ⟨_, rfl⟩
    · intro h
      omega
  · rw [if_neg hm]
    refine ⟨?_, ?_, ?_, ?_, ?_⟩
    · exact ⟨fun _ => Nat.le_of_not_lt hm, fun _ => ⟨_, rfl⟩⟩
    · exact ⟨fun _ => Nat.le_of_not_lt hm, fun _ => rfl⟩
    · constructor
      · rintro ⟨k, hk⟩
        cases hk
      · intro h
        exact absurd h hm
    · intro h
      omega
    · exact fun _ => rfl

/-- Witness for C4: the two boundary magnitudes `2^61 - 1` and `2^61`. -/
theorem Decompose_fails_iff_witness :
    (∃ k, Decompose warehouseOrRaw (by decide) (rawValue (2 ^ 61 - 1)) = .ok k) ∧
      Decompose warehouseOrRaw (by decide) (rawValue (2 ^ 61)) =
        .error (.VerifyFailed tooLargeMessage) :=
  ⟨(Decompose_fails_iff warehouseOrRaw (by decide) (rawValue (2 ^ 61 - 1))).2.2.2.1 rfl,
   (Decompose_fails_iff warehouseOrRaw (by decide) (rawValue (2 ^ 61))).2.2.2.2 rfl⟩

/-- C5: the minimum sentinel sits at position 0 with magnitude 0, so for every
union (whatever its number of alternatives) whose first payload type
constructed from `0` converts back to `0`, `Decompose(Decompose_MIN<V>())`
succeeds with key `0`, and that key is at most the key of every value of the
union on which `Decompose` succeeds. -/
theorem Decompose_MIN_least (Ts : List Alternative) (hN : Ts.length < 0b1000)
    (hpos : 0 < Ts.length)
    (hzero : (Ts.get ⟨0, hpos⟩).toUInt64 ((Ts.get ⟨0, hpos⟩).ofUInt64 0) % 2 ^ 64 = 0) :
    (Decompose_MIN Ts hpos).position = 0 ∧ (Decompose_MIN Ts hpos).magnitude = 0 ∧
      Decompose Ts hN (Decompose_MIN Ts hpos) = .ok 0 ∧
      ∀ (v : StaticVariant Ts) (k : Nat), Decompose Ts hN v = .ok k →
        ∃ m, Decompose Ts hN (Decompose_MIN Ts hpos) = .ok m ∧ m ≤ k := by
  have hmag : (Decompose_MIN Ts hpos).magnitude = 0 := hzero
  have hok : Decompose Ts hN (Decompose_MIN Ts hpos) = .ok 0 := by
    have hposition : (Decompose_MIN Ts hpos).position = 0 := rfl
    rw [Decompose_ok hN _ (by rw [hmag]; decide), hmag, hposition, Nat.zero_mul]
  exact ⟨rfl, hmag, hok, fun v k _ => ⟨0, hok, Nat.zero_le k⟩⟩

/-- Witness for C5: the two-alternative union, compared with one of its values. -/
theorem Decompose_MIN_least_witness :
    Decompose warehouseOrRaw (by decide) (Decompose_MIN warehouseOrRaw (by decide)) = .ok 0 ∧
      ∃ m, Decompose warehouseOrRaw (by decide) (Decompose_MIN warehouseOrRaw (by decide)) = .ok m ∧
        m ≤ 0x2000000000000005 :=
  ⟨(Decompose_MIN_least warehouseOrRaw (by decide) (by decide) rfl).2.2.1,
   (Decompose_MIN_least warehouseOrRaw (by decide) (by decide) rfl).2.2.2 (rawValue 5) 0x2000000000000005 rfl⟩

/-- Whenever the last payload type keeps the all-ones literal it is constructed
from, the maximum sentinel carries magnitude `2^64 - 1` and the overflow check
of `Decompose` rejects it. -/
theorem Decompose_MAX_fails (Ts : List Alternative) (hN : Ts.length < 0b1000)
    (hpos : 0 < Ts.length)
    (hones : (Decompose_MAX Ts hpos).magnitude = 2 ^ 64 - 1) :
    Decompose Ts hN (Decompose_MAX Ts hpos) = .error (.VerifyFailed tooLargeMessage) := by
  rw [Decompose_eq, if_neg]
  rw [hones]
  decide

/-- C6, evaluated on `StaticVariant<uint64_t>`: the maximum sentinel sits at the
last position but holds magnitude `2^64 - 1`, not `2^61 - 1`; `Decompose`
rejects it with the overflow failure instead of returning
`((N-1) << 61) | (2^61 - 1)`. -/
theorem Decompose_MAX_magnitude_overflows :
    (Decompose_MAX rawOnly (by decide)).position = rawOnly.length - 1 ∧
      (Decompose_MAX rawOnly (by decide)).magnitude = 2 ^ 64 - 1 ∧
      Decompose rawOnly (by decide) (Decompose_MAX rawOnly (by decide)) =
        .error (.VerifyFailed tooLargeMessage) ∧
      Decompose rawOnly (by decide) (Decompose_MAX rawOnly (by decide)) ≠
        .ok ((rawOnly.length - 1) <<< 61 ||| (2 ^ 61 - 1)) := by
  refine ⟨rfl, rfl, rfl, ?_⟩
  intro h
  cases h

/-- C7, evaluated on `StaticVariant<ID<"warehouses">, uint64_t>`: encoding the
maximum sentinel fails, while the value at position 0 with magnitude 7 encodes
to 7; the sentinel yields no key that bounds it from above. -/
theorem Decompose_MAX_not_upper_bound :
    Decompose warehouseOrRaw (by decide) (Decompose_MAX warehouseOrRaw (by decide)) =
        .error (.VerifyFailed tooLargeMessage) ∧
      Decompose warehouseOrRaw (by decide) (warehouseValue 7) = .ok 7 ∧
      ¬ ∃ m, Decompose warehouseOrRaw (by decide) (Decompose_MAX warehouseOrRaw (by decide)) = .ok m ∧
        7 ≤ m := by
  refine ⟨rfl, rfl, ?_⟩
  rintro ⟨m, hm, _⟩
  cases hm

/-- C8: bit layout of an encoded key `k = Decompose(v)`: it is a 64-bit value
whose bits [63:61] (`k >> 61`) are the position, itself below 8, and whose
bits [60:0] (`k mod 2^61`) are the magnitude; hence any value of the union that
encodes to the same key has the same position and the same magnitude. -/
theorem Decompose_bit_layout (Ts : List Alternative) (hN : Ts.length < 0b1000)
    (u v : StaticVariant Ts) (k : Nat) (hu : Decompose Ts hN u = .ok k) :
    k < 2 ^ 64 ∧ u.position < 8 ∧ k >>> 61 = u.position ∧ k % 2 ^ 61 = u.magnitude ∧
      (Decompose Ts hN v = .ok k → v.position = u.position ∧ v.magnitude = u.magnitude) := by
  obtain ⟨hm, rfl⟩ := (Decompose_ok_iff hN u k).1 hu
  have hp := position_lt_eight hN u
  refine ⟨by omega, hp, ?_, by omega, ?_⟩
  · rw [Nat.shiftRight_eq_div_pow]
    omega
  · intro hv
    obtain ⟨hm', he⟩ := (Decompose_ok_iff hN v _).1 hv
    omega

/-- Witness for C8: the key of position 1, magnitude 5. -/
theorem Decompose_bit_layout_witness :
    0x2000000000000005 >>> 61 = (rawValue 5).position ∧
      0x2000000000000005 % 2 ^ 61 = (rawValue 5).magnitude :=
  ⟨(Decompose_bit_layout warehouseOrRaw (by decide) (rawValue 5) (rawValue 5)
      0x2000000000000005 rfl).2.2.1,
   (Decompose_bit_layout warehouseOrRaw (by decide) (rawValue 5) (rawValue 5)
      0x2000000000000005 rfl).2.2.2.1⟩

/-! ## The composite key builder: claims -/

/-- C9: for 64-bit `a` and `b`, `MakeCompositeKey(a, b)` is the 128-bit value
`a * 2^64 + b`; its high 64 bits are `a` and its low 64 bits are `b`. -/
theorem MakeCompositeKey_halves (a b : Nat) (ha : a < 2 ^ 64) (hb : b < 2 ^ 64) :
    MakeCompositeKey a b = a * 2 ^ 64 + b ∧ MakeCompositeKey a b < 2 ^ 128 ∧
      MakeCompositeKey a b >>> 64 = a ∧ MakeCompositeKey a b % 2 ^ 64 = b := by
  have h : MakeCompositeKey a b = a * 2 ^ 64 + b := by
    unfold MakeCompositeKey
    rw [Nat.shiftLeft_eq, Nat.mod_eq_of_lt ha, Nat.mod_eq_of_lt hb]
    omega
  rw [h, Nat.shiftRight_eq_div_pow]
  refine ⟨rfl, ?_, ?_, ?_⟩ <;> omega

/-- Witness for C9: both fields all ones, the case where a carry or a sign
extension would show. -/
theorem MakeCompositeKey_halves_witness :
    MakeCompositeKey (2 ^ 64 - 1) (2 ^ 64 - 1) >>> 64 = 2 ^ 64 - 1 ∧
      MakeCompositeKey (2 ^ 64 - 1) (2 ^ 64 - 1) % 2 ^ 64 = 2 ^ 64 - 1 :=
  (MakeCompositeKey_halves (2 ^ 64 - 1) (2 ^ 64 - 1) (by decide) (by decide)).2.2

/-- C10: for 64-bit `a`, `b` and `c`, the key `MakeCompositeKey(a, b, c)` is the
concatenation of the three 64-bit words with `a` most significant, then `b`,
then `c`; it fits in 256 bits and its three words, read from the most
significant one, are `a`, `b` and `c`. -/
theorem MakeCompositeKey3_words (a b c : Nat) (ha : a < 2 ^ 64) (hb : b < 2 ^ 64)
    (hc : c < 2 ^ 64) :
    MakeCompositeKey3 a b c = a * 2 ^ 128 + b * 2 ^ 64 + c ∧ MakeCompositeKey3 a b c < 2 ^ 256 ∧
      MakeCompositeKey3 a b c >>> 128 % 2 ^ 64 = a ∧
      MakeCompositeKey3 a b c >>> 64 % 2 ^ 64 = b ∧
      MakeCompositeKey3 a b c % 2 ^ 64 = c := by
  have h : MakeCompositeKey3 a b c = a * 2 ^ 128 + b * 2 ^ 64 + c := by
    simp only [MakeCompositeKey3, UInt256.ofWords, List.foldl, Nat.mod_eq_of_lt ha,
      Nat.mod_eq_of_lt hb, Nat.mod_eq_of_lt hc]
    omega
  rw [h, Nat.shiftRight_eq_div_pow, Nat.shiftRight_eq_div_pow]
  refine ⟨rfl, ?_, ?_, ?_, ?_⟩ <;> omega

/-- Witness for C10: three distinct words. -/
theorem MakeCompositeKey3_words_witness :
    MakeCompositeKey3 1 2 3 >>> 128 % 2 ^ 64 = 1 ∧ MakeCompositeKey3 1 2 3 >>> 64 % 2 ^ 64 = 2 ∧
      MakeCompositeKey3 1 2 3 % 2 ^ 64 = 3 :=
  (MakeCompositeKey3_words 1 2 3 (by decide) (by decide) (by decide)).2.2

/-- C11: composite keys order like their field tuples: for 64-bit fields the
two-field key of `(a, b)` is below that of `(a', b')` exactly when `(a, b)` is
lexicographically below `(a', b')`, and the three-field key of `(a, b, c)` is
below that of `(a', b', c')` exactly when `(a, b, c)` is lexicographically
below `(a', b', c')`. -/
theorem MakeCompositeKey_lt_iff_lex (a b c a' b' c' : Nat)
    (ha : a < 2 ^ 64) (hb : b < 2 ^ 64) (hc : c < 2 ^ 64)
    (ha' : a' < 2 ^ 64) (hb' : b' < 2 ^ 64) (hc' : c' < 2 ^ 64) :
    (MakeCompositeKey a b < MakeCompositeKey a' b' ↔ a < a' ∨ (a = a' ∧ b < b')) ∧
      (MakeCompositeKey3 a b c < MakeCompositeKey3 a' b' c' ↔
        a < a' ∨ (a = a' ∧ (b < b' ∨ (b = b' ∧ c < c')))) := by
  rw [MakeCompositeKey_eq a b ha hb, MakeCompositeKey_eq a' b' ha' hb',
    MakeCompositeKey3_eq a b c ha hb hc, MakeCompositeKey3_eq a' b' c' ha' hb' hc']
  constructor <;> omega

/-- Witness for C11: a smaller first field wins against larger trailing fields. -/
theorem MakeCompositeKey_lt_iff_lex_witness :
    MakeCompositeKey 1 (2 ^ 64 - 1) < MakeCompositeKey 2 0 ∧
      MakeCompositeKey3 1 (2 ^ 64 - 1) (2 ^ 64 - 1) < MakeCompositeKey3 2 0 0 :=
  ⟨(MakeCompositeKey_lt_iff_lex 1 (2 ^ 64 - 1) (2 ^ 64 - 1) 2 0 0 (by decide) (by decide)
      (by decide) (by decide) (by decide) (by decide)).1.2 (Or.inl (by decide)),
   (MakeCompositeKey_lt_iff_lex 1 (2 ^ 64 - 1) (2 ^ 64 - 1) 2 0 0 (by decide) (by decide)
      (by decide) (by decide) (by decide) (by decide)).2.2 (Or.inl (by decide))⟩

/-- C12: prefix range scans on two-field keys: with the first field `a` fixed,
raising the second field by one raises the key by one, and the key of
`(a', b')` lies in the closed interval from the key of `(a, 0)` to the key of
`(a, 2^64 - 1)` exactly when `a' = a`. -/
theorem MakeCompositeKey_prefix_range (a a' b' : Nat)
    (ha : a < 2 ^ 64) (ha' : a' < 2 ^ 64) (hb' : b' < 2 ^ 64) :
    (∀ b, b < 2 ^ 64 - 1 → MakeCompositeKey a (b + 1) = MakeCompositeKey a b + 1) ∧
      ((MakeCompositeKey a 0 ≤ MakeCompositeKey a' b' ∧
          MakeCompositeKey a' b' ≤ MakeCompositeKey a (2 ^ 64 - 1)) ↔ a' = a) := by
  constructor
  · intro b hb
    rw [MakeCompositeKey_eq a (b + 1) ha (by omega), MakeCompositeKey_eq a b ha (by omega)]
    omega
  · rw [MakeCompositeKey_eq a 0 ha (by decide), MakeCompositeKey_eq a' b' ha' hb',
      MakeCompositeKey_eq a (2 ^ 64 - 1) ha (by decide)]
    omega

/-- Witness for C12: the range of first field 7. -/
theorem MakeCompositeKey_prefix_range_witness :
    MakeCompositeKey 7 (41 + 1) = MakeCompositeKey 7 41 + 1 ∧
      ((MakeCompositeKey 7 0 ≤ MakeCompositeKey 8 0 ∧
          MakeCompositeKey 8 0 ≤ MakeCompositeKey 7 (2 ^ 64 - 1)) ↔ 8 = 7) :=
  ⟨(MakeCompositeKey_prefix_range 7 8 0 (by decide) (by decide) (by decide)).1 41 (by decide),
   (MakeCompositeKey_prefix_range 7 8 0 (by decide) (by decide) (by decide)).2⟩

/-! ## The fixed string key encoder: claims -/

/-- C13, refuted as stated: the 3-byte text `'a', 0, 'b'` has length at most 32,
yet the key's third byte is zero, not `'b'`: the copy stops at the zero byte.
So it is not true that every text of at most 32 bytes is reproduced at the
start of its key. -/
theorem MakeStringKey_embedded_zero :
    MakeStringKey [97, 0, 98] = 97 :: List.replicate 31 0 ∧
      (MakeStringKey [97, 0, 98]).take 3 ≠ [97, 0, 98] ∧
      ¬ ∀ text : List Nat, text.length ≤ 32 → (∀ b ∈ text, b < 256) →
        MakeStringKey text = text ++ List.replicate (32 - text.length) 0 := by
  refine ⟨by decide, by decide, ?_⟩
  intro h
  exact absurd (h [97, 0, 98] (by decide) (by decide)) (by decide)

/-- C13, amended: for every text of length `n ≤ 32` whose zero bytes, if any,
all come after its last nonzero byte (`text = p ++ zeros`, `p` free of zero
bytes), the key is 32 bytes long, its bytes `0..n-1` are the bytes of the text
in order and its bytes `n..31` are zero. -/
theorem MakeStringKey_short (p : List Nat) (k : Nat) (hp : ∀ b ∈ p, b ≠ 0)
    (hlen : p.length + k ≤ 32) :
    (MakeStringKey (p ++ List.replicate k 0)).length = 32 ∧
      MakeStringKey (p ++ List.replicate k 0) =
        (p ++ List.replicate k 0) ++ List.replicate (32 - (p.length + k)) 0 ∧
      (MakeStringKey (p ++ List.replicate k 0)).take (p.length + k) = p ++ List.replicate k 0 ∧
      (MakeStringKey (p ++ List.replicate k 0)).drop (p.length + k) =
        List.replicate (32 - (p.length + k)) 0 := by
  have hkey : MakeStringKey (p ++ List.replicate k 0) =
      (p ++ List.replicate k 0) ++ List.replicate (32 - (p.length + k)) 0 := by
    have hmin : min (p ++ List.replicate k 0).length (256 / 8) = p.length + k := by
      simp only [List.length_append, List.length_replicate]
      omega
    simp only [MakeStringKey, hmin, strncpy_zero_tail p k hp, UInt256.zeroBytes,
      List.drop_replicate]
  have hl : (p ++ List.replicate k 0).length = p.length + k := by simp
  refine ⟨MakeStringKey_length _, hkey, ?_, ?_⟩
  · rw [hkey, ← hl, List.take_left']
    rfl
  · rw [hkey, ← hl, List.drop_left']
    rfl

/-- Witness for C13: the key of `"abc"` is `'a', 'b', 'c'` and 29 zero bytes. -/
theorem MakeStringKey_short_witness :
    MakeStringKey (asciiBytes "abc") = [97, 98, 99] ++ List.replicate 29 0 :=
  (MakeStringKey_short (asciiBytes "abc") 0 (by decide) (by decide)).2.1

/-- C14: a text longer than 32 bytes has the key of its first 32 bytes (the
function is total, so there is no failure), and every input of at least 32
bytes that shares those first 32 bytes has the same key. -/
theorem MakeStringKey_truncates (text : List Nat) (hlen : 32 < text.length) :
    MakeStringKey text = MakeStringKey (text.take 32) ∧ (MakeStringKey text).length = 32 ∧
      ∀ other : List Nat, 32 ≤ other.length → other.take 32 = text.take 32 →
        MakeStringKey other = MakeStringKey text := by
  have hkey : ∀ s : List Nat, 32 ≤ s.length → MakeStringKey s = strncpy (s.take 32) 32 := by
    intro s hs
    have hmin : min s.length (256 / 8) = 32 := by omega
    simp only [MakeStringKey, hmin, UInt256.zeroBytes, strncpy_take]
    simp
  refine ⟨?_, MakeStringKey_length _, ?_⟩
  · rw [hkey text (by omega), hkey (text.take 32) (by simp; omega), List.take_take]
    simp
  · intro other ho hsame
    rw [hkey other ho, hkey text (by omega), hsame]

/-- Witness for C14: 32 times `'x'`, with and without a trailing `'y'`. -/
theorem MakeStringKey_truncates_witness :
    MakeStringKey (List.replicate 32 120) = MakeStringKey (List.replicate 32 120 ++ [121]) :=
  (MakeStringKey_truncates (List.replicate 32 120 ++ [121]) (by decide)).2.2
    (List.replicate 32 120) (by decide) (by decide)

/-! ## Worked example, dispatch, index accessor, variadic form: claims -/

/-- C15: in a two-alternative union, the value held at position 0 that converts
to 10 encodes to `0x000000000000000A` and the value held at position 1 that
converts to 5 encodes to `0x2000000000000005`. -/
theorem Decompose_worked_example (Ts : List Alternative) (hN : Ts.length < 0b1000)
    (_htwo : Ts.length = 2) (u v : StaticVariant Ts)
    (hu : u.position = 0 ∧ u.magnitude = 10) (hv : v.position = 1 ∧ v.magnitude = 5) :
    Decompose Ts hN u = .ok 0x000000000000000A ∧
      Decompose Ts hN v = .ok 0x2000000000000005 := by
  constructor
  · rw [Decompose_ok hN u (by rw [hu.2]; decide), hu.1, hu.2]
    norm_num
  · rw [Decompose_ok hN v (by rw [hv.2]; decide), hv.1, hv.2]
    norm_num

/-- Witness for C15: the union `StaticVariant<ID<"warehouses">, uint64_t>`. -/
theorem Decompose_worked_example_witness :
    Decompose warehouseOrRaw (by decide) (warehouseValue 10) = .ok 0x000000000000000A ∧
      Decompose warehouseOrRaw (by decide) (rawValue 5) = .ok 0x2000000000000005 :=
  Decompose_worked_example warehouseOrRaw (by decide) rfl (warehouseValue 10) (rawValue 5)
    ⟨rfl, rfl⟩ ⟨rfl, rfl⟩

/-- C16: dispatch over `N` types with runtime index `index`.  In range, the
dispatch is the one invocation of the operation at position `index`, for an
operation with any effect; in particular the operation that records its
invocations leaves exactly one new entry in the log, the position `index`.
Out of range, the dispatch throws `InvalidDispatchIndex` whatever the operation
is, and the log of invocations is left as it was: the operation is not invoked
at all.  In `Decompose` the index is the variant's discriminant: the operation
runs exactly once, at the held alternative, the dispatch yields the held
alternative's magnitude, and `Decompose` never fails with
`InvalidDispatchIndex`. -/
theorem Dispatch_exactly_once (N index : Nat) :
    (∀ (m : Type → Type) [MonadExcept Failure m] (β : Type) (operation : Fin N → m β)
        (h : index < N), Dispatch N index operation = operation ⟨index, h⟩) ∧
      (∀ (log : List Nat), index < N →
        (Dispatch N index recordInvocation).runFrom log = (.ok (), log ++ [index]) ∧
        ((Dispatch N index recordInvocation).runFrom log).2.length = log.length + 1) ∧
      (∀ (m : Type → Type) [MonadExcept Failure m] (β : Type) (operation : Fin N → m β),
        N ≤ index → Dispatch N index operation = throw Failure.InvalidDispatchIndex) ∧
      (∀ (β : Type) (operation : Fin N → Recording β) (log : List Nat), N ≤ index →
        (Dispatch N index operation).runFrom log = (.error .InvalidDispatchIndex, log)) ∧
      (∀ (Ts : List Alternative) (hN : Ts.length < 0b1000) (id : StaticVariant Ts),
        (∀ log : List Nat, (Dispatch Ts.length id.which.val recordInvocation).runFrom log =
          (.ok (), log ++ [id.which.val])) ∧
        Dispatch Ts.length id.which.val (fun v => do
            let x ← id.get v
            pure ((Ts.get v).toUInt64 x % 2 ^ 64)) = Except.ok id.magnitude ∧
          Decompose Ts hN id ≠ .error .InvalidDispatchIndex ∧
          Decompose Ts hN id ≠ .error .WrongAlternative) := by
  have hrecord : ∀ (K i : Nat) (log : List Nat) (h : i < K),
      (Dispatch K i recordInvocation).runFrom log = (.ok (), log ++ [i]) := by
    intro K i log h
    simp only [Dispatch, h, dite_true]
    rfl
  refine ⟨?_, ?_, ?_, ?_, ?_⟩
  · intro m _ β operation h
    simp only [Dispatch, h, dite_true]
  · intro log h
    rw [hrecord N index log h]
    exact ⟨rfl, by simp⟩
  · intro m _ β operation h
    simp only [Dispatch, Nat.not_lt.mpr h, dite_false]
  · intro β operation log h
    simp only [Dispatch, Nat.not_lt.mpr h, dite_false]
    rfl
  · intro Ts hN id
    refine ⟨fun log => hrecord Ts.length id.which.val log id.which.isLt, ?_, ?_, ?_⟩
    · obtain ⟨⟨w, hw⟩, x⟩ := id
      simp only [Dispatch, StaticVariant.get, StaticVariant.magnitude, hw, dite_true, bind,
        Except.bind, pure, Except.pure]
    · rw [Decompose_eq]
      split_ifs <;> simp
    · rw [Decompose_eq]
      split_ifs <;> simp

/-- Witness for C16: three types; at index 1 the recording operation is invoked
exactly once, at position 1; at index 3 the dispatch fails and nothing is
recorded. -/
theorem Dispatch_exactly_once_witness :
    (Dispatch 3 1 recordInvocation).runFrom [] = (.ok (), [1]) ∧
      (Dispatch 3 3 recordInvocation).runFrom [] = (.error .InvalidDispatchIndex, []) :=
  ⟨((Dispatch_exactly_once 3 1).2.1 [] (by decide)).1,
   (Dispatch_exactly_once 3 3).2.2.2.1 Unit recordInvocation [] (by decide)⟩

/-- C17: the accessor of the cargo table's `by.manifest` index is
`manifest_key`, which returns the record's manifest id as a 64-bit integer; two
cargo records with equal manifest fields have equal keys, whatever their other
fields are. -/
theorem manifest_key_pure (c c' : SupplyChain.Cargo) (hsame : c.manifest = c'.manifest) :
    SupplyChain.Cargo.SecondaryIndexes =
        [{ Tag := "by.manifest", KeyGetter := SupplyChain.Cargo.manifest_key }] ∧
      c.manifest_key = c'.manifest_key ∧
      c.manifest_key = c.manifest % 2 ^ 64 ∧
      (c.manifest < 2 ^ 64 → c.manifest_key = c.manifest) ∧
      ∀ index ∈ SupplyChain.Cargo.SecondaryIndexes, index.KeyGetter c = index.KeyGetter c' := by
  have hkey : ∀ x : SupplyChain.Cargo, x.manifest_key = x.manifest % 2 ^ 64 := by
    intro x
    simp [SupplyChain.Cargo.manifest_key, ID]
  refine ⟨rfl, ?_, hkey c, ?_, ?_⟩
  · rw [hkey, hkey, hsame]
  · intro h
    rw [hkey, Nat.mod_eq_of_lt h]
  · intro index hindex
    simp only [SupplyChain.Cargo.SecondaryIndexes, List.mem_singleton] at hindex
    rw [hindex]
    show c.manifest_key = c'.manifest_key
    rw [hkey, hkey, hsame]

/-- Witness for C17: two cargo records of manifest 4 that differ in every other field. -/
theorem manifest_key_pure_witness :
    SupplyChain.Cargo.manifest_key
        { id := 1, manifest := 4, description := "ore", origin := 10, movement := [], quantity := 3 } =
      SupplyChain.Cargo.manifest_key
        { id := 2, manifest := 4, description := "coal", origin := 11, movement := [12], quantity := 8 } :=
  (manifest_key_pure
    { id := 1, manifest := 4, description := "ore", origin := 10, movement := [], quantity := 3 }
    { id := 2, manifest := 4, description := "coal", origin := 11, movement := [12], quantity := 8 }
    rfl).2.1

/-- C18: the variadic form on two (three) arguments returns the two-field
(three-field) key of the arguments converted to `uint64_t`; it never fails, and
an integer argument outside the 64-bit range counts as its value modulo `2^64`. -/
theorem MakeCompositeKeyVariadic_forwards (x y z : Argument) (n : Int) :
    MakeCompositeKeyVariadic [x, y] =
        some (.UInt128 (MakeCompositeKey x.toUInt64 y.toUInt64)) ∧
      MakeCompositeKeyVariadic [x, y, z] =
        some (.UInt256 (MakeCompositeKey3 x.toUInt64 y.toUInt64 z.toUInt64)) ∧
      x.toUInt64 < 2 ^ 64 ∧
      Argument.toUInt64 ⟨integer, n⟩ = (n % 2 ^ 64).toNat ∧
      MakeCompositeKeyVariadic [⟨integer, n⟩, y] =
        MakeCompositeKeyVariadic [⟨integer, n % 2 ^ 64⟩, y] ∧
      MakeCompositeKeyVariadic [⟨integer, n⟩, y, z] =
        MakeCompositeKeyVariadic [⟨integer, n % 2 ^ 64⟩, y, z] := by
  have hconv : ∀ m : Int, Argument.toUInt64 ⟨integer, m⟩ = (m % 2 ^ 64).toNat := by
    intro m
    have hlt : (m % 2 ^ 64).toNat < 2 ^ 64 := by
      have h1 := Int.emod_nonneg m (by decide : (2 ^ 64 : Int) ≠ 0)
      have h2 := Int.emod_lt_of_pos m (by decide : (0 : Int) < 2 ^ 64)
      omega
    simp only [Argument.toUInt64, integer]
    exact Nat.mod_eq_of_lt hlt
  have hidem : Argument.toUInt64 ⟨integer, n % 2 ^ 64⟩ = Argument.toUInt64 ⟨integer, n⟩ := by
    rw [hconv, hconv, Int.emod_emod_of_dvd n (dvd_refl _)]
  refine ⟨rfl, rfl, ?_, hconv n, ?_, ?_⟩
  · exact Nat.mod_lt _ (by decide)
  · simp only [MakeCompositeKeyVariadic, List.map, hidem]
  · simp only [MakeCompositeKeyVariadic, List.map, hidem]

/-- Witness for C18: the integer `2^64 + 5` next to a `uint64_t` 7 gives the
two-field key of 5 and 7. -/
theorem MakeCompositeKeyVariadic_forwards_witness :
    MakeCompositeKeyVariadic [⟨integer, (2 ^ 64 + 5 : Int)⟩, ⟨uint64_t, (7 : Nat)⟩] =
      some (.UInt128 (MakeCompositeKey 5 7)) :=
  (MakeCompositeKeyVariadic_forwards ⟨integer, (2 ^ 64 + 5 : Int)⟩ ⟨uint64_t, (7 : Nat)⟩
    ⟨uint64_t, (0 : Nat)⟩ 0).1

/-! ## The supply chain example contract: claims -/

/-- C19: after a successful `updateWarehouse` on warehouse `w`, the record keeps
its id; with only a new description the description is the new one and the
manager is unchanged; with only a new manager the manager is the new one and
the description is unchanged; with both, both are set; and every other
warehouse record is as before (same lookups, same rows in the same order). -/
theorem updateWarehouse_changes_only_requested (ctx : SupplyChain.Context)
    (db db' : SupplyChain.Database) (manager : AccountHandle) (warehouseId : WarehouseId)
    (newManager : Option AccountHandle) (newDescription : Option String) (documentation : String)
    (h : SupplyChain.updateWarehouse ctx db manager warehouseId newManager newDescription
      documentation = .ok db') :
    ∃ w w', Table.find SupplyChain.Warehouse.primary_key db.warehouses warehouseId = some w ∧
      Table.find SupplyChain.Warehouse.primary_key db'.warehouses warehouseId = some w' ∧
      w'.id = w.id ∧
      (∀ d, newManager = none → newDescription = some d →
        w'.description = d ∧ w'.manager = w.manager) ∧
      (∀ m, newManager = some m → newDescription = none →
        w'.manager = m ∧ w'.description = w.description) ∧
      (∀ m d, newManager = some m → newDescription = some d →
        w'.manager = m ∧ w'.description = d) ∧
      (∀ id, id ≠ warehouseId →
        Table.find SupplyChain.Warehouse.primary_key db'.warehouses id =
          Table.find SupplyChain.Warehouse.primary_key db.warehouses id) ∧
      db'.warehouses.filter (fun r => r.id != warehouseId) =
        db.warehouses.filter (fun r => r.id != warehouseId) ∧
      db'.warehouses.length = db.warehouses.length := by
  obtain ⟨w, payer, hfound, hrows, -, -, -⟩ := SupplyChain.updateWarehouse_ok h
  have hid : w.id = warehouseId := Table.find_key hfound
  refine ⟨w, ⟨w.id, newManager.getD w.manager, newDescription.getD w.description⟩, hfound,
    ?_, rfl, ?_, ?_, ?_, ?_, ?_, ?_⟩
  · rw [hrows]
    exact Table.find_modify_self _ _ _ _ _ _ hfound rfl
  · rintro d rfl rfl
    exact ⟨rfl, rfl⟩
  · rintro m rfl rfl
    exact ⟨rfl, rfl⟩
  · rintro m d rfl rfl
    exact ⟨rfl, rfl⟩
  · intro id hne
    rw [hrows]
    exact Table.find_modify_other _ _ _ _ _ _ (by rw [← hid] at hne; exact hne) (fun _ => rfl)
  · rw [hrows, ← hid]
    exact Table.filter_modify SupplyChain.Warehouse.primary_key _ _ _ _ (fun _ => rfl)
  · rw [hrows]
    exact Table.modify_length _ _ _ _ _

/-- Witness for C19: renaming warehouse 1 leaves warehouse 2 as it was. -/
theorem updateWarehouse_changes_only_requested_witness :
    Table.find SupplyChain.Warehouse.primary_key
        [(⟨1, 100, "north annex"⟩ : SupplyChain.Warehouse), ⟨2, 200, "south"⟩] 2 =
      Table.find SupplyChain.Warehouse.primary_key SupplyChain.exampleDatabase.warehouses 2 :=
  match updateWarehouse_changes_only_requested SupplyChain.exampleContext
      SupplyChain.exampleDatabase
      { SupplyChain.exampleDatabase with
        warehouses := [⟨1, 100, "north annex"⟩, ⟨2, 200, "south"⟩] }
      100 1 none (some "north annex") "Testing" rfl with
  | ⟨_, _, _, _, _, _, _, _, hframe, _, _⟩ => hframe 2 (by decide)

/-- C20: for an inventory record of quantity `s`, a successful `adjustInventory`
leaves the record, under the same id, with quantity exactly `q` for an absolute
adjustment `q`, and with quantity exactly `s + d`, as an integer and still a
32-bit value, for a relative adjustment `d`; the call fails when `d = 0` and
when `s + d < 0`. -/
theorem adjustInventory_quantity (ctx : SupplyChain.Context) (db : SupplyChain.Database)
    (warehouseId : WarehouseId) (manager : AccountHandle) (inventoryId : InventoryId)
    (newDescription : Option String) (quantityAdjustment : Option SupplyChain.Adjustment)
    (documentation : String) (inventory : SupplyChain.Inventory)
    (hfound : Table.find SupplyChain.Inventory.primary_key (db.stock warehouseId) inventoryId =
      some inventory)
    (hs : inventory.quantity < 2 ^ 32) :
    (∀ db', SupplyChain.adjustInventory ctx db warehouseId manager inventoryId newDescription
        quantityAdjustment documentation = .ok db' →
      ∃ inventory', Table.find SupplyChain.Inventory.primary_key (db'.stock warehouseId)
          inventoryId = some inventory' ∧
        inventory'.id = inventory.id ∧
        (∀ q, quantityAdjustment = some (.uint32_t q) → inventory'.quantity = q) ∧
        (∀ d : Int, -2 ^ 31 ≤ d → d < 2 ^ 31 → quantityAdjustment = some (.int32_t d) →
          (inventory'.quantity : Int) = inventory.quantity + d ∧ inventory'.quantity < 2 ^ 32)) ∧
      (quantityAdjustment = some (.int32_t 0) →
        ∀ db', SupplyChain.adjustInventory ctx db warehouseId manager inventoryId newDescription
          quantityAdjustment documentation ≠ .ok db') ∧
      (∀ d : Int, -2 ^ 31 ≤ d → d < 2 ^ 31 → quantityAdjustment = some (.int32_t d) →
        (inventory.quantity : Int) + d < 0 →
        ∀ db', SupplyChain.adjustInventory ctx db warehouseId manager inventoryId newDescription
          quantityAdjustment documentation ≠ .ok db') := by
  refine ⟨?_, ?_, ?_⟩
  · intro db' h
    obtain ⟨found, hfound', hchecks, hstock, -, -, -⟩ := SupplyChain.adjustInventory_ok h
    have hsame : found = inventory := Option.some.inj (hfound'.symm.trans hfound)
    subst hsame
    refine ⟨SupplyChain.adjustInventory.commit newDescription quantityAdjustment found,
      ?_, (SupplyChain.adjustInventory.commit_id _ _ _).1, ?_, ?_⟩
    · rw [hstock, Function.update_same]
      exact Table.find_modify_self _ _ _ _ _ _ hfound
        (SupplyChain.adjustInventory.commit_id _ _ _).1
    · rintro q rfl
      exact (SupplyChain.adjustInventory.commit_quantity _ _).1 q
    · rintro d hlo hhi rfl
      obtain ⟨hz, hneg, hpos⟩ := hchecks d rfl
      rw [(SupplyChain.adjustInventory.commit_quantity _ _).2.1 d]
      by_cases hd : d < 0
      · have := hneg hd
        omega
      · have := hpos hd
        omega
  · rintro rfl db' h
    obtain ⟨found, -, hchecks, -⟩ := SupplyChain.adjustInventory_ok h
    exact (hchecks 0 rfl).1 rfl
  · rintro d hlo hhi rfl hlt db' h
    obtain ⟨found, hfound', hchecks, -⟩ := SupplyChain.adjustInventory_ok h
    have hsame : found = inventory := Option.some.inj (hfound'.symm.trans hfound)
    subst hsame
    obtain ⟨-, hneg, -⟩ := hchecks d rfl
    have := hneg (by omega)
    omega

/-- Witness for C20: lowering the graphite stock of 40 by 5 leaves 35. -/
theorem adjustInventory_quantity_witness :
    ∃ inventory', Table.find SupplyChain.Inventory.primary_key
        (SupplyChain.exampleAdjusted.stock 1) 1 = some inventory' ∧
      (inventory'.quantity : Int) = 40 + (-5) :=
  match (adjustInventory_quantity SupplyChain.exampleContext SupplyChain.exampleDatabase 1 100 1
      none (some (.int32_t (-5))) "Testing" ⟨1, "graphite", 5, [], 40⟩ rfl (by decide)).1
      SupplyChain.exampleAdjusted (by rfl) with
  | ⟨inventory', hfound, _, _, hrel⟩ =>
    ⟨inventory', hfound, (hrel (-5) (by decide) (by decide) rfl).1⟩

/-- C21: frame of a successful `adjustInventory`: the record keeps its id, origin
and movement; with only a new description the description is set and the
quantity is unchanged; with only a quantity adjustment the description is
unchanged; every other inventory record of the warehouse is as before (same
lookups, same rows in the same order), and so is every other warehouse's stock. -/
theorem adjustInventory_frame (ctx : SupplyChain.Context) (db db' : SupplyChain.Database)
    (warehouseId : WarehouseId) (manager : AccountHandle) (inventoryId : InventoryId)
    (newDescription : Option String) (quantityAdjustment : Option SupplyChain.Adjustment)
    (documentation : String)
    (h : SupplyChain.adjustInventory ctx db warehouseId manager inventoryId newDescription
      quantityAdjustment documentation = .ok db') :
    ∃ i i', Table.find SupplyChain.Inventory.primary_key (db.stock warehouseId) inventoryId =
        some i ∧
      Table.find SupplyChain.Inventory.primary_key (db'.stock warehouseId) inventoryId =
        some i' ∧
      i'.id = i.id ∧ i'.origin = i.origin ∧ i'.movement = i.movement ∧
      (∀ d, newDescription = some d → quantityAdjustment = none →
        i'.description = d ∧ i'.quantity = i.quantity) ∧
      (newDescription = none → i'.description = i.description) ∧
      (∀ id, id ≠ inventoryId →
        Table.find SupplyChain.Inventory.primary_key (db'.stock warehouseId) id =
          Table.find SupplyChain.Inventory.primary_key (db.stock warehouseId) id) ∧
      (db'.stock warehouseId).filter (fun r => r.id != inventoryId) =
        (db.stock warehouseId).filter (fun r => r.id != inventoryId) ∧
      (db'.stock warehouseId).length = (db.stock warehouseId).length ∧
      ∀ other, other ≠ warehouseId → db'.stock other = db.stock other := by
  obtain ⟨i, hfound, -, hstock, -, -, -⟩ := SupplyChain.adjustInventory_ok h
  have hid : i.id = inventoryId := Table.find_key hfound
  have hkey : ∀ x : SupplyChain.Inventory,
      (SupplyChain.adjustInventory.commit newDescription quantityAdjustment x).primary_key =
        x.primary_key := fun x => (SupplyChain.adjustInventory.commit_id _ _ x).1
  have hrows : db'.stock warehouseId =
      Table.modify SupplyChain.Inventory.primary_key (db.stock warehouseId) i manager
        (SupplyChain.adjustInventory.commit newDescription quantityAdjustment) := by
    rw [hstock, Function.update_same]
  refine ⟨i, SupplyChain.adjustInventory.commit newDescription quantityAdjustment i, hfound,
    ?_, (SupplyChain.adjustInventory.commit_id _ _ _).1,
    (SupplyChain.adjustInventory.commit_id _ _ _).2.1,
    (SupplyChain.adjustInventory.commit_id _ _ _).2.2, ?_, ?_, ?_, ?_, ?_, ?_⟩
  · rw [hrows]
    exact Table.find_modify_self _ _ _ _ _ _ hfound (hkey i)
  · rintro d rfl rfl
    exact ⟨(SupplyChain.adjustInventory.commit_description _ _).1 d,
      (SupplyChain.adjustInventory.commit_quantity _ _).2.2⟩
  · rintro rfl
    exact (SupplyChain.adjustInventory.commit_description _ _).2
  · intro id hne
    rw [hrows]
    exact Table.find_modify_other _ _ _ _ _ _ (by rw [← hid] at hne; exact hne) hkey
  · rw [hrows, ← hid]
    exact Table.filter_modify SupplyChain.Inventory.primary_key _ _ _ _ hkey
  · rw [hrows]
    exact Table.modify_length _ _ _ _ _
  · intro other hne
    rw [hstock, Function.update_noteq hne]

/-- Witness for C21: lowering the graphite stock leaves the lumber record as it was. -/
theorem adjustInventory_frame_witness :
    Table.find SupplyChain.Inventory.primary_key (SupplyChain.exampleAdjusted.stock 1) 2 =
      Table.find SupplyChain.Inventory.primary_key (SupplyChain.exampleDatabase.stock 1) 2 :=
  match adjustInventory_frame SupplyChain.exampleContext SupplyChain.exampleDatabase
      SupplyChain.exampleAdjusted 1 100 1 none (some (.int32_t (-5))) "Testing" (by rfl) with
  | ⟨_, _, _, _, _, _, _, _, _, hframe, _, _, _⟩ => hframe 2 (by decide)

/-- C22: `removeInventory` with `deleteRecord = false`, called by the authorized
manager with admissible documentation on a record of stock `s`: with
`0 < q ≤ s` it succeeds and the record stays in the table under the same id with
quantity `s - q` (also when that is 0); with `q = 0` it succeeds and the quantity
becomes 0; with `q > s` it fails; and after any success every other inventory
record is as before. -/
theorem removeInventory_keeps_record (ctx : SupplyChain.Context) (db : SupplyChain.Database)
    (warehouseId : WarehouseId) (manager : AccountHandle) (inventoryId : InventoryId)
    (q : Nat) (documentation : String) (warehouse : SupplyChain.Warehouse)
    (inventory : SupplyChain.Inventory)
    (hauth : manager ∈ ctx.authorizations)
    (hdoc : documentation.length ≤ SupplyChain.MAX_DESCRIPTION_SIZE)
    (hw : Table.find SupplyChain.Warehouse.primary_key db.warehouses warehouseId = some warehouse)
    (hmanager : warehouse.manager = manager)
    (hfound : Table.find SupplyChain.Inventory.primary_key (db.stock warehouseId) inventoryId =
      some inventory)
    (hs : inventory.quantity < 2 ^ 32) :
    (0 < q → q ≤ inventory.quantity →
        ∃ db', SupplyChain.removeInventory ctx db warehouseId manager inventoryId q false
            documentation = .ok db' ∧
          Table.find SupplyChain.Inventory.primary_key (db'.stock warehouseId) inventoryId =
            some ⟨inventory.id, inventory.description, inventory.origin, inventory.movement,
              inventory.quantity - q⟩) ∧
      (q = 0 →
        ∃ db', SupplyChain.removeInventory ctx db warehouseId manager inventoryId q false
            documentation = .ok db' ∧
          Table.find SupplyChain.Inventory.primary_key (db'.stock warehouseId) inventoryId =
            some ⟨inventory.id, inventory.description, inventory.origin, inventory.movement, 0⟩) ∧
      (inventory.quantity < q →
        ∀ db', SupplyChain.removeInventory ctx db warehouseId manager inventoryId q false
          documentation ≠ .ok db') ∧
      (∀ db', SupplyChain.removeInventory ctx db warehouseId manager inventoryId q false
          documentation = .ok db' →
        (∀ id, id ≠ inventoryId →
          Table.find SupplyChain.Inventory.primary_key (db'.stock warehouseId) id =
            Table.find SupplyChain.Inventory.primary_key (db.stock warehouseId) id) ∧
        (db'.stock warehouseId).filter (fun r => r.id != inventoryId) =
          (db.stock warehouseId).filter (fun r => r.id != inventoryId) ∧
        (db'.stock warehouseId).length = (db.stock warehouseId).length ∧
        ∀ other, other ≠ warehouseId → db'.stock other = db.stock other) := by
  have heq := SupplyChain.removeInventory_eq q false hauth hdoc hw hmanager hfound
  have hid : inventory.id = inventoryId := Table.find_key hfound
  have hkey : ∀ x : SupplyChain.Inventory,
      (SupplyChain.removeInventory.commit q x).primary_key = x.primary_key := by
    intro x
    rw [SupplyChain.removeInventory.commit_eq]
    rfl
  have hok : ¬ inventory.quantity < q →
      SupplyChain.removeInventory ctx db warehouseId manager inventoryId q false documentation =
        .ok ⟨db.warehouses, Function.update db.stock warehouseId
          (Table.modify SupplyChain.Inventory.primary_key (db.stock warehouseId) inventory manager
            (SupplyChain.removeInventory.commit q)), db.manifests, db.cargo⟩ := by
    intro hlt
    rw [heq]
    simp [hlt]
  have hfind : Table.find SupplyChain.Inventory.primary_key
      (Table.modify SupplyChain.Inventory.primary_key (db.stock warehouseId) inventory manager
        (SupplyChain.removeInventory.commit q)) inventoryId =
      some (SupplyChain.removeInventory.commit q inventory) :=
    Table.find_modify_self _ _ _ _ _ _ hfound (hkey inventory)
  refine ⟨?_, ?_, ?_, ?_⟩
  · intro hpos hle
    refine ⟨_, hok (by omega), ?_⟩
    simp only [Function.update_same]
    rw [hfind, SupplyChain.removeInventory.commit_eq, if_neg (by omega),
      uint32_sub_eq _ _ hle hs]
  · intro hz
    refine ⟨_, hok (by omega), ?_⟩
    simp only [Function.update_same]
    rw [hfind, SupplyChain.removeInventory.commit_eq, if_pos hz]
  · intro hlt db' h
    rw [heq, if_pos ⟨by omega, hlt⟩] at h
    cases h
  · intro db' h
    by_cases hlt : inventory.quantity < q
    · rw [heq, if_pos ⟨by omega, hlt⟩] at h
      cases h
    · rw [hok hlt] at h
      cases h
      simp only [Function.update_same]
      refine ⟨?_, ?_, Table.modify_length _ _ _ _ _, ?_⟩
      · intro id hne
        exact Table.find_modify_other _ _ _ _ _ _ (by rw [← hid] at hne; exact hne) hkey
      · rw [← hid]
        exact Table.filter_modify SupplyChain.Inventory.primary_key _ _ _ _ hkey
      · intro other hne
        exact Function.update_noteq hne _ _

/-- Witness for C22: taking all 10 units of lumber keeps the record, at quantity 0. -/
theorem removeInventory_keeps_record_witness :
    ∃ db', SupplyChain.removeInventory SupplyChain.exampleContext SupplyChain.exampleDatabase
        1 100 2 10 false "Testing" = .ok db' ∧
      Table.find SupplyChain.Inventory.primary_key (db'.stock 1) 2 =
        some ⟨2, "lumber", 5, [], 0⟩ :=
  (removeInventory_keeps_record SupplyChain.exampleContext SupplyChain.exampleDatabase 1 100 2 10
    "Testing" ⟨1, 100, "north"⟩ ⟨2, "lumber", 5, [], 10⟩ (by decide) (by decide) rfl rfl rfl
    (by decide)).1 (by decide) (by decide)

/-- C23: `removeInventory` with `deleteRecord = true`, called by the authorized
manager with admissible documentation on a record of a table with unique ids:
it succeeds exactly when `q = 0` or `q` is the record's whole stock; after a
success the record is gone from the warehouse's stock table and every other
inventory record is present and unchanged; with `0 < q < stock` or `q > stock`
it fails, and a failed call yields no new state. -/
theorem removeInventory_deletes_record (ctx : SupplyChain.Context) (db : SupplyChain.Database)
    (warehouseId : WarehouseId) (manager : AccountHandle) (inventoryId : InventoryId)
    (q : Nat) (documentation : String) (warehouse : SupplyChain.Warehouse)
    (inventory : SupplyChain.Inventory)
    (hauth : manager ∈ ctx.authorizations)
    (hdoc : documentation.length ≤ SupplyChain.MAX_DESCRIPTION_SIZE)
    (hw : Table.find SupplyChain.Warehouse.primary_key db.warehouses warehouseId = some warehouse)
    (hmanager : warehouse.manager = manager)
    (hfound : Table.find SupplyChain.Inventory.primary_key (db.stock warehouseId) inventoryId =
      some inventory)
    (hunique : ((db.stock warehouseId).map SupplyChain.Inventory.primary_key).Nodup) :
    ((∃ db', SupplyChain.removeInventory ctx db warehouseId manager inventoryId q true
          documentation = .ok db') ↔ (q = 0 ∨ q = inventory.quantity)) ∧
      (((0 < q ∧ q < inventory.quantity) ∨ inventory.quantity < q) →
        ∃ e, SupplyChain.removeInventory ctx db warehouseId manager inventoryId q true
          documentation = .error e) ∧
      (∀ db', SupplyChain.removeInventory ctx db warehouseId manager inventoryId q true
          documentation = .ok db' →
        Table.find SupplyChain.Inventory.primary_key (db'.stock warehouseId) inventoryId = none ∧
        (∀ id, id ≠ inventoryId →
          Table.find SupplyChain.Inventory.primary_key (db'.stock warehouseId) id =
            Table.find SupplyChain.Inventory.primary_key (db.stock warehouseId) id) ∧
        (db'.stock warehouseId).filter (fun r => r.id != inventoryId) =
          (db.stock warehouseId).filter (fun r => r.id != inventoryId) ∧
        (db'.stock warehouseId).length + 1 = (db.stock warehouseId).length ∧
        ∀ other, other ≠ warehouseId → db'.stock other = db.stock other) := by
  have heq := SupplyChain.removeInventory_eq q true hauth hdoc hw hmanager hfound
  have hid : inventory.id = inventoryId := Table.find_key hfound
  have hmem : inventory ∈ db.stock warehouseId := Table.find_mem hfound
  refine ⟨?_, ?_, ?_⟩
  · constructor
    · rintro ⟨db', h⟩
      rw [heq] at h
      by_contra hne
      by_cases hlt : 0 < q ∧ inventory.quantity < q
      · rw [if_pos hlt] at h
        cases h
      · rw [if_neg hlt, if_pos ⟨rfl, hne⟩] at h
        cases h
    · intro hq
      rw [heq]
      have hlt : ¬ (0 < q ∧ inventory.quantity < q) := by omega
      rw [if_neg hlt, if_neg (by simp [hq]), if_pos rfl]
      exact ⟨_, rfl⟩
  · intro hbad
    rw [heq]
    by_cases hlt : 0 < q ∧ inventory.quantity < q
    · rw [if_pos hlt]
      exact ⟨_, rfl⟩
    · rw [if_neg hlt, if_pos ⟨rfl, by omega⟩]
      exact ⟨_, rfl⟩
  · intro db' h
    rw [heq] at h
    by_cases hlt : 0 < q ∧ inventory.quantity < q
    · rw [if_pos hlt] at h
      cases h
    · rw [if_neg hlt] at h
      by_cases hne : ¬ (q = 0 ∨ q = inventory.quantity)
      · rw [if_pos ⟨rfl, hne⟩] at h
        cases h
      · rw [if_neg (by simp [hne]), if_pos rfl] at h
        cases h
        simp only [Function.update_same]
        refine ⟨?_, ?_, ?_, ?_, ?_⟩
        · rw [← hid]
          exact Table.find_erase_self SupplyChain.Inventory.primary_key _ _ hunique
        · intro id hne'
          exact Table.find_erase_other _ _ _ _ (by rw [← hid] at hne'; exact hne')
        · rw [← hid]
          exact Table.filter_erase SupplyChain.Inventory.primary_key _ _
        · exact Table.erase_length _ _ _ ⟨inventory, hmem, rfl⟩
        · intro other hne'
          exact Function.update_noteq hne' _ _

/-- Witness for C23: deleting the lumber record with its whole stock of 10. -/
theorem removeInventory_deletes_record_witness :
    ∃ db', SupplyChain.removeInventory SupplyChain.exampleContext SupplyChain.exampleDatabase
      1 100 2 10 true "Testing" = .ok db' :=
  (removeInventory_deletes_record SupplyChain.exampleContext SupplyChain.exampleDatabase 1 100 2
    10 "Testing" ⟨1, 100, "north"⟩ ⟨2, "lumber", 5, [], 10⟩ (by decide) (by decide) rfl rfl rfl
    (by decide)).1.2 (Or.inr rfl)

/-- C29: `removeCargo`, called by the authorized carrier with admissible
documentation on an existing manifest `manifestId` and a cargo entry of
quantity `s` (ids unique in both tables): with `0 < q < s` the entry is left
with quantity `s - q`; with `q = s` the entry is erased, and the manifest
record is erased if no other cargo entry of the carrier references
`manifestId` and kept if one does; with `q = 0` or `q > s` the call fails; and
after any success every other cargo entry is unchanged. -/
theorem removeCargo_postcondition (ctx : SupplyChain.Context) (db : SupplyChain.Database)
    (carrier : AccountHandle) (manifestId : ManifestId) (cargoId : CargoId) (q : Nat)
    (documentation : String) (manifest : SupplyChain.Manifest) (cargo : SupplyChain.Cargo)
    (hauth : carrier ∈ ctx.authorizations)
    (hdoc : documentation.length < SupplyChain.MAX_DESCRIPTION_SIZE)
    (hm : Table.find SupplyChain.Manifest.primary_key (db.manifests carrier) manifestId =
      some manifest)
    (hc : Table.find SupplyChain.Cargo.primary_key (db.cargo carrier) cargoId = some cargo)
    (hs : cargo.quantity < 2 ^ 32)
    (hunique : ((db.cargo carrier).map SupplyChain.Cargo.primary_key).Nodup)
    (hmunique : ((db.manifests carrier).map SupplyChain.Manifest.primary_key).Nodup) :
    (0 < q → q < cargo.quantity →
        ∃ db', SupplyChain.removeCargo ctx db carrier manifestId cargoId q documentation =
            .ok db' ∧
          Table.find SupplyChain.Cargo.primary_key (db'.cargo carrier) cargoId =
            some ⟨cargo.id, cargo.manifest, cargo.description, cargo.origin, cargo.movement,
              cargo.quantity - q⟩ ∧
          db'.manifests = db.manifests) ∧
      (0 < q → q = cargo.quantity →
        ∃ db', SupplyChain.removeCargo ctx db carrier manifestId cargoId q documentation =
            .ok db' ∧
          Table.find SupplyChain.Cargo.primary_key (db'.cargo carrier) cargoId = none ∧
          ((∃ c ∈ db.cargo carrier, c.id ≠ cargoId ∧
              c.manifest_key = SupplyChain.manifestKey manifestId) →
            db'.manifests = db.manifests) ∧
          ((¬ ∃ c ∈ db.cargo carrier, c.id ≠ cargoId ∧
              c.manifest_key = SupplyChain.manifestKey manifestId) →
            Table.find SupplyChain.Manifest.primary_key (db'.manifests carrier) manifestId =
              none ∧
            ∀ id, id ≠ manifestId →
              Table.find SupplyChain.Manifest.primary_key (db'.manifests carrier) id =
                Table.find SupplyChain.Manifest.primary_key (db.manifests carrier) id)) ∧
      ((q = 0 ∨ cargo.quantity < q) →
        ∃ e, SupplyChain.removeCargo ctx db carrier manifestId cargoId q documentation =
          .error e) ∧
      (∀ db', SupplyChain.removeCargo ctx db carrier manifestId cargoId q documentation =
          .ok db' →
        (∀ id, id ≠ cargoId →
          Table.find SupplyChain.Cargo.primary_key (db'.cargo carrier) id =
            Table.find SupplyChain.Cargo.primary_key (db.cargo carrier) id) ∧
        (db'.cargo carrier).filter (fun r => r.id != cargoId) =
          (db.cargo carrier).filter (fun r => r.id != cargoId) ∧
        (∀ other, other ≠ carrier → db'.cargo other = db.cargo other) ∧
        db'.warehouses = db.warehouses ∧ db'.stock = db.stock) := by
  have heq := SupplyChain.removeCargo_eq q hauth hdoc hm hc
  have hid : cargo.id = cargoId := Table.find_key hc
  have hmid : manifest.id = manifestId := Table.find_key hm
  have hkey : ∀ x : SupplyChain.Cargo,
      (SupplyChain.Cargo.subtract q x).primary_key = x.primary_key := fun _ => rfl
  have hcont : Table.contains SupplyChain.Cargo.manifest_key
      (Table.erase SupplyChain.Cargo.primary_key (db.cargo carrier) cargo)
      (SupplyChain.manifestKey manifestId) = true ↔
      ∃ c ∈ db.cargo carrier, c.id ≠ cargoId ∧
        c.manifest_key = SupplyChain.manifestKey manifestId := by
    rw [Table.contains_iff]
    constructor
    · rintro ⟨c, hmem, hk⟩
      obtain ⟨hin, hne⟩ := (Table.mem_erase_iff _ _ _ _ hunique).1 hmem
      exact ⟨c, hin, by rw [← hid]; exact hne, hk⟩
    · rintro ⟨c, hin, hne, hk⟩
      exact ⟨c, (Table.mem_erase_iff _ _ _ _ hunique).2 ⟨hin, by rw [← hid] at hne; exact hne⟩, hk⟩
  refine ⟨?_, ?_, ?_, ?_⟩
  · intro hpos hlt
    rw [heq, if_neg (by omega), if_neg (by omega), if_neg (by omega)]
    refine ⟨_, rfl, ?_, rfl⟩
    simp only [Function.update_same]
    rw [Table.find_modify_self _ _ _ _ _ _ hc (hkey cargo), SupplyChain.Cargo.subtract_cargo_eq,
      uint32_sub_eq _ _ (by omega) hs]
  · intro hpos hq
    by_cases hothers : ∃ c ∈ db.cargo carrier, c.id ≠ cargoId ∧
        c.manifest_key = SupplyChain.manifestKey manifestId
    · rw [heq, if_neg (by omega), if_neg (by omega), if_pos hq, if_pos (hcont.2 hothers)]
      refine ⟨_, rfl, ?_, fun _ => rfl, fun h => absurd hothers h⟩
      simp only [Function.update_same]
      rw [← hid]
      exact Table.find_erase_self SupplyChain.Cargo.primary_key _ _ hunique
    · have hnot : ¬ Table.contains SupplyChain.Cargo.manifest_key
          (Table.erase SupplyChain.Cargo.primary_key (db.cargo carrier) cargo)
          (SupplyChain.manifestKey manifestId) = true := fun h => hothers (hcont.1 h)
      rw [heq, if_neg (by omega), if_neg (by omega), if_pos hq, if_neg hnot]
      refine ⟨_, rfl, ?_, fun h => absurd h hothers, fun _ => ⟨?_, ?_⟩⟩
      · simp only [Function.update_same]
        rw [← hid]
        exact Table.find_erase_self SupplyChain.Cargo.primary_key _ _ hunique
      · simp only [Function.update_same]
        rw [← hmid]
        exact Table.find_erase_self SupplyChain.Manifest.primary_key _ _ hmunique
      · intro id hne
        simp only [Function.update_same]
        exact Table.find_erase_other _ _ _ _ (by rw [← hmid] at hne; exact hne)
  · rintro (hz | hlt)
    · rw [heq, if_pos hz]
      exact ⟨_, rfl⟩
    · by_cases hz : q = 0
      · rw [heq, if_pos hz]
        exact ⟨_, rfl⟩
      · rw [heq, if_neg hz, if_pos hlt]
        exact ⟨_, rfl⟩
  · intro db' h
    rw [heq] at h
    by_cases hz : q = 0
    · rw [if_pos hz] at h
      cases h
    rw [if_neg hz] at h
    by_cases hlt : cargo.quantity < q
    · rw [if_pos hlt] at h
      cases h
    rw [if_neg hlt] at h
    have herase : (∀ id, id ≠ cargoId →
          Table.find SupplyChain.Cargo.primary_key
              (Table.erase SupplyChain.Cargo.primary_key (db.cargo carrier) cargo) id =
            Table.find SupplyChain.Cargo.primary_key (db.cargo carrier) id) ∧
        (Table.erase SupplyChain.Cargo.primary_key (db.cargo carrier) cargo).filter
            (fun r => r.id != cargoId) =
          (db.cargo carrier).filter (fun r => r.id != cargoId) := by
      refine ⟨fun id hne => Table.find_erase_other _ _ _ _ (by rw [← hid] at hne; exact hne), ?_⟩
      rw [← hid]
      exact Table.filter_erase SupplyChain.Cargo.primary_key _ _
    by_cases he : q = cargo.quantity
    · rw [if_pos he] at h
      split at h <;> cases h <;> simp only [Function.update_same] <;>
        exact ⟨herase.1, herase.2, fun other hne => Function.update_noteq hne _ _,
          trivial, trivial⟩
    · rw [if_neg he] at h
      cases h
      simp only [Function.update_same]
      refine ⟨?_, ?_, fun other hne => Function.update_noteq hne _ _, trivial, trivial⟩
      · intro id hne
        exact Table.find_modify_other _ _ _ _ _ _ (by rw [← hid] at hne; exact hne) hkey
      · rw [← hid]
        exact Table.filter_modify SupplyChain.Cargo.primary_key _ _ _ _ hkey

/-- Witness for C29: removing all 10 units of lumber erases the entry; the
graphite entry still references manifest 0, which is kept. -/
theorem removeCargo_postcondition_witness :
    ∃ db', SupplyChain.removeCargo SupplyChain.exampleCarrierContext SupplyChain.exampleShipped
        300 0 1 10 "Testing" = .ok db' ∧
      Table.find SupplyChain.Cargo.primary_key (db'.cargo 300) 1 = none :=
  match (removeCargo_postcondition SupplyChain.exampleCarrierContext SupplyChain.exampleShipped
      300 0 1 10 "Testing" ⟨0, "first load", 1⟩ ⟨1, 0, "lumber", 5, [7], 10⟩ (by decide)
      (by decide) rfl rfl (by decide) (by decide) (by decide)).2.1 (by decide) rfl with
  | ⟨db', hok, hgone, _, _⟩ => ⟨db', hok, hgone⟩

/-- C30: `deleteWarehouse`, called by the authorized manager with admissible
documentation on an existing warehouse (warehouse ids unique).  If the
warehouse still has an inventory record and `removeInventory` is false, the
call fails, whatever the fuel, and yields no new state.  Otherwise the erase
loop, each iteration of which removes one row, ends within as many iterations
as the stock table has rows, and afterwards the warehouse record is absent, the
warehouse's stock table is empty and every other warehouse record is
unchanged. -/
theorem deleteWarehouse_postcondition (ctx : SupplyChain.Context) (db : SupplyChain.Database)
    (warehouseId : WarehouseId) (manager : AccountHandle) (removeInventory : Bool)
    (documentation : String) (warehouse : SupplyChain.Warehouse)
    (hauth : manager ∈ ctx.authorizations)
    (hdoc : documentation.length ≤ SupplyChain.MAX_DESCRIPTION_SIZE)
    (hw : Table.find SupplyChain.Warehouse.primary_key db.warehouses warehouseId = some warehouse)
    (hmanager : warehouse.manager = manager)
    (hunique : (db.warehouses.map SupplyChain.Warehouse.primary_key).Nodup) :
    (db.stock warehouseId ≠ [] → removeInventory = false →
        ∀ fuel, SupplyChain.deleteWarehouse fuel ctx db warehouseId manager removeInventory
          documentation = some (.error (.VerifyFailed "Cannot delete warehouse"))) ∧
      (∀ (stock : List SupplyChain.Inventory) (first : SupplyChain.Inventory),
        Table.begin stock = some first →
        (Table.erase SupplyChain.Inventory.primary_key stock first).length < stock.length) ∧
      ((db.stock warehouseId = [] ∨ removeInventory = true) →
        ∀ fuel, (db.stock warehouseId).length ≤ fuel →
        ∃ db', SupplyChain.deleteWarehouse fuel ctx db warehouseId manager removeInventory
            documentation = some (.ok db') ∧
          Table.find SupplyChain.Warehouse.primary_key db'.warehouses warehouseId = none ∧
          db'.stock warehouseId = [] ∧
          (∀ id, id ≠ warehouseId →
            Table.find SupplyChain.Warehouse.primary_key db'.warehouses id =
              Table.find SupplyChain.Warehouse.primary_key db.warehouses id) ∧
          db'.warehouses.filter (fun r => r.id != warehouseId) =
            db.warehouses.filter (fun r => r.id != warehouseId) ∧
          (∀ other, other ≠ warehouseId → db'.stock other = db.stock other) ∧
          db'.manifests = db.manifests ∧ db'.cargo = db.cargo) := by
  have hid : warehouse.id = warehouseId := Table.find_key hw
  have hgone : Table.find SupplyChain.Warehouse.primary_key
      (Table.erase SupplyChain.Warehouse.primary_key db.warehouses warehouse) warehouseId =
      none := by
    rw [← hid]
    exact Table.find_erase_self SupplyChain.Warehouse.primary_key _ _ hunique
  have hothers : ∀ id, id ≠ warehouseId →
      Table.find SupplyChain.Warehouse.primary_key
          (Table.erase SupplyChain.Warehouse.primary_key db.warehouses warehouse) id =
        Table.find SupplyChain.Warehouse.primary_key db.warehouses id :=
    fun id hne => Table.find_erase_other _ _ _ _ (by rw [← hid] at hne; exact hne)
  have hfilter : (Table.erase SupplyChain.Warehouse.primary_key db.warehouses warehouse).filter
      (fun r => r.id != warehouseId) = db.warehouses.filter (fun r => r.id != warehouseId) := by
    rw [← hid]
    exact Table.filter_erase SupplyChain.Warehouse.primary_key _ _
  refine ⟨?_, ?_, ?_⟩
  · intro hne hfalse fuel
    rw [SupplyChain.deleteWarehouse_eq fuel removeInventory hauth hdoc hw hmanager, if_neg hne,
      if_neg (by simp [hfalse])]
  · intro stock first hbegin
    have := SupplyChain.deleteWarehouse.erase_begin_length stock first hbegin
    omega
  · intro hcase fuel hfuel
    rw [SupplyChain.deleteWarehouse_eq fuel removeInventory hauth hdoc hw hmanager]
    by_cases hempty : db.stock warehouseId = []
    · rw [if_pos hempty]
      refine ⟨_, rfl, hgone, ?_, hothers, hfilter,
        fun other hne => Function.update_noteq hne _ _, rfl, rfl⟩
      show Function.update db.stock warehouseId (db.stock warehouseId) warehouseId = []
      rw [Function.update_same]
      exact hempty
    · have hremove : removeInventory = true := hcase.resolve_left hempty
      rw [if_neg hempty, if_pos hremove,
        SupplyChain.deleteWarehouse.eraseAll_of_le fuel _ hfuel]
      refine ⟨_, rfl, hgone, Function.update_same _ _ _, hothers, hfilter,
        fun other hne => Function.update_noteq hne _ _, rfl, rfl⟩

/-- Witness for C30: deleting warehouse 1 with its two inventory records, fuel 2. -/
theorem deleteWarehouse_postcondition_witness :
    ∃ db', SupplyChain.deleteWarehouse 2 SupplyChain.exampleContext SupplyChain.exampleDatabase
        1 100 true "Testing" = some (.ok db') ∧
      Table.find SupplyChain.Warehouse.primary_key db'.warehouses 1 = none ∧
      db'.stock 1 = [] :=
  match (deleteWarehouse_postcondition SupplyChain.exampleContext SupplyChain.exampleDatabase
      1 100 true "Testing" ⟨1, 100, "north"⟩ (by decide) (by decide) rfl rfl
      (by decide)).2.2 (Or.inr rfl) 2 (by decide) with
  | ⟨db', hok, hgone, hempty, _⟩ => ⟨db', hok, hgone, hempty⟩

/-- C25: `transferInventory` with a pick list `L` (ids ascending, as in a
`std::map`; source ids unique; quantities within `uint32_t`): after a
successful call the destination stock is the old one followed by one new
record per `(id, t)` of `L`, in order, with the source record's description
and quantity `t`; the source record under `id` is erased when `deleteConsumed`
is set and `t` is its whole stock, and else has its quantity reduced by `t`;
and the call fails when source and destination warehouse are the same. -/
theorem transferInventory_postcondition (ctx : SupplyChain.Context)
    (db : SupplyChain.Database) (sourceWarehouseId : WarehouseId)
    (sourceManager : AccountHandle) (destinationWarehouseId : WarehouseId)
    (destinationManager : AccountHandle) (L : List (Nat × Nat)) (deleteConsumed : Bool)
    (documentation : String)
    (hsorted : L.Pairwise (fun a b => a.1 < b.1))
    (hunique : ((db.stock sourceWarehouseId).map SupplyChain.Inventory.primary_key).Nodup)
    (hquantity : ∀ r ∈ db.stock sourceWarehouseId, r.quantity < 2 ^ 32) :
    (∀ db', SupplyChain.transferInventory ctx db sourceWarehouseId sourceManager
          destinationWarehouseId destinationManager L deleteConsumed documentation = .ok db' →
        (∃ news, db'.stock destinationWarehouseId = db.stock destinationWarehouseId ++ news ∧
          List.Forall₂ (fun e n => ∃ r,
            Table.find SupplyChain.Inventory.primary_key (db.stock sourceWarehouseId) e.1 =
              some r ∧
            n.description = r.description ∧ n.quantity = e.2) L news) ∧
        (∀ e ∈ L, ∃ r,
          Table.find SupplyChain.Inventory.primary_key (db.stock sourceWarehouseId) e.1 =
            some r ∧
          Table.find SupplyChain.Inventory.primary_key (db'.stock sourceWarehouseId) e.1 =
            if deleteConsumed = true ∧ e.2 = r.quantity then none
            else some ⟨r.id, r.description, r.origin, r.movement, r.quantity - e.2⟩)) ∧
      (sourceWarehouseId = destinationWarehouseId →
        ∃ failure, SupplyChain.transferInventory ctx db sourceWarehouseId sourceManager
          destinationWarehouseId destinationManager L deleteConsumed documentation =
            .error failure) := by
  constructor
  · intro db' h
    obtain ⟨hne, picked, s', d', hpicked, hloop, hdb⟩ := SupplyChain.transferInventory_ok h
    rw [SupplyChain.transferInventory_loop_eq] at hloop
    have hamounts := SupplyChain.processPickList_amounts _ _ _ _ _ hsorted hpicked
    have hkey : ∀ n x, SupplyChain.Inventory.primary_key (SupplyChain.Inventory.subtract n x) =
        SupplyChain.Inventory.primary_key x := fun _ _ => rfl
    obtain ⟨⟨news, hd, hnews⟩, hsource, _⟩ := SupplyChain.PickLoop.outcome _ _ _ _ _ _ _ _ _ _ _
      _ _ _ _ hkey hsorted hunique
      (SupplyChain.processPickList_rows _ _ _ _ _ hsorted hpicked) hloop
    have hdst : db'.stock destinationWarehouseId = d' := by
      rw [hdb]
      exact Function.update_same _ _ _
    have hsrc : db'.stock sourceWarehouseId = s' := by
      rw [hdb]
      show Function.update _ _ _ _ = _
      rw [Function.update_noteq hne, Function.update_same]
    refine ⟨⟨news, by rw [hdst, hd], hnews.imp ?_⟩, ?_⟩
    · rintro e n ⟨r, newId, hf, hn⟩
      exact ⟨r, hf, by rw [hn], by rw [hn]⟩
    · intro e he
      obtain ⟨r, hf, _, hafter⟩ := hsource e he
      obtain ⟨r', hf', _, hle⟩ := hamounts e he
      rw [hf] at hf'
      cases hf'
      refine ⟨r, hf, ?_⟩
      rw [hsrc, hafter]
      by_cases hc : deleteConsumed = true ∧ e.2 = r.quantity
      · rw [if_pos hc, if_pos (by simp [hc.1, hc.2])]
      · rw [if_neg hc, if_neg (by simpa using hc), SupplyChain.Inventory.subtract_inventory_eq,
          uint32_sub_eq _ _ hle (hquantity r (Table.find_mem hf))]
  · intro heq
    cases hres : SupplyChain.transferInventory ctx db sourceWarehouseId sourceManager
        destinationWarehouseId destinationManager L deleteConsumed documentation with
    | error failure => exact ⟨failure, rfl⟩
    | ok db' => exact absurd heq (SupplyChain.transferInventory_ok hres).1

/-- Witness for C25: moving all 40 units of graphite and 4 of the 10 units of
lumber from warehouse 1 to warehouse 2 with `deleteConsumed` set erases the
graphite record of warehouse 1. -/
theorem transferInventory_postcondition_witness :
    ∃ db', SupplyChain.transferInventory SupplyChain.exampleContext SupplyChain.exampleDatabase
        1 100 2 200 [(1, 40), (2, 4)] true "Moving" = .ok db' ∧
      Table.find SupplyChain.Inventory.primary_key (db'.stock 1) 1 = none := by
  obtain ⟨db', hok⟩ : ∃ db', SupplyChain.transferInventory SupplyChain.exampleContext
      SupplyChain.exampleDatabase 1 100 2 200 [(1, 40), (2, 4)] true "Moving" = .ok db' :=
    ⟨_, rfl⟩
  obtain ⟨r, hr, hafter⟩ := ((transferInventory_postcondition SupplyChain.exampleContext
    SupplyChain.exampleDatabase 1 100 2 200 [(1, 40), (2, 4)] true "Moving" (by decide)
    (by decide) (by decide)).1 db' hok).2 (1, 40) (by decide)
  have hrow : Table.find SupplyChain.Inventory.primary_key
      (SupplyChain.exampleDatabase.stock 1) 1 = some ⟨1, "graphite", 5, [], 40⟩ := rfl
  rw [hrow] at hr
  cases hr
  exact ⟨db', hok, by rw [hafter, if_pos ⟨rfl, rfl⟩]⟩

/-- C26: `shipInventory` with a pick list `L` (ids ascending, as in a `std::map`;
stock ids unique; quantities within `uint32_t`): after a successful call the
carrier's manifest table is the old one followed by exactly one manifest, under
an id no old manifest has, with the shipping warehouse as sender and the
documentation as description; the carrier's cargo table is the old one followed
by one record per `(id, q)` of `L`, in order, with that manifest id, the
inventory record's description and quantity `q`; the inventory record under
`id` is erased when `deleteConsumed` is set and `q` is its whole stock, and else
reduced by `q`; and all other inventory is unchanged. -/
theorem shipInventory_postcondition (ctx : SupplyChain.Context) (db : SupplyChain.Database)
    (warehouseId : WarehouseId) (manager carrier : AccountHandle) (L : List (Nat × Nat))
    (deleteConsumed : Bool) (documentation : String) (db' : SupplyChain.Database)
    (hsorted : L.Pairwise (fun a b => a.1 < b.1))
    (hunique : ((db.stock warehouseId).map SupplyChain.Inventory.primary_key).Nodup)
    (hquantity : ∀ r ∈ db.stock warehouseId, r.quantity < 2 ^ 32)
    (h : SupplyChain.shipInventory ctx db warehouseId manager carrier L deleteConsumed
      documentation = .ok db') :
    ∃ m, db'.manifests carrier = db.manifests carrier ++ [m] ∧
      (∀ x ∈ db.manifests carrier, x.id ≠ m.id) ∧
      m.sender = warehouseId ∧ m.description = documentation ∧
      (∀ other, other ≠ carrier → db'.manifests other = db.manifests other) ∧
      (∃ news, db'.cargo carrier = db.cargo carrier ++ news ∧
        List.Forall₂ (fun e n => ∃ r,
          Table.find SupplyChain.Inventory.primary_key (db.stock warehouseId) e.1 = some r ∧
          n.manifest = m.id ∧ n.description = r.description ∧ n.quantity = e.2) L news) ∧
      (∀ other, other ≠ carrier → db'.cargo other = db.cargo other) ∧
      (∀ e ∈ L, ∃ r,
        Table.find SupplyChain.Inventory.primary_key (db.stock warehouseId) e.1 = some r ∧
        Table.find SupplyChain.Inventory.primary_key (db'.stock warehouseId) e.1 =
          if deleteConsumed = true ∧ e.2 = r.quantity then none
          else some ⟨r.id, r.description, r.origin, r.movement, r.quantity - e.2⟩) ∧
      (∀ id, (∀ e ∈ L, e.1 ≠ id) →
        Table.find SupplyChain.Inventory.primary_key (db'.stock warehouseId) id =
          Table.find SupplyChain.Inventory.primary_key (db.stock warehouseId) id) ∧
      (∀ other, other ≠ warehouseId → db'.stock other = db.stock other) := by
  obtain ⟨picked, s', c', hpicked, hloop, hdb⟩ := SupplyChain.shipInventory_ok h
  rw [SupplyChain.shipInventory_loop_eq] at hloop
  have hamounts := SupplyChain.processPickList_amounts _ _ _ _ _ hsorted hpicked
  have hkey : ∀ n x, SupplyChain.Inventory.primary_key (SupplyChain.Inventory.subtract n x) =
      SupplyChain.Inventory.primary_key x := fun _ _ => rfl
  obtain ⟨⟨news, hd, hnews⟩, hsource, hothers⟩ := SupplyChain.PickLoop.outcome _ _ _ _ _ _ _ _ _
    _ _ _ _ _ _ hkey hsorted hunique
    (SupplyChain.processPickList_rows _ _ _ _ _ hsorted hpicked) hloop
  have hstock : db'.stock warehouseId = s' := by
    rw [hdb]
    exact Function.update_same _ _ _
  refine ⟨⟨Table.nextId SupplyChain.Manifest.primary_key (db.manifests carrier),
    documentation, warehouseId⟩, ?_, ?_, rfl, rfl, ?_, ⟨news, ?_, hnews.imp ?_⟩, ?_, ?_, ?_, ?_⟩
  · rw [hdb]
    exact Function.update_same _ _ _
  · intro x hx
    exact Nat.ne_of_lt (Table.nextId_gt SupplyChain.Manifest.primary_key _ x hx)
  · intro other hne
    rw [hdb]
    exact Function.update_noteq hne _ _
  · rw [hdb, ← hd]
    exact Function.update_same _ _ _
  · rintro e n ⟨r, newId, hf, hn⟩
    exact ⟨r, hf, by rw [hn], by rw [hn], by rw [hn]⟩
  · intro other hne
    rw [hdb]
    exact Function.update_noteq hne _ _
  · intro e he
    obtain ⟨r, hf, _, hafter⟩ := hsource e he
    obtain ⟨r', hf', _, hle⟩ := hamounts e he
    rw [hf] at hf'
    cases hf'
    refine ⟨r, hf, ?_⟩
    rw [hstock, hafter]
    by_cases hc : deleteConsumed = true ∧ e.2 = r.quantity
    · rw [if_pos hc, if_pos (by simp [hc.1, hc.2])]
    · rw [if_neg hc, if_neg (by simpa using hc), SupplyChain.Inventory.subtract_inventory_eq,
        uint32_sub_eq _ _ hle (hquantity r (Table.find_mem hf))]
  · intro id hid
    rw [hstock]
    exact hothers id hid
  · intro other hne
    rw [hdb]
    exact Function.update_noteq hne _ _

/-- Witness for C26: shipping all graphite and 4 units of lumber from warehouse 1
with carrier 300 gives the carrier one manifest, sent by warehouse 1. -/
theorem shipInventory_postcondition_witness :
    ∃ db' m, SupplyChain.shipInventory SupplyChain.exampleCarrierContext
        SupplyChain.exampleDatabase 1 100 300 [(1, 40), (2, 4)] true "load" = .ok db' ∧
      db'.manifests 300 = [m] ∧ m.sender = 1 ∧ m.description = "load" := by
  obtain ⟨db', hok⟩ : ∃ db', SupplyChain.shipInventory SupplyChain.exampleCarrierContext
      SupplyChain.exampleDatabase 1 100 300 [(1, 40), (2, 4)] true "load" = .ok db' :=
    ⟨_, rfl⟩
  obtain ⟨m, hm, _, hsender, hdescription, _⟩ := shipInventory_postcondition
    SupplyChain.exampleCarrierContext SupplyChain.exampleDatabase 1 100 300 [(1, 40), (2, 4)]
    true "load" db' (by decide) (by decide) (by decide) hok
  exact ⟨db', m, hok, hm, hsender, hdescription⟩

/-- C27: `deliverCargo`, with `S` the given submanifest or, when it is empty,
every cargo entry of the manifest at its full quantity (submanifest ids
ascending, as in a `std::map`; cargo rows in ascending order of unique ids;
manifest ids unique; quantities within `uint32_t`): after a successful call
the warehouse stock is the old one followed by one record per `(id, q)` of
`S`, in order, with the cargo's description and quantity `q`; the cargo entry
under `id` belongs to the manifest and is erased when `q` is its quantity,
and else reduced by `q`; the manifest record is gone if and only if no cargo
entry of the carrier has the manifest's index key afterwards; and with an
empty submanifest no cargo of the manifest is left and the manifest is gone. -/
theorem deliverCargo_postcondition (ctx : SupplyChain.Context) (db : SupplyChain.Database)
    (carrier : AccountHandle) (warehouseId : WarehouseId) (manager : AccountHandle)
    (manifestId : ManifestId) (submanifest : List (Nat × Nat)) (documentation : String)
    (db' : SupplyChain.Database)
    (hsorted : submanifest.Pairwise (fun a b => a.1 < b.1))
    (hstock : (db.cargo carrier).Pairwise (fun a b => a.id < b.id))
    (hquantity : ∀ c ∈ db.cargo carrier, c.quantity < 2 ^ 32)
    (hmunique : ((db.manifests carrier).map SupplyChain.Manifest.primary_key).Nodup)
    (h : SupplyChain.deliverCargo ctx db carrier warehouseId manager manifestId submanifest
      documentation = .ok db') :
    (∃ news, db'.stock warehouseId = db.stock warehouseId ++ news ∧
        List.Forall₂ (fun e n => ∃ c,
          Table.find SupplyChain.Cargo.primary_key (db.cargo carrier) e.1 = some c ∧
          n.description = c.description ∧ n.quantity = e.2)
          (SupplyChain.effectiveSubmanifest (db.cargo carrier) manifestId submanifest) news) ∧
      (∀ e ∈ SupplyChain.effectiveSubmanifest (db.cargo carrier) manifestId submanifest, ∃ c,
        Table.find SupplyChain.Cargo.primary_key (db.cargo carrier) e.1 = some c ∧
        c.manifest = manifestId ∧
        Table.find SupplyChain.Cargo.primary_key (db'.cargo carrier) e.1 =
          if e.2 = c.quantity then none
          else some ⟨c.id, c.manifest, c.description, c.origin, c.movement,
            c.quantity - e.2⟩) ∧
      (Table.find SupplyChain.Manifest.primary_key (db'.manifests carrier) manifestId = none ↔
        ∀ c ∈ db'.cargo carrier, c.manifest_key ≠ SupplyChain.manifestKey manifestId) ∧
      (submanifest = [] →
        (∀ c ∈ db'.cargo carrier, c.manifest_key ≠ SupplyChain.manifestKey manifestId) ∧
        Table.find SupplyChain.Manifest.primary_key (db'.manifests carrier) manifestId =
          none) := by
  obtain ⟨manifest, S, picked, s', d', hmanifest, hpick, hloop, hdb⟩ :=
    SupplyChain.deliverCargo_ok h
  rw [SupplyChain.deliverCargo_loop_eq] at hloop
  obtain ⟨hS, ⟨news, hd, hnews⟩, hsource, _, hempty⟩ := SupplyChain.CargoLoop.cargo_outcome _ _ _ _ _
    manifestId submanifest S picked _ s' _ d' hsorted hstock hquantity hpick hloop
  have hcargo : db'.cargo carrier = s' := by
    rw [hdb]
    exact Function.update_same _ _ _
  have hmanifests : db'.manifests carrier =
      if (!Table.contains SupplyChain.Cargo.manifest_key s'
          (SupplyChain.manifestKey manifestId)) = true then
        Table.erase SupplyChain.Manifest.primary_key (db.manifests carrier) manifest
      else db.manifests carrier := by
    rw [hdb]
    exact Function.update_same _ _ _
  have hiff : Table.find SupplyChain.Manifest.primary_key (db'.manifests carrier) manifestId =
      none ↔ ∀ c ∈ db'.cargo carrier, c.manifest_key ≠ SupplyChain.manifestKey manifestId := by
    rw [hmanifests, hcargo]
    exact SupplyChain.manifest_erased_iff _ _ _ _ hmunique hmanifest
  rw [← hS]
  refine ⟨⟨news, ?_, hnews.imp ?_⟩, ?_, hiff, ?_⟩
  · rw [hdb, ← hd]
    exact Function.update_same _ _ _
  · rintro e n ⟨c, newId, hf, hn⟩
    exact ⟨c, hf, by rw [hn], by rw [hn]⟩
  · rw [hcargo]
    exact hsource
  · intro hnil
    have hnone : ∀ c ∈ db'.cargo carrier,
        c.manifest_key ≠ SupplyChain.manifestKey manifestId := by
      rw [hcargo]
      exact hempty hnil
    exact ⟨hnone, hiff.2 hnone⟩

/-- Witness for C27: delivering manifest 0 of carrier 300 to warehouse 1 with an
empty submanifest leaves no cargo of the manifest and removes the manifest. -/
theorem deliverCargo_postcondition_witness :
    ∃ db', SupplyChain.deliverCargo SupplyChain.exampleCarrierContext SupplyChain.exampleShipped
        300 1 100 0 [] "Delivered" = .ok db' ∧
      (∀ c ∈ db'.cargo 300, c.manifest_key ≠ SupplyChain.manifestKey 0) ∧
      Table.find SupplyChain.Manifest.primary_key (db'.manifests 300) 0 = none := by
  obtain ⟨db', hok⟩ : ∃ db', SupplyChain.deliverCargo SupplyChain.exampleCarrierContext
      SupplyChain.exampleShipped 300 1 100 0 [] "Delivered" = .ok db' := ⟨_, rfl⟩
  exact ⟨db', hok, (deliverCargo_postcondition SupplyChain.exampleCarrierContext
    SupplyChain.exampleShipped 300 1 100 0 [] "Delivered" db' (by decide) (by decide)
    (by decide) (by decide) hok).2.2.2 rfl⟩

/-- C28, counterexample: carrier 300 holds manifest 0 without cargo (the state
`shipInventory` with an empty pick list produces).  The transfer of that
manifest to the different carrier 400 with an empty submanifest succeeds, yet
carrier 400 gains no manifest: its manifest table stays empty, while the
manifest of carrier 300 is erased. -/
theorem transferCargo_empty_manifest :
    (∃ shipped, SupplyChain.shipInventory SupplyChain.exampleCarrierContext
        SupplyChain.exampleDatabase 1 100 300 [] true "empty load" = .ok shipped ∧
      shipped.manifests 300 = SupplyChain.exampleEmptyManifest.manifests 300 ∧
      shipped.cargo 300 = SupplyChain.exampleEmptyManifest.cargo 300) ∧
    ∃ db', SupplyChain.transferCargo SupplyChain.exampleCarrierContext
        SupplyChain.exampleEmptyManifest 300 400 0 [] "Handover" = .ok db' ∧
      (300 : AccountHandle) ≠ 400 ∧
      SupplyChain.exampleEmptyManifest.manifests 400 = [] ∧
      db'.manifests 400 = [] ∧
      db'.cargo 400 = [] ∧
      db'.manifests 300 = [] :=
  ⟨⟨_, rfl, rfl, rfl⟩, ⟨_, rfl, by decide, rfl, rfl, rfl, rfl⟩⟩

/-- C28, amended: `transferCargo` with effective submanifest `S` (the given
submanifest, or the whole manifest when it is empty; submanifest ids ascending,
as in a `std::map`; cargo rows in ascending order of unique ids; manifest ids
unique; quantities within `uint32_t`).  When `S` is not empty, after a
successful call the carriers differ; the destination's manifest table is the
old one followed by exactly one manifest, under an id no old manifest has,
with the source manifest's sender and the documentation as description; the
destination's cargo table is the old one followed by one record per `(id, q)`
of `S`, in order, under that new manifest, with the source cargo's description
and quantity `q`; the source cargo under `id` belongs to the manifest and is
erased when `q` is its quantity, and else reduced by `q`; and the source
manifest is gone if and only if no source cargo has the manifest's index key
afterwards.  When `S` is empty (the given submanifest is empty and the manifest
has no cargo), every successful call erases the source manifest and changes
nothing else, so the destination gains no manifest and no cargo; and the call
does succeed, also for equal carriers, once both carriers authorized, the
documentation has at most 250 characters and the manifest exists. -/
theorem transferCargo_postcondition (ctx : SupplyChain.Context) (db : SupplyChain.Database)
    (sourceCarrier destinationCarrier : AccountHandle) (manifestId : ManifestId)
    (submanifest : List (Nat × Nat)) (documentation : String)
    (hsorted : submanifest.Pairwise (fun a b => a.1 < b.1))
    (hstock : (db.cargo sourceCarrier).Pairwise (fun a b => a.id < b.id))
    (hquantity : ∀ c ∈ db.cargo sourceCarrier, c.quantity < 2 ^ 32)
    (hmunique : ((db.manifests sourceCarrier).map SupplyChain.Manifest.primary_key).Nodup) :
    (SupplyChain.effectiveSubmanifest (db.cargo sourceCarrier) manifestId submanifest ≠ [] →
        ∀ db', SupplyChain.transferCargo ctx db sourceCarrier destinationCarrier manifestId
          submanifest documentation = .ok db' →
        sourceCarrier ≠ destinationCarrier ∧
        ∃ manifest m,
          Table.find SupplyChain.Manifest.primary_key (db.manifests sourceCarrier) manifestId =
            some manifest ∧
          db'.manifests destinationCarrier = db.manifests destinationCarrier ++ [m] ∧
          (∀ x ∈ db.manifests destinationCarrier, x.id ≠ m.id) ∧
          m.sender = manifest.sender ∧ m.description = documentation ∧
          (∃ news, db'.cargo destinationCarrier = db.cargo destinationCarrier ++ news ∧
            List.Forall₂ (fun e n => ∃ c,
              Table.find SupplyChain.Cargo.primary_key (db.cargo sourceCarrier) e.1 = some c ∧
              n.manifest = m.id ∧ n.description = c.description ∧ n.quantity = e.2)
              (SupplyChain.effectiveSubmanifest (db.cargo sourceCarrier) manifestId
                submanifest)
              news) ∧
          (∀ e ∈ SupplyChain.effectiveSubmanifest (db.cargo sourceCarrier) manifestId
              submanifest, ∃ c,
            Table.find SupplyChain.Cargo.primary_key (db.cargo sourceCarrier) e.1 = some c ∧
            c.manifest = manifestId ∧
            Table.find SupplyChain.Cargo.primary_key (db'.cargo sourceCarrier) e.1 =
              if e.2 = c.quantity then none
              else some ⟨c.id, c.manifest, c.description, c.origin, c.movement,
                c.quantity - e.2⟩) ∧
          (Table.find SupplyChain.Manifest.primary_key (db'.manifests sourceCarrier)
              manifestId = none ↔
            ∀ c ∈ db'.cargo sourceCarrier,
              c.manifest_key ≠ SupplyChain.manifestKey manifestId)) ∧
      (SupplyChain.effectiveSubmanifest (db.cargo sourceCarrier) manifestId submanifest = [] →
        (∀ db', SupplyChain.transferCargo ctx db sourceCarrier destinationCarrier manifestId
            submanifest documentation = .ok db' →
          ∃ manifest,
            Table.find SupplyChain.Manifest.primary_key (db.manifests sourceCarrier)
              manifestId = some manifest ∧
            db'.manifests sourceCarrier =
              Table.erase SupplyChain.Manifest.primary_key (db.manifests sourceCarrier)
                manifest ∧
            Table.find SupplyChain.Manifest.primary_key (db'.manifests sourceCarrier)
              manifestId = none ∧
            (∀ id, id ≠ manifestId →
              Table.find SupplyChain.Manifest.primary_key (db'.manifests sourceCarrier) id =
                Table.find SupplyChain.Manifest.primary_key (db.manifests sourceCarrier)
                  id) ∧
            (∀ other, other ≠ sourceCarrier → db'.manifests other = db.manifests other) ∧
            db'.cargo = db.cargo ∧ db'.stock = db.stock ∧ db'.warehouses = db.warehouses) ∧
        (sourceCarrier ∈ ctx.authorizations → destinationCarrier ∈ ctx.authorizations →
          documentation.length ≤ SupplyChain.MAX_DESCRIPTION_SIZE →
          (∃ manifest, Table.find SupplyChain.Manifest.primary_key
            (db.manifests sourceCarrier) manifestId = some manifest) →
          ∃ db', SupplyChain.transferCargo ctx db sourceCarrier destinationCarrier manifestId
            submanifest documentation = .ok db')) := by
  constructor
  · intro hnonempty db' h
    obtain ⟨manifest, hmanifest, hcase⟩ := SupplyChain.transferCargo_ok h
    rcases hcase with ⟨hnil, hrange, _⟩ | ⟨S, picked, hpick, _, hcommit⟩
    · exact absurd ((SupplyChain.effectiveSubmanifest_eq_nil _ _ _).2 ⟨hnil, hrange⟩) hnonempty
    obtain ⟨hne, s', d', hloop, hdb⟩ := SupplyChain.transferCargo.commit_ok hcommit
    rw [SupplyChain.transferCargo_loop_eq] at hloop
    obtain ⟨hS, ⟨news, hd, hnews⟩, hsource, _, _⟩ := SupplyChain.CargoLoop.cargo_outcome _ _ _ _
      _ manifestId submanifest S picked _ s' _ d' hsorted hstock hquantity hpick hloop
    have hcargo : db'.cargo sourceCarrier = s' := by
      rw [hdb]
      exact Function.update_same _ _ _
    have hmanifests : db'.manifests sourceCarrier =
        if (!Table.contains SupplyChain.Cargo.manifest_key s'
            (SupplyChain.manifestKey manifestId)) = true then
          Table.erase SupplyChain.Manifest.primary_key (db.manifests sourceCarrier) manifest
        else db.manifests sourceCarrier := by
      rw [hdb]
      exact Function.update_same _ _ _
    rw [← hS]
    refine ⟨hne, manifest, ⟨Table.nextId SupplyChain.Manifest.primary_key
      (db.manifests destinationCarrier), documentation, manifest.sender⟩, hmanifest, ?_, ?_,
      rfl, rfl, ⟨news, ?_, hnews.imp ?_⟩, ?_, ?_⟩
    · rw [hdb]
      show Function.update _ _ _ _ = _
      rw [Function.update_noteq (Ne.symm hne), Function.update_same]
    · intro x hx
      exact Nat.ne_of_lt (Table.nextId_gt SupplyChain.Manifest.primary_key _ x hx)
    · rw [hdb, ← hd]
      show Function.update _ _ _ _ = _
      rw [Function.update_noteq (Ne.symm hne), Function.update_same]
    · rintro e n ⟨c, newId, hf, hn⟩
      exact ⟨c, hf, by rw [hn], by rw [hn], by rw [hn]⟩
    · rw [hcargo]
      exact hsource
    · rw [hmanifests, hcargo]
      exact SupplyChain.manifest_erased_iff _ _ _ _ hmunique hmanifest
  · intro hempty
    obtain ⟨hnil, hrange⟩ := (SupplyChain.effectiveSubmanifest_eq_nil _ _ _).1 hempty
    constructor
    · intro db' h
      obtain ⟨manifest, hmanifest, hcase⟩ := SupplyChain.transferCargo_ok h
      rcases hcase with ⟨_, _, hdb⟩ | ⟨S, picked, _, hsome, _⟩
      · have hmid : manifest.primary_key = manifestId := Table.find_key hmanifest
        have hm' : db'.manifests sourceCarrier =
            Table.erase SupplyChain.Manifest.primary_key (db.manifests sourceCarrier)
              manifest := by
          rw [hdb]
          exact Function.update_same _ _ _
        refine ⟨manifest, hmanifest, hm', ?_, ?_, ?_, ?_, ?_, ?_⟩
        · rw [hm', ← hmid]
          exact Table.find_erase_self SupplyChain.Manifest.primary_key _ _ hmunique
        · intro id hne
          rw [hm']
          exact Table.find_erase_other _ _ _ _ (by rw [← hmid] at hne; exact hne)
        · intro other hne
          rw [hdb]
          exact Function.update_noteq hne _ _
        · rw [hdb]
        · rw [hdb]
        · rw [hdb]
      · exact absurd hrange (hsome hnil)
    · rintro hsource hdestination hdoc ⟨manifest, hmanifest⟩
      rw [hnil]
      exact ⟨_, SupplyChain.transferCargo_empty_eq hsource hdestination hdoc hmanifest hrange⟩

/-- Witness for C28: carrier 300 hands the whole of manifest 0 over to carrier
400, which gains one manifest, sent by warehouse 1; and carrier 300 can hand a
manifest without cargo over to itself. -/
theorem transferCargo_postcondition_witness :
    (∃ db' m, SupplyChain.transferCargo SupplyChain.exampleCarrierContext
        SupplyChain.exampleShipped 300 400 0 [] "Handover" = .ok db' ∧
      db'.manifests 400 = [m] ∧ m.sender = 1 ∧ m.description = "Handover") ∧
    ∃ db', SupplyChain.transferCargo SupplyChain.exampleCarrierContext
      SupplyChain.exampleEmptyManifest 300 300 0 [] "Handover" = .ok db' := by
  constructor
  · obtain ⟨db', hok⟩ : ∃ db', SupplyChain.transferCargo SupplyChain.exampleCarrierContext
        SupplyChain.exampleShipped 300 400 0 [] "Handover" = .ok db' := ⟨_, rfl⟩
    obtain ⟨_, manifest, m, hfound, hm, _, hsender, hdescription, _⟩ :=
      (transferCargo_postcondition SupplyChain.exampleCarrierContext SupplyChain.exampleShipped
        300 400 0 [] "Handover" (by decide) (by decide) (by decide) (by decide)).1 (by decide)
        db' hok
    have hrow : Table.find SupplyChain.Manifest.primary_key
        (SupplyChain.exampleShipped.manifests 300) 0 = some ⟨0, "first load", 1⟩ := rfl
    rw [hrow] at hfound
    cases hfound
    exact ⟨db', m, hok, hm, hsender, hdescription⟩
  · exact ((transferCargo_postcondition SupplyChain.exampleCarrierContext
      SupplyChain.exampleEmptyManifest 300 300 0 [] "Handover" (by decide) (by decide)
      (by decide) (by decide)).2 (by decide)).2 (by decide) (by decide) (by decide)
      ⟨⟨0, "empty load", 1⟩, rfl⟩

/-- C24: `manufactureInventory` with consume list `C` (ids ascending, as in a
`std::map`; stock ids unique; quantities within `uint32_t`) and produce list `P`:
after a successful call the warehouse stock is the consumed stock followed by
one new record per entry of `P`, in order, with that description and quantity
and under an id no record of the consumed stock has; in the consumed stock the
record under an id of `C` is erased when `deleteConsumed` is set and the
amount is its whole stock, and else has its quantity reduced by the amount,
and every other record is as before; and the call fails if `C` and `P` are
both empty, if a produced quantity is 0, or if a consumed amount is 0, names a
missing record or exceeds that record's stock. -/
theorem manufactureInventory_postcondition (ctx : SupplyChain.Context)
    (db : SupplyChain.Database) (warehouseId : WarehouseId) (manager : AccountHandle)
    (C : List (Nat × Nat)) (P : List (String × Nat)) (deleteConsumed : Bool)
    (documentation : String)
    (hsorted : C.Pairwise (fun a b => a.1 < b.1))
    (hunique : ((db.stock warehouseId).map SupplyChain.Inventory.primary_key).Nodup)
    (hquantity : ∀ r ∈ db.stock warehouseId, r.quantity < 2 ^ 32) :
    (∀ db', SupplyChain.manufactureInventory ctx db warehouseId manager C P deleteConsumed
          documentation = .ok db' →
        ∃ consumed news, db'.stock warehouseId = consumed ++ news ∧
          (∀ e ∈ C, ∃ r,
            Table.find SupplyChain.Inventory.primary_key (db.stock warehouseId) e.1 =
              some r ∧
            Table.find SupplyChain.Inventory.primary_key consumed e.1 =
              if deleteConsumed = true ∧ e.2 = r.quantity then none
              else some ⟨r.id, r.description, r.origin, r.movement, r.quantity - e.2⟩) ∧
          (∀ id, (∀ e ∈ C, e.1 ≠ id) →
            Table.find SupplyChain.Inventory.primary_key consumed id =
              Table.find SupplyChain.Inventory.primary_key (db.stock warehouseId) id) ∧
          List.Forall₂ (fun p n => n.description = p.1 ∧ n.quantity = p.2) P news ∧
          (∀ n ∈ news, ∀ x ∈ consumed, x.id ≠ n.id) ∧
          (∀ other, other ≠ warehouseId → db'.stock other = db.stock other)) ∧
      (C = [] ∧ P = [] →
        ∃ failure, SupplyChain.manufactureInventory ctx db warehouseId manager C P
          deleteConsumed documentation = .error failure) ∧
      ((∃ p ∈ P, p.2 = 0) →
        ∃ failure, SupplyChain.manufactureInventory ctx db warehouseId manager C P
          deleteConsumed documentation = .error failure) ∧
      ((∃ e ∈ C, e.2 = 0 ∨
          Table.find SupplyChain.Inventory.primary_key (db.stock warehouseId) e.1 = none ∨
          ∃ r, Table.find SupplyChain.Inventory.primary_key (db.stock warehouseId) e.1 =
            some r ∧ r.quantity < e.2) →
        ∃ failure, SupplyChain.manufactureInventory ctx db warehouseId manager C P
          deleteConsumed documentation = .error failure) := by
  have hfails : ∀ (bad : Prop),
      (∀ db', SupplyChain.manufactureInventory ctx db warehouseId manager C P deleteConsumed
        documentation = .ok db' → ¬ bad) → bad →
      ∃ failure, SupplyChain.manufactureInventory ctx db warehouseId manager C P
        deleteConsumed documentation = .error failure := by
    intro bad hgood hbad
    cases hres : SupplyChain.manufactureInventory ctx db warehouseId manager C P
        deleteConsumed documentation with
    | error failure => exact ⟨failure, rfl⟩
    | ok db' => exact absurd hbad (hgood db' hres)
  refine ⟨?_, hfails _ ?_, hfails _ ?_, hfails _ ?_⟩
  · intro db' h
    obtain ⟨_, _, picked, stock1, hpicked, hloop, hdb⟩ := SupplyChain.manufactureInventory_ok h
    obtain ⟨d', hrun⟩ := SupplyChain.manufactureInventory.consumeLoop_run manager
      deleteConsumed C picked _ stock1 [] hloop
    have hamounts := SupplyChain.processPickList_amounts _ _ _ _ _ hsorted hpicked
    have hkey : ∀ n x, SupplyChain.Inventory.primary_key (SupplyChain.Inventory.subtract n x) =
        SupplyChain.Inventory.primary_key x := fun _ _ => rfl
    obtain ⟨_, hsource, hothers⟩ := SupplyChain.PickLoop.outcome _ _ _ _ _ _ _ _ _
      _ _ _ _ _ _ hkey hsorted hunique
      (SupplyChain.processPickList_rows _ _ _ _ _ hsorted hpicked) hrun
    obtain ⟨news, hstock, hrel, hfresh, hother⟩ :=
      SupplyChain.manufactureInventory.produceLoop_ok ctx warehouseId manager P
        ⟨db.warehouses, Function.update db.stock warehouseId stock1, db.manifests, db.cargo⟩
    have hupdated : Function.update db.stock warehouseId stock1 warehouseId = stock1 :=
      Function.update_same _ _ _
    refine ⟨stock1, news, ?_, ?_, hothers, hrel.imp (fun _ _ hn => ⟨hn.1, hn.2.1⟩), ?_, ?_⟩
    · rw [hdb, hstock]
      exact congrArg (fun l => l ++ news) hupdated
    · intro e he
      obtain ⟨r, hf, _, hafter⟩ := hsource e he
      obtain ⟨r', hf', _, hle⟩ := hamounts e he
      rw [hf] at hf'
      cases hf'
      refine ⟨r, hf, ?_⟩
      rw [hafter]
      by_cases hc : deleteConsumed = true ∧ e.2 = r.quantity
      · rw [if_pos hc, if_pos (by simp [hc.1, hc.2])]
      · rw [if_neg hc, if_neg (by simpa using hc), SupplyChain.Inventory.subtract_inventory_eq,
          uint32_sub_eq _ _ hle (hquantity r (Table.find_mem hf))]
    · intro n hn x hx
      exact Nat.ne_of_lt (hfresh n hn x (by
        show x ∈ Function.update db.stock warehouseId stock1 warehouseId
        rw [hupdated]
        exact hx))
    · intro other hne
      rw [hdb, hother other hne]
      exact Function.update_noteq hne _ _
  · rintro db' h ⟨hC, hP⟩
    rcases (SupplyChain.manufactureInventory_ok h).1 with hne | hne
    · exact hne hC
    · exact hne hP
  · rintro db' h ⟨p, hp, hzero⟩
    have := (SupplyChain.manufactureInventory.checkProduce_ok P
      (SupplyChain.manufactureInventory_ok h).2.1 p hp).2
    omega
  · rintro db' h ⟨e, he, hbad⟩
    obtain ⟨_, _, picked, _, hpicked, _⟩ := SupplyChain.manufactureInventory_ok h
    obtain ⟨r, hf, hpos, hle⟩ := SupplyChain.processPickList_amounts _ _ _ _ _ hsorted hpicked
      e he
    rcases hbad with hz | hnone | ⟨r', hf', hlt⟩
    · omega
    · rw [hf] at hnone
      cases hnone
    · rw [hf] at hf'
      cases hf'
      have hq : e.2 ≤ r.quantity := hle
      omega

/-- Witness for C24: making 100 pencils out of all 40 units of graphite and 4
units of lumber in warehouse 1, with `deleteConsumed` set, erases the graphite
record and adds one record. -/
theorem manufactureInventory_postcondition_witness :
    ∃ db' consumed news, SupplyChain.manufactureInventory SupplyChain.exampleContext
        SupplyChain.exampleDatabase 1 100 [(1, 40), (2, 4)] [("pencils", 100)] true
        "Making" = .ok db' ∧
      db'.stock 1 = consumed ++ news ∧
      Table.find SupplyChain.Inventory.primary_key consumed 1 = none ∧
      List.Forall₂ (fun p n => n.description = p.1 ∧ n.quantity = p.2) [("pencils", 100)]
        news := by
  obtain ⟨db', hok⟩ : ∃ db', SupplyChain.manufactureInventory SupplyChain.exampleContext
      SupplyChain.exampleDatabase 1 100 [(1, 40), (2, 4)] [("pencils", 100)] true
      "Making" = .ok db' := ⟨_, rfl⟩
  obtain ⟨consumed, news, hstock, hsource, _, hnews, _⟩ :=
    (manufactureInventory_postcondition SupplyChain.exampleContext SupplyChain.exampleDatabase
      1 100 [(1, 40), (2, 4)] [("pencils", 100)] true "Making" (by decide) (by decide)
      (by decide)).1 db' hok
  obtain ⟨r, hr, hafter⟩ := hsource (1, 40) (by decide)
  have hrow : Table.find SupplyChain.Inventory.primary_key
      (SupplyChain.exampleDatabase.stock 1) 1 = some ⟨1, "graphite", 5, [], 40⟩ := rfl
  rw [hrow] at hr
  cases hr
  exact ⟨db', consumed, news, hok, hstock, by rw [hafter, if_pos ⟨rfl, rfl⟩], hnews⟩

/-! ## Behaviour of the layer and of the example contract: claims -/

/-- C38: `MakeStringKey` stops at the first zero byte of its input: with `p` the
first `min(|text|, 32)` bytes of `text` cut before their first zero byte,
`MakeStringKey(text)` equals `MakeStringKey(p)`, it starts with `p`, and all
its bytes from position `|p|` to byte 31 are zero. -/
theorem MakeStringKey_stops_at_zero (text : List Nat) :
    MakeStringKey text =
        MakeStringKey ((text.take (min text.length 32)).takeWhile (fun b => b != 0)) ∧
      MakeStringKey text = (text.take (min text.length 32)).takeWhile (fun b => b != 0) ++
        List.replicate
          (32 - ((text.take (min text.length 32)).takeWhile (fun b => b != 0)).length) 0 ∧
      ∀ i, ((text.take (min text.length 32)).takeWhile (fun b => b != 0)).length ≤ i → i < 32 →
        (MakeStringKey text).get? i = some 0 := by
  have htake : text.take (min text.length 32) = text.take 32 := by
    rcases Nat.le_total text.length 32 with h | h
    · rw [Nat.min_eq_left h, List.take_of_length_le (Nat.le_refl _), List.take_of_length_le h]
    · rw [Nat.min_eq_right h]
  rw [htake]
  have hp : ((text.take 32).takeWhile (fun b => b != 0)).length ≤ 32 := by
    have h1 : ((text.take 32).takeWhile (fun b => b != 0)).length ≤ (text.take 32).length :=
      (List.takeWhile_sublist _).length_le
    rw [List.length_take] at h1
    omega
  have hself : (((text.take 32).takeWhile (fun b => b != 0)).take 32).takeWhile
      (fun b => b != 0) = (text.take 32).takeWhile (fun b => b != 0) := by
    rw [List.take_of_length_le hp, List.takeWhile_eq_self_iff]
    intro b hb
    simpa using takeWhile_ne_zero _ b hb
  refine ⟨?_, MakeStringKey_eq text, ?_⟩
  · rw [MakeStringKey_eq text, MakeStringKey_eq ((text.take 32).takeWhile (fun b => b != 0)),
      hself]
  · intro i hle hlt
    rw [MakeStringKey_eq text, List.get?_eq_getElem?, List.getElem?_append_right hle,
      List.getElem?_replicate]
    rw [if_pos (by omega)]

/-- Witness for C38: in the key of the bytes `'a', 0, 'b'` byte 2 is zero. -/
theorem MakeStringKey_stops_at_zero_witness : (MakeStringKey [97, 0, 98]).get? 2 = some 0 :=
  (MakeStringKey_stops_at_zero [97, 0, 98]).2.2 2 (by decide) (by decide)

/-- C33, counterexample: on `StaticVariant<ID<"warehouses">, uint64_t>` the value
at position 0 and the value at position 1, both of magnitude `2^61`, fail with
one and the same failure: the overflow check's fixed message, which does not
tell the alternatives apart. -/
theorem Decompose_overflow_same_failure :
    (warehouseValue (2 ^ 61)).position ≠ (rawValue (2 ^ 61)).position ∧
      Decompose warehouseOrRaw (by decide) (warehouseValue (2 ^ 61)) =
        .error (.VerifyFailed tooLargeMessage) ∧
      Decompose warehouseOrRaw (by decide) (rawValue (2 ^ 61)) =
        .error (.VerifyFailed tooLargeMessage) ∧
      Decompose warehouseOrRaw (by decide) (warehouseValue (2 ^ 61)) =
        Decompose warehouseOrRaw (by decide) (rawValue (2 ^ 61)) := by
  refine ⟨by decide, rfl, rfl, rfl⟩

/-- C33, amended: when `Decompose` fails because a magnitude is at least `2^61`,
the failure is the `Verify` failure with the fixed message "Variant value is
too large to be decomposed. Please report this error"; it is the same for
every alternative position, so overflow failures of two values are equal. -/
theorem Decompose_overflow_message (Ts : List Alternative) (hN : Ts.length < 0b1000)
    (v w : StaticVariant Ts) (hv : 2 ^ 61 ≤ v.magnitude) (hw : 2 ^ 61 ≤ w.magnitude) :
    Decompose Ts hN v = .error (.VerifyFailed tooLargeMessage) ∧
      Decompose Ts hN v = Decompose Ts hN w := by
  rw [Decompose_eq, Decompose_eq, if_neg (by omega), if_neg (by omega)]
  exact ⟨rfl, rfl⟩

/-- Witness for C33: the values of magnitude `2^61` at positions 0 and 1. -/
theorem Decompose_overflow_message_witness :
    Decompose warehouseOrRaw (by decide) (warehouseValue (2 ^ 61)) =
        .error (.VerifyFailed tooLargeMessage) ∧
      Decompose warehouseOrRaw (by decide) (warehouseValue (2 ^ 61)) =
        Decompose warehouseOrRaw (by decide) (rawValue (2 ^ 61)) :=
  Decompose_overflow_message warehouseOrRaw (by decide) (warehouseValue (2 ^ 61))
    (rawValue (2 ^ 61)) (Nat.le_of_eq rfl) (Nat.le_of_eq rfl)

/-- C32, evaluated on `StaticVariant<uint64_t>` and its extension
`StaticVariant<uint64_t, ID<"warehouses">>`: encoding the maximum sentinel fails
for the original union and for the extended one, with the same overflow
failure, so there are no two sentinel keys of which the second is the
greater. -/
theorem Decompose_MAX_growth_fails :
    Decompose rawOnly (by decide) (Decompose_MAX rawOnly (by decide)) =
        .error (.VerifyFailed tooLargeMessage) ∧
      Decompose rawExtended (by decide) (Decompose_MAX rawExtended (by decide)) =
        .error (.VerifyFailed tooLargeMessage) ∧
      ¬ ∃ k k', Decompose rawOnly (by decide) (Decompose_MAX rawOnly (by decide)) = .ok k ∧
        Decompose rawExtended (by decide) (Decompose_MAX rawExtended (by decide)) = .ok k' ∧
        k < k' := by
  refine ⟨rfl, rfl, ?_⟩
  rintro ⟨k, k', hk, _, _⟩
  cases hk

/-- C31, from empty tables: manager 100 adds a warehouse, which gets id 0, and
ships an empty pick list from it with carrier 300.  Both actions succeed, and
carrier 300 is left with a manifest that no cargo record of the carrier
references. -/
theorem shipInventory_leaves_empty_manifest :
    ∃ db1 db2,
      SupplyChain.addWarehouse SupplyChain.exampleCarrierContext SupplyChain.emptyDatabase
        100 "north" = .ok db1 ∧
      SupplyChain.shipInventory SupplyChain.exampleCarrierContext db1 0 100 300 [] true
        "empty load" = .ok db2 ∧
      db2.manifests 300 = [⟨0, "empty load", 0⟩] ∧
      db2.cargo 300 = [] ∧
      ∃ m ∈ db2.manifests 300, ∀ c ∈ db2.cargo 300, c.manifest ≠ m.id :=
  ⟨_, _, rfl, rfl, rfl, rfl, ⟨0, "empty load", 0⟩, List.mem_singleton.mpr rfl,
    fun _ hc => nomatch hc⟩

/-- A second way to an empty manifest, from empty tables: after two shipments of
10 units each with carrier 300, removing the whole cargo entry 0 (of manifest 0)
while naming manifest 1 succeeds and keeps both manifests, although no cargo
record references manifest 0 any more. -/
theorem removeCargo_orphans_manifest :
    ∃ db1 db2 db3 db4 db5,
      SupplyChain.addWarehouse SupplyChain.exampleCarrierContext SupplyChain.emptyDatabase
        100 "north" = .ok db1 ∧
      SupplyChain.addInventory SupplyChain.exampleCarrierContext db1 0 100 "graphite" 40 =
        .ok db2 ∧
      SupplyChain.shipInventory SupplyChain.exampleCarrierContext db2 0 100 300 [(0, 10)] true
        "first load" = .ok db3 ∧
      SupplyChain.shipInventory SupplyChain.exampleCarrierContext db3 0 100 300 [(0, 10)] true
        "second load" = .ok db4 ∧
      SupplyChain.removeCargo SupplyChain.exampleCarrierContext db4 300 1 0 10 "lost" =
        .ok db5 ∧
      db5.manifests 300 = [⟨0, "first load", 0⟩, ⟨1, "second load", 0⟩] ∧
      db5.cargo 300 = [⟨1, 1, "graphite", 8, [8], 10⟩] :=
  ⟨_, _, _, _, _, rfl, rfl, rfl, rfl, rfl, rfl, rfl⟩

set_option maxRecDepth 100000 in
/-- C34, evaluated on the shipped example state: `removeCargo` rejects a
documentation of exactly 250 characters with the length failure, although it
accepts one of 249 characters, and `deliverCargo` and `transferCargo` accept
250 characters. -/
theorem removeCargo_rejects_250 :
    (SupplyChain.textOfLength 250).length = SupplyChain.MAX_DESCRIPTION_SIZE ∧
      SupplyChain.removeCargo SupplyChain.exampleCarrierContext SupplyChain.exampleShipped
        300 0 1 10 (SupplyChain.textOfLength 250) =
          .error (.VerifyFailed "Documentation size cannot exceed") ∧
      (∃ db', SupplyChain.removeCargo SupplyChain.exampleCarrierContext
        SupplyChain.exampleShipped 300 0 1 10 (SupplyChain.textOfLength 249) = .ok db') ∧
      (∃ db', SupplyChain.deliverCargo SupplyChain.exampleCarrierContext
        SupplyChain.exampleShipped 300 1 100 0 [] (SupplyChain.textOfLength 250) = .ok db') ∧
      (∃ db', SupplyChain.transferCargo SupplyChain.exampleCarrierContext
        SupplyChain.exampleShipped 300 400 0 [] (SupplyChain.textOfLength 250) = .ok db') :=
  ⟨rfl, rfl, ⟨_, rfl⟩, ⟨_, rfl⟩, ⟨_, rfl⟩⟩

/-- C35, evaluated on a record holding `2^32 - 6` units: the relative adjustment
`+5` would bring the quantity to `2^32 - 1`, which fits the unsigned 32-bit
field, yet `adjustInventory` rejects it with the overflow failure; `+4` is
accepted. -/
theorem adjustInventory_rejects_exact_fit :
    Table.find SupplyChain.Inventory.primary_key (SupplyChain.exampleNearFull.stock 1) 1 =
        some ⟨1, "sand", 5, [], 4294967290⟩ ∧
      (4294967290 : Int) + 5 ≤ 2 ^ 32 - 1 ∧
      SupplyChain.adjustInventory SupplyChain.exampleContext SupplyChain.exampleNearFull 1 100 1
        none (some (.int32_t 5)) "Restock" =
          .error (.VerifyFailed "Cannot adjust inventory quantity up by") ∧
      (∃ db', SupplyChain.adjustInventory SupplyChain.exampleContext
        SupplyChain.exampleNearFull 1 100 1 none (some (.int32_t 4)) "Restock" = .ok db') :=
  ⟨rfl, by norm_num, rfl, ⟨_, rfl⟩⟩

/-- C39: quantity is conserved and never wraps when stock moves (table ids
unique, cargo rows in ascending order of id, quantities within `uint32_t`, pick
lists with ascending ids as in a `std::map`).  In every successful
`transferInventory`, `shipInventory`, `transferCargo` and `deliverCargo`, for
each moved item the quantity of the record created at the destination plus the
quantity left in the source record (0 if it was erased) is the source record's
quantity before the call, and the amount taken is at most that quantity; in
every successful `manufactureInventory`, `removeInventory` and `removeCargo`
the amount subtracted from a record is at most the record's quantity. -/
theorem quantity_conserved (ctx : SupplyChain.Context) (db db' : SupplyChain.Database)
    (hstockIds : ∀ w, ((db.stock w).map SupplyChain.Inventory.primary_key).Nodup)
    (hstockQ : ∀ w, ∀ r ∈ db.stock w, r.quantity < 2 ^ 32)
    (hcargoIds : ∀ a, (db.cargo a).Pairwise (fun x y => x.id < y.id))
    (hcargoQ : ∀ a, ∀ c ∈ db.cargo a, c.quantity < 2 ^ 32) :
    (∀ source sourceManager destination destinationManager L deleteConsumed documentation,
        L.Pairwise (fun x y => x.1 < y.1) →
        SupplyChain.transferInventory ctx db source sourceManager destination
          destinationManager L deleteConsumed documentation = .ok db' →
        ∃ news, db'.stock destination = db.stock destination ++ news ∧
          List.Forall₂ (fun e n => ∃ r,
            Table.find SupplyChain.Inventory.primary_key (db.stock source) e.1 = some r ∧
            e.2 ≤ r.quantity ∧
            n.quantity + SupplyChain.Inventory.remaining
              (Table.find SupplyChain.Inventory.primary_key (db'.stock source) e.1) =
                r.quantity) L news) ∧
      (∀ warehouseId manager carrier L deleteConsumed documentation,
        L.Pairwise (fun x y => x.1 < y.1) →
        SupplyChain.shipInventory ctx db warehouseId manager carrier L deleteConsumed
          documentation = .ok db' →
        ∃ news, db'.cargo carrier = db.cargo carrier ++ news ∧
          List.Forall₂ (fun e n => ∃ r,
            Table.find SupplyChain.Inventory.primary_key (db.stock warehouseId) e.1 =
              some r ∧
            e.2 ≤ r.quantity ∧
            n.quantity + SupplyChain.Inventory.remaining
              (Table.find SupplyChain.Inventory.primary_key (db'.stock warehouseId) e.1) =
                r.quantity) L news) ∧
      (∀ source destination manifestId submanifest documentation,
        submanifest.Pairwise (fun x y => x.1 < y.1) →
        SupplyChain.transferCargo ctx db source destination manifestId submanifest
          documentation = .ok db' →
        ∃ news, db'.cargo destination = db.cargo destination ++ news ∧
          List.Forall₂ (fun e n => ∃ c,
            Table.find SupplyChain.Cargo.primary_key (db.cargo source) e.1 = some c ∧
            e.2 ≤ c.quantity ∧
            n.quantity + SupplyChain.Cargo.remaining
              (Table.find SupplyChain.Cargo.primary_key (db'.cargo source) e.1) =
                c.quantity)
            (SupplyChain.effectiveSubmanifest (db.cargo source) manifestId submanifest)
            news) ∧
      (∀ carrier warehouseId manager manifestId submanifest documentation,
        submanifest.Pairwise (fun x y => x.1 < y.1) →
        SupplyChain.deliverCargo ctx db carrier warehouseId manager manifestId submanifest
          documentation = .ok db' →
        ∃ news, db'.stock warehouseId = db.stock warehouseId ++ news ∧
          List.Forall₂ (fun e n => ∃ c,
            Table.find SupplyChain.Cargo.primary_key (db.cargo carrier) e.1 = some c ∧
            e.2 ≤ c.quantity ∧
            n.quantity + SupplyChain.Cargo.remaining
              (Table.find SupplyChain.Cargo.primary_key (db'.cargo carrier) e.1) =
                c.quantity)
            (SupplyChain.effectiveSubmanifest (db.cargo carrier) manifestId submanifest)
            news) ∧
      (∀ warehouseId manager C P deleteConsumed documentation,
        C.Pairwise (fun x y => x.1 < y.1) →
        SupplyChain.manufactureInventory ctx db warehouseId manager C P deleteConsumed
          documentation = .ok db' →
        ∀ e ∈ C, ∃ r,
          Table.find SupplyChain.Inventory.primary_key (db.stock warehouseId) e.1 = some r ∧
          e.2 ≤ r.quantity) ∧
      (∀ warehouseId manager inventoryId quantity deleteRecord documentation,
        SupplyChain.removeInventory ctx db warehouseId manager inventoryId quantity
          deleteRecord documentation = .ok db' →
        ∃ r,
          Table.find SupplyChain.Inventory.primary_key (db.stock warehouseId) inventoryId =
            some r ∧
          quantity ≤ r.quantity) ∧
      (∀ carrier manifestId cargoId quantity documentation,
        SupplyChain.removeCargo ctx db carrier manifestId cargoId quantity documentation =
          .ok db' →
        ∃ c, Table.find SupplyChain.Cargo.primary_key (db.cargo carrier) cargoId = some c ∧
          quantity ≤ c.quantity) := by
  refine ⟨?_, ?_, ?_, ?_, ?_, ?_, ?_⟩
  · intro source sourceManager destination destinationManager L deleteConsumed documentation
      hsorted h
    obtain ⟨news, hd, hnews⟩ := SupplyChain.transferInventory_moves hsorted (hstockIds source)
      (hstockQ source) h
    refine ⟨news, hd, hnews.imp ?_⟩
    rintro e n ⟨r, hf, hle, _, _, _, hq, hafter⟩
    refine ⟨r, hf, hle, ?_⟩
    rw [hq]
    exact (SupplyChain.Inventory.after_pick_inventory_facts _ r e.2 _ hle (fun hP => hP.2) hafter).1
  · intro warehouseId manager carrier L deleteConsumed documentation hsorted h
    obtain ⟨news, hd, hnews⟩ := SupplyChain.shipInventory_moves hsorted (hstockIds warehouseId)
      (hstockQ warehouseId) h
    refine ⟨news, hd, hnews.imp ?_⟩
    rintro e n ⟨r, hf, hle, _, _, _, hq, hafter⟩
    refine ⟨r, hf, hle, ?_⟩
    rw [hq]
    exact (SupplyChain.Inventory.after_pick_inventory_facts _ r e.2 _ hle (fun hP => hP.2) hafter).1
  · intro source destination manifestId submanifest documentation hsorted h
    obtain ⟨news, hd, hnews⟩ := SupplyChain.transferCargo_moves hsorted (hcargoIds source)
      (hcargoQ source) h
    refine ⟨news, hd, hnews.imp ?_⟩
    rintro e n ⟨c, hf, _, hle, _, _, _, hq, hafter⟩
    refine ⟨c, hf, hle, ?_⟩
    rw [hq]
    exact (SupplyChain.Cargo.after_pick_cargo_facts _ c e.2 _ hle (fun hP => hP) hafter).1
  · intro carrier warehouseId manager manifestId submanifest documentation hsorted h
    obtain ⟨news, hd, hnews⟩ := SupplyChain.deliverCargo_moves hsorted (hcargoIds carrier)
      (hcargoQ carrier) h
    refine ⟨news, hd, hnews.imp ?_⟩
    rintro e n ⟨c, hf, _, hle, _, _, _, hq, hafter⟩
    refine ⟨c, hf, hle, ?_⟩
    rw [hq]
    exact (SupplyChain.Cargo.after_pick_cargo_facts _ c e.2 _ hle (fun hP => hP) hafter).1
  · intro warehouseId manager C P deleteConsumed documentation hsorted h e he
    obtain ⟨_, _, picked, _, hpicked, _⟩ := SupplyChain.manufactureInventory_ok h
    obtain ⟨r, hf, _, hle⟩ := SupplyChain.processPickList_amounts _ _ _ _ _ hsorted hpicked
      e he
    exact ⟨r, hf, hle⟩
  · intro warehouseId manager inventoryId quantity deleteRecord documentation h
    exact SupplyChain.removeInventory_ok h
  · intro carrier manifestId cargoId quantity documentation h
    obtain ⟨_, c, hf, _, hle⟩ := SupplyChain.removeCargo_ok h
    exact ⟨c, hf, hle⟩

/-- Witness for C39: moving all 40 units of graphite and 4 of the 10 units of
lumber from warehouse 1 to warehouse 2, keeping the source records. -/
theorem quantity_conserved_witness :
    ∃ db' news, SupplyChain.transferInventory SupplyChain.exampleContext
        SupplyChain.exampleDatabase 1 100 2 200 [(1, 40), (2, 4)] false "Moving" = .ok db' ∧
      db'.stock 2 = SupplyChain.exampleDatabase.stock 2 ++ news ∧
      List.Forall₂ (fun e n => ∃ r,
        Table.find SupplyChain.Inventory.primary_key (SupplyChain.exampleDatabase.stock 1)
          e.1 = some r ∧
        e.2 ≤ r.quantity ∧
        n.quantity + SupplyChain.Inventory.remaining
          (Table.find SupplyChain.Inventory.primary_key (db'.stock 1) e.1) = r.quantity)
        [(1, 40), (2, 4)] news := by
  obtain ⟨db', hok⟩ : ∃ db', SupplyChain.transferInventory SupplyChain.exampleContext
      SupplyChain.exampleDatabase 1 100 2 200 [(1, 40), (2, 4)] false "Moving" = .ok db' :=
    ⟨_, rfl⟩
  obtain ⟨news, hd, hnews⟩ := (quantity_conserved SupplyChain.exampleContext
    SupplyChain.exampleDatabase db' SupplyChain.exampleDatabase_stock_ids
    SupplyChain.exampleDatabase_stock_quantities (fun _ => List.Pairwise.nil)
    (fun _ c hc => absurd hc (List.not_mem_nil c))).1 1 100 2 200 [(1, 40), (2, 4)] false
    "Moving" (by decide) hok
  exact ⟨db', news, hok, hd, hnews⟩

/-- C40: provenance is preserved across movements (table ids unique, cargo rows
in ascending order of id, quantities within `uint32_t`, pick lists with
ascending ids as in a `std::map`).  In every successful `transferInventory`,
`shipInventory`, `transferCargo` and `deliverCargo`, each record created has
the origin of the record it was taken from and that record's movement history
with the current transaction id appended, one entry longer; and the source
record, if it is still there, has the origin and movement it had. -/
theorem provenance_preserved (ctx : SupplyChain.Context) (db db' : SupplyChain.Database)
    (hstockIds : ∀ w, ((db.stock w).map SupplyChain.Inventory.primary_key).Nodup)
    (hstockQ : ∀ w, ∀ r ∈ db.stock w, r.quantity < 2 ^ 32)
    (hcargoIds : ∀ a, (db.cargo a).Pairwise (fun x y => x.id < y.id))
    (hcargoQ : ∀ a, ∀ c ∈ db.cargo a, c.quantity < 2 ^ 32) :
    (∀ source sourceManager destination destinationManager L deleteConsumed documentation,
        L.Pairwise (fun x y => x.1 < y.1) →
        SupplyChain.transferInventory ctx db source sourceManager destination
          destinationManager L deleteConsumed documentation = .ok db' →
        ∃ news, db'.stock destination = db.stock destination ++ news ∧
          List.Forall₂ (fun e n => ∃ r,
            Table.find SupplyChain.Inventory.primary_key (db.stock source) e.1 = some r ∧
            n.origin = r.origin ∧
            n.movement = r.movement ++ [ctx.currentTransactionId] ∧
            n.movement.length = r.movement.length + 1 ∧
            ∀ r', Table.find SupplyChain.Inventory.primary_key (db'.stock source) e.1 =
                some r' → r'.origin = r.origin ∧ r'.movement = r.movement) L news) ∧
      (∀ warehouseId manager carrier L deleteConsumed documentation,
        L.Pairwise (fun x y => x.1 < y.1) →
        SupplyChain.shipInventory ctx db warehouseId manager carrier L deleteConsumed
          documentation = .ok db' →
        ∃ news, db'.cargo carrier = db.cargo carrier ++ news ∧
          List.Forall₂ (fun e n => ∃ r,
            Table.find SupplyChain.Inventory.primary_key (db.stock warehouseId) e.1 =
              some r ∧
            n.origin = r.origin ∧
            n.movement = r.movement ++ [ctx.currentTransactionId] ∧
            n.movement.length = r.movement.length + 1 ∧
            ∀ r', Table.find SupplyChain.Inventory.primary_key (db'.stock warehouseId) e.1 =
                some r' → r'.origin = r.origin ∧ r'.movement = r.movement) L news) ∧
      (∀ source destination manifestId submanifest documentation,
        submanifest.Pairwise (fun x y => x.1 < y.1) →
        SupplyChain.transferCargo ctx db source destination manifestId submanifest
          documentation = .ok db' →
        ∃ news, db'.cargo destination = db.cargo destination ++ news ∧
          List.Forall₂ (fun e n => ∃ c,
            Table.find SupplyChain.Cargo.primary_key (db.cargo source) e.1 = some c ∧
            n.origin = c.origin ∧
            n.movement = c.movement ++ [ctx.currentTransactionId] ∧
            n.movement.length = c.movement.length + 1 ∧
            ∀ c', Table.find SupplyChain.Cargo.primary_key (db'.cargo source) e.1 =
                some c' → c'.origin = c.origin ∧ c'.movement = c.movement)
            (SupplyChain.effectiveSubmanifest (db.cargo source) manifestId submanifest)
            news) ∧
      (∀ carrier warehouseId manager manifestId submanifest documentation,
        submanifest.Pairwise (fun x y => x.1 < y.1) →
        SupplyChain.deliverCargo ctx db carrier warehouseId manager manifestId submanifest
          documentation = .ok db' →
        ∃ news, db'.stock warehouseId = db.stock warehouseId ++ news ∧
          List.Forall₂ (fun e n => ∃ c,
            Table.find SupplyChain.Cargo.primary_key (db.cargo carrier) e.1 = some c ∧
            n.origin = c.origin ∧
            n.movement = c.movement ++ [ctx.currentTransactionId] ∧
            n.movement.length = c.movement.length + 1 ∧
            ∀ c', Table.find SupplyChain.Cargo.primary_key (db'.cargo carrier) e.1 =
                some c' → c'.origin = c.origin ∧ c'.movement = c.movement)
            (SupplyChain.effectiveSubmanifest (db.cargo carrier) manifestId submanifest)
            news) := by
  refine ⟨?_, ?_, ?_, ?_⟩
  · intro source sourceManager destination destinationManager L deleteConsumed documentation
      hsorted h
    obtain ⟨news, hd, hnews⟩ := SupplyChain.transferInventory_moves hsorted (hstockIds source)
      (hstockQ source) h
    refine ⟨news, hd, hnews.imp ?_⟩
    rintro e n ⟨r, hf, hle, _, horigin, hmovement, _, hafter⟩
    exact ⟨r, hf, horigin, hmovement, by rw [hmovement]; simp,
      (SupplyChain.Inventory.after_pick_inventory_facts _ r e.2 _ hle (fun hP => hP.2) hafter).2⟩
  · intro warehouseId manager carrier L deleteConsumed documentation hsorted h
    obtain ⟨news, hd, hnews⟩ := SupplyChain.shipInventory_moves hsorted (hstockIds warehouseId)
      (hstockQ warehouseId) h
    refine ⟨news, hd, hnews.imp ?_⟩
    rintro e n ⟨r, hf, hle, _, horigin, hmovement, _, hafter⟩
    exact ⟨r, hf, horigin, hmovement, by rw [hmovement]; simp,
      (SupplyChain.Inventory.after_pick_inventory_facts _ r e.2 _ hle (fun hP => hP.2) hafter).2⟩
  · intro source destination manifestId submanifest documentation hsorted h
    obtain ⟨news, hd, hnews⟩ := SupplyChain.transferCargo_moves hsorted (hcargoIds source)
      (hcargoQ source) h
    refine ⟨news, hd, hnews.imp ?_⟩
    rintro e n ⟨c, hf, _, hle, _, horigin, hmovement, _, hafter⟩
    exact ⟨c, hf, horigin, hmovement, by rw [hmovement]; simp,
      (SupplyChain.Cargo.after_pick_cargo_facts _ c e.2 _ hle (fun hP => hP) hafter).2⟩
  · intro carrier warehouseId manager manifestId submanifest documentation hsorted h
    obtain ⟨news, hd, hnews⟩ := SupplyChain.deliverCargo_moves hsorted (hcargoIds carrier)
      (hcargoQ carrier) h
    refine ⟨news, hd, hnews.imp ?_⟩
    rintro e n ⟨c, hf, _, hle, _, horigin, hmovement, _, hafter⟩
    exact ⟨c, hf, horigin, hmovement, by rw [hmovement]; simp,
      (SupplyChain.Cargo.after_pick_cargo_facts _ c e.2 _ hle (fun hP => hP) hafter).2⟩

/-- Witness for C40: shipping all graphite and 4 units of lumber from warehouse 1
with carrier 300. -/
theorem provenance_preserved_witness :
    ∃ db' news, SupplyChain.shipInventory SupplyChain.exampleCarrierContext
        SupplyChain.exampleDatabase 1 100 300 [(1, 40), (2, 4)] true "load" = .ok db' ∧
      db'.cargo 300 = SupplyChain.exampleDatabase.cargo 300 ++ news ∧
      List.Forall₂ (fun e n => ∃ r,
        Table.find SupplyChain.Inventory.primary_key (SupplyChain.exampleDatabase.stock 1)
          e.1 = some r ∧
        n.origin = r.origin ∧
        n.movement = r.movement ++ [SupplyChain.exampleCarrierContext.currentTransactionId] ∧
        n.movement.length = r.movement.length + 1 ∧
        ∀ r', Table.find SupplyChain.Inventory.primary_key (db'.stock 1) e.1 = some r' →
          r'.origin = r.origin ∧ r'.movement = r.movement) [(1, 40), (2, 4)] news := by
  obtain ⟨db', hok⟩ : ∃ db', SupplyChain.shipInventory SupplyChain.exampleCarrierContext
      SupplyChain.exampleDatabase 1 100 300 [(1, 40), (2, 4)] true "load" = .ok db' :=
    ⟨_, rfl⟩
  obtain ⟨news, hd, hnews⟩ := (provenance_preserved SupplyChain.exampleCarrierContext
    SupplyChain.exampleDatabase db' SupplyChain.exampleDatabase_stock_ids
    SupplyChain.exampleDatabase_stock_quantities (fun _ => List.Pairwise.nil)
    (fun _ c hc => absurd hc (List.not_mem_nil c))).2.1 1 100 300 [(1, 40), (2, 4)] true
    "load" (by decide) hok
  exact ⟨db', news, hok, hd, hnews⟩

/-- C36: in the commit loops, the first remaining picked record always has the
id being processed.  For a pick list `L` with ascending ids (a `std::map`) and
the records `processPickList` picked for it, and for the submanifest `S` and
the cargo to go that `transferCargo` and `deliverCargo` prepare (from the given
submanifest, or from the whole manifest of a cargo table in ascending order of
id): every iteration finds its id first; the loops of `manufactureInventory`,
`transferInventory` and `shipInventory` return; and the loops of
`transferCargo` and `deliverCargo` return or fail the manifest check, never
with "Cannot find the desired inventory item by ID". -/
theorem commit_loops_find_first (stock : List SupplyChain.Inventory) (L : List (Nat × Nat))
    (picked : List (Nat × SupplyChain.Inventory))
    (hsorted : L.Pairwise (fun a b => a.1 < b.1))
    (hpicked : SupplyChain.processPickList SupplyChain.Inventory.primary_key
      SupplyChain.Inventory.quantity stock L = .ok picked)
    (cargo : List SupplyChain.Cargo) (manifestId : ManifestId)
    (submanifest S : List (Nat × Nat)) (cargoToGo : List (Nat × SupplyChain.Cargo))
    (hsubmanifest : submanifest.Pairwise (fun a b => a.1 < b.1))
    (hcargo : cargo.Pairwise (fun a b => a.id < b.id))
    (hpick : (submanifest = [] ∧
        SupplyChain.pickEntireManifest (Table.equalRange SupplyChain.Cargo.manifest_key cargo
          (SupplyChain.manifestKey manifestId)) [] [] = (S, cargoToGo)) ∨
      (submanifest ≠ [] ∧ S = submanifest ∧
        SupplyChain.processPickList SupplyChain.Cargo.primary_key SupplyChain.Cargo.quantity
          cargo submanifest = .ok cargoToGo)) :
    (SupplyChain.PickedItems.firstHits L picked = true ∧
        (∀ manager deleteConsumed s, ∃ s',
          SupplyChain.manufactureInventory.consumeLoop manager deleteConsumed L picked s =
            .ok s') ∧
        (∀ ctx sourceManager destinationManager deleteConsumed s d, ∃ r,
          SupplyChain.transferInventory.loop ctx sourceManager destinationManager
            deleteConsumed L picked s d = .ok r) ∧
        (∀ ctx manager carrier newManifestId deleteConsumed s d, ∃ r,
          SupplyChain.shipInventory.loop ctx manager carrier newManifestId deleteConsumed
            L picked s d = .ok r)) ∧
      (SupplyChain.PickedItems.firstHits S cargoToGo = true ∧
        (∀ ctx sourceCarrier destinationCarrier newManifestId s d,
          SupplyChain.transferCargo.loop ctx sourceCarrier destinationCarrier manifestId
            newManifestId S cargoToGo s d ≠
              .error (.VerifyFailed "Cannot find the desired inventory item by ID")) ∧
        (∀ ctx carrier manager s d,
          SupplyChain.deliverCargo.loop ctx carrier manager manifestId S cargoToGo s d ≠
            .error (.VerifyFailed "Cannot find the desired inventory item by ID"))) := by
  have hids : List.Forall₂ (fun e p => p.1 = e.1) L picked :=
    (SupplyChain.processPickList_rows _ _ _ _ _ hsorted hpicked).imp (fun _ _ h => h.1)
  have hcids : List.Forall₂ (fun e p => p.1 = e.1) S cargoToGo :=
    (SupplyChain.CargoLoop.picked_facts manifestId submanifest S cargoToGo cargo hsubmanifest
      hcargo hpick).2.2.1.imp (fun _ _ h => h.1)
  refine ⟨⟨SupplyChain.PickedItems.firstHits_of_ids L picked hids,
    fun manager deleteConsumed s =>
      SupplyChain.manufactureInventory.consumeLoop_total manager deleteConsumed L picked s hids,
    ?_, ?_⟩, SupplyChain.PickedItems.firstHits_of_ids S cargoToGo hcids, ?_, ?_⟩
  · intro ctx sourceManager destinationManager deleteConsumed s d
    rw [SupplyChain.transferInventory_loop_eq]
    exact SupplyChain.PickLoop.run_returns _ _ _ _ _ _ _ _ _ L picked s d hids (fun _ => rfl)
  · intro ctx manager carrier newManifestId deleteConsumed s d
    rw [SupplyChain.shipInventory_loop_eq]
    exact SupplyChain.PickLoop.run_returns _ _ _ _ _ _ _ _ _ L picked s d hids (fun _ => rfl)
  · intro ctx sourceCarrier destinationCarrier newManifestId s d hfail
    rw [SupplyChain.transferCargo_loop_eq] at hfail
    rcases SupplyChain.PickLoop.run_finds SupplyChain.Cargo.primary_key
      SupplyChain.Cargo.subtract (fun r q => q == r.quantity)
      (fun r => r.manifest == manifestId) "Cannot transfer cargo: submanifest specifies ID"
      SupplyChain.Cargo.primary_key
      (fun newId r q => (⟨newId, newManifestId, r.description, r.origin,
        r.movement ++ [ctx.currentTransactionId], q⟩ : SupplyChain.Cargo))
      sourceCarrier destinationCarrier S cargoToGo s d hcids with ⟨r, hok⟩ | herr
    · rw [hok] at hfail
      cases hfail
    · rw [herr] at hfail
      exact absurd (Failure.VerifyFailed.inj (Except.error.inj hfail)) (by decide)
  · intro ctx carrier manager s d hfail
    rw [SupplyChain.deliverCargo_loop_eq] at hfail
    rcases SupplyChain.PickLoop.run_finds SupplyChain.Cargo.primary_key
      SupplyChain.Cargo.subtract (fun r q => q == r.quantity)
      (fun r => r.manifest == manifestId) "Cannot deliver cargo: submanifest specifies ID"
      SupplyChain.Inventory.primary_key
      (fun newId r q => (⟨newId, r.description, r.origin,
        r.movement ++ [ctx.currentTransactionId], q⟩ : SupplyChain.Inventory))
      carrier manager S cargoToGo s d hcids with ⟨r, hok⟩ | herr
    · rw [hok] at hfail
      cases hfail
    · rw [herr] at hfail
      exact absurd (Failure.VerifyFailed.inj (Except.error.inj hfail)) (by decide)

/-- Witness for C36: the pick list for graphite and lumber of warehouse 1, and
the whole manifest 0 of carrier 300. -/
theorem commit_loops_find_first_witness :
    SupplyChain.PickedItems.firstHits [(1, 40), (2, 4)]
        [(1, (⟨1, "graphite", 5, [], 40⟩ : SupplyChain.Inventory)),
          (2, ⟨2, "lumber", 5, [], 10⟩)] = true ∧
      ∀ ctx carrier manager s d,
        SupplyChain.deliverCargo.loop ctx carrier manager 0 [(0, 40), (1, 10)]
          [(0, ⟨0, 0, "graphite", 5, [7], 40⟩), (1, ⟨1, 0, "lumber", 5, [7], 10⟩)] s d ≠
            .error (.VerifyFailed "Cannot find the desired inventory item by ID") := by
  have h := commit_loops_find_first (SupplyChain.exampleDatabase.stock 1) [(1, 40), (2, 4)]
    [(1, ⟨1, "graphite", 5, [], 40⟩), (2, ⟨2, "lumber", 5, [], 10⟩)] (by decide) rfl
    (SupplyChain.exampleShipped.cargo 300) 0 [] [(0, 40), (1, 10)]
    [(0, ⟨0, 0, "graphite", 5, [7], 40⟩), (1, ⟨1, 0, "lumber", 5, [7], 10⟩)] (by decide)
    (by decide) (Or.inl ⟨rfl, rfl⟩)
  exact ⟨h.1.1, h.2.2.2⟩

/-- C37: `transferCargo` and `deliverCargo` only move cargo of the named manifest
(submanifest ids ascending, as in a `std::map`; cargo rows in ascending order of
unique ids; quantities within `uint32_t`).  When the submanifest names a cargo
id of the carrier whose manifest differs from `manifestId`, both calls fail;
and after a successful call every record created at the destination was made
from a cargo entry whose manifest is `manifestId`. -/
theorem cargo_moves_only_from_manifest (ctx : SupplyChain.Context)
    (db : SupplyChain.Database) (carrier : AccountHandle) (manifestId : ManifestId)
    (submanifest : List (Nat × Nat))
    (hsorted : submanifest.Pairwise (fun a b => a.1 < b.1))
    (hstock : (db.cargo carrier).Pairwise (fun a b => a.id < b.id))
    (hquantity : ∀ c ∈ db.cargo carrier, c.quantity < 2 ^ 32) :
    ((∃ e ∈ submanifest, ∃ c,
          Table.find SupplyChain.Cargo.primary_key (db.cargo carrier) e.1 = some c ∧
          c.manifest ≠ manifestId) →
        (∀ destinationCarrier documentation, ∃ failure,
          SupplyChain.transferCargo ctx db carrier destinationCarrier manifestId submanifest
            documentation = .error failure) ∧
        (∀ warehouseId manager documentation, ∃ failure,
          SupplyChain.deliverCargo ctx db carrier warehouseId manager manifestId submanifest
            documentation = .error failure)) ∧
      (∀ destinationCarrier documentation db',
        SupplyChain.transferCargo ctx db carrier destinationCarrier manifestId submanifest
          documentation = .ok db' →
        ∃ news, db'.cargo destinationCarrier = db.cargo destinationCarrier ++ news ∧
          List.Forall₂ (fun e n => ∃ c,
            Table.find SupplyChain.Cargo.primary_key (db.cargo carrier) e.1 = some c ∧
            c.manifest = manifestId ∧ n.description = c.description ∧ n.quantity = e.2)
            (SupplyChain.effectiveSubmanifest (db.cargo carrier) manifestId submanifest)
            news) ∧
      (∀ warehouseId manager documentation db',
        SupplyChain.deliverCargo ctx db carrier warehouseId manager manifestId submanifest
          documentation = .ok db' →
        ∃ news, db'.stock warehouseId = db.stock warehouseId ++ news ∧
          List.Forall₂ (fun e n => ∃ c,
            Table.find SupplyChain.Cargo.primary_key (db.cargo carrier) e.1 = some c ∧
            c.manifest = manifestId ∧ n.description = c.description ∧ n.quantity = e.2)
            (SupplyChain.effectiveSubmanifest (db.cargo carrier) manifestId submanifest)
            news) := by
  have htransfer : ∀ destinationCarrier documentation db',
      SupplyChain.transferCargo ctx db carrier destinationCarrier manifestId submanifest
        documentation = .ok db' →
      ∃ news, db'.cargo destinationCarrier = db.cargo destinationCarrier ++ news ∧
        List.Forall₂ (fun e n => ∃ c,
          Table.find SupplyChain.Cargo.primary_key (db.cargo carrier) e.1 = some c ∧
          c.manifest = manifestId ∧ n.description = c.description ∧ n.quantity = e.2)
          (SupplyChain.effectiveSubmanifest (db.cargo carrier) manifestId submanifest)
          news := by
    intro destinationCarrier documentation db' h
    obtain ⟨news, hd, hnews⟩ := SupplyChain.transferCargo_moves hsorted hstock hquantity h
    refine ⟨news, hd, hnews.imp ?_⟩
    rintro e n ⟨c, hf, hm, _, hdescription, _, _, hq, _⟩
    exact ⟨c, hf, hm, hdescription, hq⟩
  have hdeliver : ∀ warehouseId manager documentation db',
      SupplyChain.deliverCargo ctx db carrier warehouseId manager manifestId submanifest
        documentation = .ok db' →
      ∃ news, db'.stock warehouseId = db.stock warehouseId ++ news ∧
        List.Forall₂ (fun e n => ∃ c,
          Table.find SupplyChain.Cargo.primary_key (db.cargo carrier) e.1 = some c ∧
          c.manifest = manifestId ∧ n.description = c.description ∧ n.quantity = e.2)
          (SupplyChain.effectiveSubmanifest (db.cargo carrier) manifestId submanifest)
          news := by
    intro warehouseId manager documentation db' h
    obtain ⟨news, hd, hnews⟩ := SupplyChain.deliverCargo_moves hsorted hstock hquantity h
    refine ⟨news, hd, hnews.imp ?_⟩
    rintro e n ⟨c, hf, hm, _, hdescription, _, _, hq, _⟩
    exact ⟨c, hf, hm, hdescription, hq⟩
  refine ⟨?_, htransfer, hdeliver⟩
  rintro ⟨e, he, c, hf, hm⟩
  have heff : SupplyChain.effectiveSubmanifest (db.cargo carrier) manifestId submanifest =
      submanifest := by
    cases submanifest with
    | nil => cases he
    | cons _ _ => rfl
  constructor
  · intro destinationCarrier documentation
    cases hres : SupplyChain.transferCargo ctx db carrier destinationCarrier manifestId
        submanifest documentation with
    | error failure => exact ⟨failure, rfl⟩
    | ok db' =>
      exfalso
      obtain ⟨news, _, hnews⟩ := htransfer destinationCarrier documentation db' hres
      rw [heff] at hnews
      obtain ⟨n, _, c', hf', hm', _⟩ := List.Forall₂.exists_of_mem_left hnews e he
      rw [hf] at hf'
      cases hf'
      exact hm hm'
  · intro warehouseId manager documentation
    cases hres : SupplyChain.deliverCargo ctx db carrier warehouseId manager manifestId
        submanifest documentation with
    | error failure => exact ⟨failure, rfl⟩
    | ok db' =>
      exfalso
      obtain ⟨news, _, hnews⟩ := hdeliver warehouseId manager documentation db' hres
      rw [heff] at hnews
      obtain ⟨n, _, c', hf', hm', _⟩ := List.Forall₂.exists_of_mem_left hnews e he
      rw [hf] at hf'
      cases hf'
      exact hm hm'

/-- Witness for C37: carrier 300 holds cargo 0 on manifest 0 and cargo 1 on
manifest 1; a delivery of manifest 1 that names cargo 0 fails. -/
theorem cargo_moves_only_from_manifest_witness :
    ∃ failure, SupplyChain.deliverCargo SupplyChain.exampleCarrierContext
      SupplyChain.exampleTwoManifests 300 1 100 1 [(0, 40)] "Delivered" = .error failure :=
  ((cargo_moves_only_from_manifest SupplyChain.exampleCarrierContext
    SupplyChain.exampleTwoManifests 300 1 [(0, 40)] (by decide) (by decide) (by decide)).1
    ⟨(0, 40), by decide, ⟨0, 0, "graphite", 5, [7], 40⟩, rfl, by decide⟩).2 1 100 "Delivered"

end BAL
